import Mathlib

/-! State-tree migration (`actors/migration/top.go`).

A shallow embedding of `MigrateStateTree`, `migrateOneActor` and `InputTreeBalance`, and the
properties of the migration engine proved over it.

Modelling conventions:

* `big.Int` / `abi.TokenAmount` is `Int`; `uint64` call sequence numbers are `Nat`.
* A Go result pair `(value, err)` is kept as a pair where the function under study returns it
  (`MigrateStateTree`, `InputTreeBalance`); collaborators return `Except Error _`.
* The per-actor goroutines are sequentialised.  A task (one call of `migrateOneActor`) runs
  atomically at the moment it finishes.  The order in which tasks finish is chosen by an
  explicit schedule (`completionOrder`): of the tasks not yet finished only the first
  `MaxWorkers`, in `ForEach` order, hold a unit of the semaphore, and the schedule picks which
  of those finishes next.
* `concurrentPass`, `runPass` and `MigrateStateTree` are the runs in which the coordinator
  receives what each task sends on `errCh` / `transferCh` (in `READLOOP` or `READEND`) before
  the next task finishes, and in which `ctx` is not cancelled.  `Async.concurrentPass`,
  `Async.runPass` and `Async.MigrateStateTree` are the runs under any `Interleaving`: a task
  sends after `sem.Release(1)`, so the coordinator can miss its report, and `ctx` can be
  cancelled while the coordinator waits for the semaphore.
* Every event a task or the coordinator produces is recorded in a trace (`Event`).
-/

namespace Migration

/-! ## Data model -/

/-- An actor address.  State-tree keys are ID addresses, modelled by their number. -/
abbrev Address := Nat

/-- Token amounts are arbitrary-precision integers (`big.Int`). -/
abbrev TokenAmount := Int

/-- The eleven builtin actor types named by the keys of the `migrations` table. -/
inductive ActorKind
  | account
  | cron
  | init
  | storagemarket
  | multisig
  | paymentchannel
  | storagepower
  | reward
  | system
  | verifiedregistry
  | storageminer
  deriving DecidableEq, Repr

/-- Content identifiers (`cid.Cid`): the undefined cid, the code identifiers of the two actor
versions, and any other content hash (state heads, foreign code). -/
inductive Cid
  | Undef
  | actorsV0 (k : ActorKind)
  | actorsV2 (k : ActorKind)
  | block (n : Nat)
  deriving DecidableEq, Repr

/-- An entry of the state tree (`states.Actor`). -/
structure Actor where
  Code : Cid
  Head : Cid
  CallSeqNum : Nat
  Balance : TokenAmount
  deriving DecidableEq, Repr

/-- Error values.  `stateMigration` is the wrapper built at `top.go:232`,
`xerrors.Errorf("state migration error on %s actor at addr %s: %w", name, addr, err)`;
`waitWorkers` the one built at `top.go:157`. -/
inductive Error
  | other (msg : String)
  | errorf (msg : String)
  | stateMigration (actorName : String) (addr : Address) (cause : Error)
  | waitWorkers (cause : Error)
  deriving DecidableEq, Repr

/-- The result of one `StateMigration.MigrateState` call: the new head and the balance change,
or an error. -/
abbrev MigrateResult := Except Error (Cid × TokenAmount)

/-! ## The state tree and the store -/

/-- Insert-or-replace of one binding in an address-ordered list of bindings. -/
def insertEntry (addr : Address) (a : Actor) : List (Address × Actor) → List (Address × Actor)
  | [] => [(addr, a)]
  | (k, v) :: rest =>
    if addr < k then (addr, a) :: (k, v) :: rest
    else if addr = k then (addr, a) :: rest
    else (k, v) :: insertEntry addr a rest

/-- The binding of an address in a list of bindings. -/
def lookupEntry (addr : Address) : List (Address × Actor) → Option Actor
  | [] => none
  | (k, v) :: rest => if addr = k then some v else lookupEntry addr rest

theorem insertEntry_keys_subset (addr : Address) (a : Actor) (l : List (Address × Actor)) :
    ∀ k ∈ (insertEntry addr a l).map Prod.fst, k = addr ∨ k ∈ l.map Prod.fst := by
  induction l with
  | nil => intro k hk; simpa [insertEntry] using hk
  | cons hd tl ih =>
    obtain ⟨k0, v0⟩ := hd
    intro k hk
    unfold insertEntry at hk
    split_ifs at hk with h1 h2
    · simp only [List.map_cons, List.mem_cons] at hk ⊢
      tauto
    · simp only [List.map_cons, List.mem_cons] at hk ⊢
      tauto
    · simp only [List.map_cons, List.mem_cons] at hk ⊢
      rcases hk with hk | hk
      · tauto
      · rcases ih k hk with h | h <;> tauto

theorem insertEntry_ordered (addr : Address) (a : Actor) (l : List (Address × Actor))
    (h : (l.map Prod.fst).Pairwise (· < ·)) :
    ((insertEntry addr a l).map Prod.fst).Pairwise (· < ·) := by
  induction l with
  | nil => simp [insertEntry]
  | cons hd tl ih =>
    obtain ⟨k0, v0⟩ := hd
    simp only [List.map_cons, List.pairwise_cons] at h
    obtain ⟨hlt, htl⟩ := h
    unfold insertEntry
    split_ifs with h1 h2
    · simp only [List.map_cons, List.pairwise_cons, List.mem_cons]
      refine ⟨?_, hlt, htl⟩
      rintro k (rfl | hk)
      · exact h1
      · exact lt_trans h1 (hlt k hk)
    · subst h2
      simp only [List.map_cons, List.pairwise_cons]
      exact ⟨hlt, htl⟩
    · simp only [List.map_cons, List.pairwise_cons]
      refine ⟨?_, ih htl⟩
      intro k hk
      rcases insertEntry_keys_subset addr a tl k hk with rfl | hk
      · exact lt_of_le_of_ne (not_lt.mp h1) (Ne.symm h2)
      · exact hlt k hk

/-- Modelled from the spec: `states.Tree` (package `actors/states`, not among the sources), "a
content-addressed persistent mapping address → actor entry".  The mapping is kept in its
canonical form, the bindings in increasing address order, so that two trees with the same
bindings are equal. -/
structure Tree where
  entries : List (Address × Actor)
  ordered : (entries.map Prod.fst).Pairwise (· < ·)

theorem Tree.ext_entries {s t : Tree} (h : s.entries = t.entries) : s = t := by
  cases s; cases t; cases h; rfl

instance : DecidableEq Tree := fun s t =>
  if h : s.entries = t.entries then isTrue (Tree.ext_entries h)
  else isFalse (fun e => h (by rw [e]))

/-- The empty mapping (`adt.MakeEmptyMap`). -/
def Tree.empty : Tree := ⟨[], List.Pairwise.nil⟩

/-- The tree with one binding set or replaced. -/
def Tree.insert (t : Tree) (addr : Address) (a : Actor) : Tree :=
  ⟨insertEntry addr a t.entries, insertEntry_ordered addr a t.entries t.ordered⟩

/-- The sum of the balances of all entries of a tree. -/
def Tree.totalBalance (t : Tree) : TokenAmount := (t.entries.map fun e => e.2.Balance).sum

/-- The addresses bound in a tree, in increasing order. -/
def Tree.addresses (t : Tree) : List Address := t.entries.map Prod.fst

/-- A state root (`cid.Cid` used as the root of a state tree).  The root of a flushed tree
commits to the whole mapping, so it is modelled by the mapping itself. -/
inductive StateRoot
  | Undef
  | tree (t : Tree)
  deriving DecidableEq

/-- The two trees of a run. -/
inductive Side
  | input
  | output
  deriving DecidableEq, Repr

/-- The store operations behind the tree helpers; each can fail with an I/O error. -/
inductive StoreOp
  | loadTree (side : Side)
  | emptyMapRoot
  | forEach
  | getActor (side : Side) (addr : Address)
  | setActor (addr : Address) (actor : Actor)
  | flush
  deriving DecidableEq

/-- Modelled from the spec: the block store (`cbor.IpldStore`, an external collaborator).  Only
its failures are modelled ("store I/O failure — fatal, abort"): `fault op` is the error the
store answers operation `op` with, if any. -/
structure Store where
  fault : StoreOp → Option Error

/-- A store that never fails. -/
def Store.reliable : Store := ⟨fun _ => none⟩

/-- Modelled from the spec: `states0.LoadTree`, loading the input tree from its root. -/
def states0.LoadTree (store : Store) (root : StateRoot) : Except Error Tree :=
  match store.fault (.loadTree .input) with
  | some e => .error e
  | none =>
    match root with
    | .Undef => .error (.other "state root not found")
    | .tree t => .ok t

/-- Modelled from the spec: `adt.MakeEmptyMap(adtStore).Root()`, the root of the empty map. -/
def adt.MakeEmptyMapRoot (store : Store) : Except Error StateRoot :=
  match store.fault .emptyMapRoot with
  | some e => .error e
  | none => .ok (.tree Tree.empty)

/-- Modelled from the spec: `states.LoadTree`, loading the output tree from its root. -/
def states.LoadTree (store : Store) (root : StateRoot) : Except Error Tree :=
  match store.fault (.loadTree .output) with
  | some e => .error e
  | none =>
    match root with
    | .Undef => .error (.other "state root not found")
    | .tree t => .ok t

/-- Modelled from the spec: `Tree.GetActor`, returning `(actor, found, err)`; here
`.ok none` is "not found". -/
def Tree.GetActor (store : Store) (side : Side) (t : Tree) (addr : Address) :
    Except Error (Option Actor) :=
  match store.fault (.getActor side addr) with
  | some e => .error e
  | none => .ok (lookupEntry addr t.entries)

/-- Modelled from the spec: `Tree.SetActor`, "set-or-replace the entry at an address". -/
def Tree.SetActor (store : Store) (t : Tree) (addr : Address) (a : Actor) : Except Error Tree :=
  match store.fault (.setActor addr a) with
  | some e => .error e
  | none => .ok (t.insert addr a)

/-- Modelled from the spec: `Tree.ForEach`, visiting every binding once; the result is the
sequence of bindings handed to the callback. -/
def Tree.ForEach (store : Store) (t : Tree) : Except Error (List (Address × Actor)) :=
  match store.fault .forEach with
  | some e => .error e
  | none => .ok t.entries

/-- Modelled from the spec: `Tree.Flush`, returning the root of the tree, "a new state-tree
root hash, or a fatal error — never a partial root". -/
def Tree.Flush (store : Store) (t : Tree) : StateRoot × Option Error :=
  match store.fault .flush with
  | some e => (.Undef, some e)
  | none => (.tree t, none)

/-! ## Constants of the `builtin` packages -/

/-- Modelled from the spec: the version-0 code identifiers of package `builtin` (imported as
`builtin0`, not among the sources), one distinct content hash per actor type. -/
def builtin0.AccountActorCodeID : Cid := .actorsV0 .account
def builtin0.CronActorCodeID : Cid := .actorsV0 .cron
def builtin0.InitActorCodeID : Cid := .actorsV0 .init
def builtin0.StorageMarketActorCodeID : Cid := .actorsV0 .storagemarket
def builtin0.MultisigActorCodeID : Cid := .actorsV0 .multisig
def builtin0.PaymentChannelActorCodeID : Cid := .actorsV0 .paymentchannel
def builtin0.StoragePowerActorCodeID : Cid := .actorsV0 .storagepower
def builtin0.RewardActorCodeID : Cid := .actorsV0 .reward
def builtin0.SystemActorCodeID : Cid := .actorsV0 .system
def builtin0.VerifiedRegistryActorCodeID : Cid := .actorsV0 .verifiedregistry
def builtin0.StorageMinerActorCodeID : Cid := .actorsV0 .storageminer

/-- Modelled from the spec: the address of the verified-registry singleton in package
`builtin` version 0 (ID address 6). -/
def builtin0.VerifiedRegistryActorAddr : Address := 6

/-- Modelled from the spec: the version-2 code identifiers of package `builtin` (not among the
sources), the targets of the `migrations` table. -/
def builtin.AccountActorCodeID : Cid := .actorsV2 .account
def builtin.CronActorCodeID : Cid := .actorsV2 .cron
def builtin.InitActorCodeID : Cid := .actorsV2 .init
def builtin.StorageMarketActorCodeID : Cid := .actorsV2 .storagemarket
def builtin.MultisigActorCodeID : Cid := .actorsV2 .multisig
def builtin.PaymentChannelActorCodeID : Cid := .actorsV2 .paymentchannel
def builtin.StoragePowerActorCodeID : Cid := .actorsV2 .storagepower
def builtin.RewardActorCodeID : Cid := .actorsV2 .reward
def builtin.SystemActorCodeID : Cid := .actorsV2 .system
def builtin.VerifiedRegistryActorCodeID : Cid := .actorsV2 .verifiedregistry
def builtin.StorageMinerActorCodeID : Cid := .actorsV2 .storageminer

/-- Modelled from the spec: the address of the verified-registry singleton in package
`builtin` version 2 (ID address 6, as in version 0). -/
def builtin.VerifiedRegistryActorAddr : Address := 6

/-- Modelled from the spec: the address of the burnt-funds singleton (ID address 99). -/
def builtin.BurntFundsActorAddr : Address := 99

/-- Modelled from the spec: `builtin.ActorNameByCode` (not among the sources), the name under
which an error is "tagged with the offending address and target code identifier". -/
def builtin.ActorNameByCode (c : Cid) : String :=
  match c with
  | .Undef => "<undefined>"
  | .actorsV2 .account => "fil/2/account"
  | .actorsV2 .cron => "fil/2/cron"
  | .actorsV2 .init => "fil/2/init"
  | .actorsV2 .storagemarket => "fil/2/storagemarket"
  | .actorsV2 .multisig => "fil/2/multisig"
  | .actorsV2 .paymentchannel => "fil/2/paymentchannel"
  | .actorsV2 .storagepower => "fil/2/storagepower"
  | .actorsV2 .reward => "fil/2/reward"
  | .actorsV2 .system => "fil/2/system"
  | .actorsV2 .verifiedregistry => "fil/2/verifiedregistry"
  | .actorsV2 .storageminer => "fil/2/storageminer"
  | _ => "<unknown>"

/-! ## The migrations table -/

/-- Concurrency bound of a run (`Config`); `MaxWorkers` is a Go `int`. -/
structure Config where
  MaxWorkers : Int

/-- `DefaultConfig`, with `defaultMaxWorkers = 16`. -/
def DefaultConfig : Config := ⟨16⟩

/-- `StateMigration.MigrateState(ctx, store, head, balance)`: a function of the actor's head
and balance (and of the fields injected into the migrator, which are fixed when the table is
read). -/
abbrev StateMigration := Cid → TokenAmount → MigrateResult

/-- An entry of the migrations table (`ActorMigration`). -/
structure ActorMigration where
  OutCodeCID : Cid
  StateMigration : StateMigration

/-- The eleven per-actor-type migrators, external collaborators of the engine.  The power
migrator reads its field `actorsIn` and the verified-registry migrator its field `actorsOut`;
each is `none` (a nil pointer) until the coordinator sets it. -/
structure Migrators where
  accountMigrator : StateMigration
  cronMigrator : StateMigration
  initMigrator : StateMigration
  marketMigrator : StateMigration
  multisigMigrator : StateMigration
  paychMigrator : StateMigration
  powerMigrator : Option Tree → StateMigration
  rewardMigrator : StateMigration
  systemMigrator : StateMigration
  verifregMigrator : Option Tree → StateMigration
  minerMigrator : StateMigration

/-- The `migrations` map literal of `top.go:51-96`, read while the power migrator's `actorsIn`
and the verified-registry migrator's `actorsOut` hold the given values. -/
def migrationsTable (ms : Migrators) (pmActorsIn vmActorsOut : Option Tree) :
    List (Cid × ActorMigration) :=
  [ (builtin0.AccountActorCodeID, ⟨builtin.AccountActorCodeID, ms.accountMigrator⟩),
    (builtin0.CronActorCodeID, ⟨builtin.CronActorCodeID, ms.cronMigrator⟩),
    (builtin0.InitActorCodeID, ⟨builtin.InitActorCodeID, ms.initMigrator⟩),
    (builtin0.StorageMarketActorCodeID, ⟨builtin.StorageMarketActorCodeID, ms.marketMigrator⟩),
    (builtin0.MultisigActorCodeID, ⟨builtin.MultisigActorCodeID, ms.multisigMigrator⟩),
    (builtin0.PaymentChannelActorCodeID, ⟨builtin.PaymentChannelActorCodeID, ms.paychMigrator⟩),
    (builtin0.StoragePowerActorCodeID,
      ⟨builtin.StoragePowerActorCodeID, ms.powerMigrator pmActorsIn⟩),
    (builtin0.RewardActorCodeID, ⟨builtin.RewardActorCodeID, ms.rewardMigrator⟩),
    (builtin0.SystemActorCodeID, ⟨builtin.SystemActorCodeID, ms.systemMigrator⟩),
    (builtin0.VerifiedRegistryActorCodeID,
      ⟨builtin.VerifiedRegistryActorCodeID, ms.verifregMigrator vmActorsOut⟩),
    (builtin0.StorageMinerActorCodeID, ⟨builtin.StorageMinerActorCodeID, ms.minerMigrator⟩) ]

/-- Lookup of a key in a table given as a list of bindings. -/
def tableLookup (code : Cid) : List (Cid × ActorMigration) → Option ActorMigration
  | [] => none
  | (k, v) :: rest => if code = k then some v else tableLookup code rest

/-- The map index expression `migrations[code]`; `none` stands for the zero value Go returns
for a missing key (`OutCodeCID = cid.Undef`, `StateMigration = nil`). -/
def migrations (ms : Migrators) (pmActorsIn vmActorsOut : Option Tree) (code : Cid) :
    Option ActorMigration :=
  tableLookup code (migrationsTable ms pmActorsIn vmActorsOut)

/-! ## Tasks -/

/-- What a run does, in order: semaphore releases, migrator invocations, output writes and
channel sends.  `migrateState` is the call at `top.go:228`, `migrateVerifreg` the deferred call
at `top.go:182` (with the output tree the migrator reads); `nilMigratorPanic` is the nil
dereference of `migration.StateMigration.MigrateState` on a zero-value table entry. -/
inductive Event
  | release
  | migrateState (code : Cid) (addr : Address) (head : Cid) (balance : TokenAmount)
      (res : MigrateResult)
  | migrateVerifreg (actorsOut : Tree) (head : Cid) (balance : TokenAmount) (res : MigrateResult)
  | setActor (addr : Address) (actor : Actor) (err : Option Error)
  | sendErr (err : Error)
  | sendTransfer (transfer : TokenAmount)
  | nilMigratorPanic

/-- `migrateOneActor` (`top.go:217-259`): the output tree after the task and the events of the
task in program order. -/
def migrateOneActor (store : Store) (table : Cid → Option ActorMigration) (addr : Address)
    (actorIn : Actor) (actorsOut : Tree) : Tree × List Event :=
  -- This will be migrated at the end
  if actorIn.Code = builtin0.VerifiedRegistryActorCodeID then
    (actorsOut, [.release])
  else
    match table actorIn.Code with
    | none => (actorsOut, [.nilMigratorPanic])
    | some migration =>
      let codeOut := migration.OutCodeCID
      let res := migration.StateMigration actorIn.Head actorIn.Balance
      match res with
      | .error err =>
        (actorsOut,
          [.migrateState actorIn.Code addr actorIn.Head actorIn.Balance res, .release,
            .sendErr (.stateMigration (builtin.ActorNameByCode codeOut) addr err)])
      | .ok (headOut, transfer) =>
        -- set up new state root with the migrated state
        let actorOut : Actor := ⟨codeOut, headOut, actorIn.CallSeqNum, actorIn.Balance + transfer⟩
        match actorsOut.SetActor store addr actorOut with
        | .error err =>
          (actorsOut,
            [.migrateState actorIn.Code addr actorIn.Head actorIn.Balance res,
              .setActor addr actorOut (some err), .release, .sendErr err])
        | .ok out =>
          (out,
            [.migrateState actorIn.Code addr actorIn.Head actorIn.Balance res,
              .setActor addr actorOut none, .release]
              ++ (if transfer > 0 then [.sendTransfer transfer] else []))

/-- What the coordinator learns from a finished task. -/
inductive Report
  | nothing
  | err (e : Error)
  | transfer (t : TokenAmount)
  | crash

/-- The report carried by the events of a task: its channel send, or the crash. -/
def taskReport : List Event → Report
  | [] => .nothing
  | .sendErr e :: _ => .err e
  | .sendTransfer t :: _ => .transfer t
  | .nilMigratorPanic :: _ => .crash
  | _ :: rest => taskReport rest

/-! ## The coordinator -/

/-- The order in which the dispatched tasks finish.  `pending` are the actors whose task has
not finished, in `ForEach` order; the first `w` of them have been dispatched, and the head of
the schedule chooses which of those finishes next. -/
def completionOrderAux {α : Type} (w : Nat) : Nat → List Nat → List α → List α
  | 0, _, _ => []
  | n + 1, sched, pending =>
    let k := sched.headD 0 % min w pending.length
    match pending.drop k with
    | [] => []
    | x :: after => x :: completionOrderAux w n sched.tail (pending.take k ++ after)

/-- The completion order of all tasks of a pass over `entries` with `w` workers. -/
def completionOrder {α : Type} (w : Nat) (sched : List Nat) (entries : List α) : List α :=
  completionOrderAux w entries.length sched entries

/-- The coordinator's variables: the output tree, the transfer ledger, and the trace so far. -/
structure PassState where
  actorsOut : Tree
  transferFromBurnt : TokenAmount
  trace : List Event

/-- How the concurrent pass ends. -/
inductive PassResult
  | done (s : PassState)
  | failed (err : Error) (trace : List Event)
  | panicked (trace : List Event)

/-- The concurrent pass (`top.go:127-170`) over the tasks in completion order: each task runs
`migrateOneActor`; an error received from `errCh` ends the run (`READLOOP` / `READEND`), a
transfer received from `transferCh` is added to `transferFromBurnt`.  Here every report is
received; `Async.concurrentPass` is the pass in which reports can be missed. -/
def concurrentPass (store : Store) (table : Cid → Option ActorMigration) :
    List (Address × Actor) → PassState → PassResult
  | [], s => .done s
  | (addr, actorIn) :: rest, s =>
    let task := migrateOneActor store table addr actorIn s.actorsOut
    let trace := s.trace ++ task.2
    match taskReport task.2 with
    | .crash => .panicked trace
    | .err e => .failed e trace
    | .transfer t => concurrentPass store table rest ⟨task.1, s.transferFromBurnt + t, trace⟩
    | .nothing => concurrentPass store table rest ⟨task.1, s.transferFromBurnt, trace⟩

/-- How a call ends: it returns the pair `(root, err)`, it crashes, or it never returns. -/
inductive Outcome
  | returned (root : StateRoot) (err : Option Error)
  | panicked
  | blocked
  deriving DecidableEq

/-- A run: how it ends and what it did. -/
structure Run where
  outcome : Outcome
  trace : List Event

/-- Either the state with which the run goes on, or the run that ended early. -/
inductive Progress
  | ready (actorsIn : Tree) (s : PassState)
  | stopped (run : Run)

/-- `MigrateStateTree` up to the end of the concurrent pass (`top.go:100-170`) when the context
is not cancelled (`Async.runPass` has the cancellation returns of `top.go:146-148` and
`156-158`).  With `MaxWorkers ≤ 0` the first `sem.Acquire(ctx, 1)` never returns. -/
def runPass (store : Store) (ms : Migrators) (stateRootIn : StateRoot) (cfg : Config)
    (sched : List Nat) : Progress :=
  -- Setup input and output state tree helpers
  match states0.LoadTree store stateRootIn with
  | .error err => .stopped ⟨.returned .Undef (some err), []⟩
  | .ok actorsIn =>
    match adt.MakeEmptyMapRoot store with
    | .error err => .stopped ⟨.returned .Undef (some err), []⟩
    | .ok stateRootOut =>
      match states.LoadTree store stateRootOut with
      | .error err => .stopped ⟨.returned .Undef (some err), []⟩
      | .ok actorsOut =>
        -- pm.actorsIn = actorsIn; transferFromBurnt := big.Zero()
        let table := migrations ms (some actorsIn) none
        -- Iterate all actors in old state root
        match actorsIn.ForEach store with
        | .error err => .stopped ⟨.returned .Undef (some err), []⟩
        | .ok entries =>
          if cfg.MaxWorkers ≤ 0 ∧ entries ≠ [] then .stopped ⟨.blocked, []⟩
          else
            match concurrentPass store table
                (completionOrder cfg.MaxWorkers.toNat sched entries) ⟨actorsOut, 0, []⟩ with
            | .failed err trace => .stopped ⟨.returned .Undef (some err), trace⟩
            | .panicked trace => .stopped ⟨.panicked, trace⟩
            | .done s => .ready actorsIn s

/-- The deferred migration of the verified registry (`top.go:172-195`).  `vm` is the
verified-registry migrator of the table with its field `actorsOut` set to the output tree. -/
def migrateVerifreg (store : Store) (ms : Migrators) (actorsIn : Tree) (s : PassState) :
    Progress :=
  -- vm.actorsOut = actorsOut
  let vm : StateMigration := ms.verifregMigrator (some s.actorsOut)
  match actorsIn.GetActor store .input builtin0.VerifiedRegistryActorAddr with
  | .error err => .stopped ⟨.returned .Undef (some err), s.trace⟩
  | .ok none =>
    .stopped ⟨.returned .Undef (some (.errorf "could not find verifreg actor in state")), s.trace⟩
  | .ok (some verifRegActorIn) =>
    let res := vm verifRegActorIn.Head verifRegActorIn.Balance
    let trace := s.trace ++
      [.migrateVerifreg s.actorsOut verifRegActorIn.Head verifRegActorIn.Balance res]
    match res with
    | .error err => .stopped ⟨.returned .Undef (some err), trace⟩
    | .ok (verifRegHeadOut, transfer) =>
      let verifRegActorOut : Actor :=
        ⟨builtin.VerifiedRegistryActorCodeID, verifRegHeadOut, verifRegActorIn.CallSeqNum,
          verifRegActorIn.Balance + transfer⟩
      match s.actorsOut.SetActor store builtin.VerifiedRegistryActorAddr verifRegActorOut with
      | .error err =>
        .stopped ⟨.returned .Undef (some err), trace ++
          [.setActor builtin.VerifiedRegistryActorAddr verifRegActorOut (some err)]⟩
      | .ok out =>
        .ready actorsIn ⟨out, s.transferFromBurnt, trace ++
          [.setActor builtin.VerifiedRegistryActorAddr verifRegActorOut none]⟩

/-- `MigrateStateTree` up to the end of the deferred step (`top.go:100-195`). -/
def runDeferred (store : Store) (ms : Migrators) (stateRootIn : StateRoot) (cfg : Config)
    (sched : List Nat) : Progress :=
  match runPass store ms stateRootIn cfg sched with
  | .stopped run => .stopped run
  | .ready actorsIn s => migrateVerifreg store ms actorsIn s

/-- The reconciliation of the burnt-funds balance and the flush (`top.go:197-214`). -/
def reconcileBurntFunds (store : Store) (s : PassState) : Run :=
  -- Track deductions to burntFunds actor's balance
  match s.actorsOut.GetActor store .output builtin.BurntFundsActorAddr with
  | .error err => ⟨.returned .Undef (some err), s.trace⟩
  | .ok none => ⟨.returned .Undef (some (.errorf "burnt funds actor not in tree")), s.trace⟩
  | .ok (some burntFundsActor) =>
    let burntFundsActor : Actor :=
      ⟨burntFundsActor.Code, burntFundsActor.Head, burntFundsActor.CallSeqNum,
        burntFundsActor.Balance - s.transferFromBurnt⟩
    if burntFundsActor.Balance < 0 then
      ⟨.returned .Undef
        (some (.errorf "miner transfers send burnt funds actor balance below zero")), s.trace⟩
    else
      match s.actorsOut.SetActor store builtin.BurntFundsActorAddr burntFundsActor with
      | .error err =>
        ⟨.returned .Undef (some err),
          s.trace ++ [.setActor builtin.BurntFundsActorAddr burntFundsActor (some err)]⟩
      | .ok out =>
        let flushed := out.Flush store
        ⟨.returned flushed.1 flushed.2,
          s.trace ++ [.setActor builtin.BurntFundsActorAddr burntFundsActor none]⟩

/-- `MigrateStateTree` (`top.go:99-215`): migrates the state tree starting from the global
state tree and upgrading all actor state.  These are the runs in which every report is received
and the context is not cancelled; `Async.MigrateStateTree` is the run under any
interleaving. -/
def MigrateStateTree (store : Store) (ms : Migrators) (stateRootIn : StateRoot) (cfg : Config)
    (sched : List Nat) : Run :=
  match runDeferred store ms stateRootIn cfg sched with
  | .stopped run => run
  | .ready _ s => reconcileBurntFunds store s

/-- `InputTreeBalance` (`top.go:261-273`), returning `(total, err)`.  When the iteration fails
the function returns the total accumulated so far together with the error; `visited` is the
number of bindings the iteration hands to the callback before it fails. -/
def InputTreeBalance (store : Store) (stateRootIn : StateRoot) (visited : Nat) :
    TokenAmount × Option Error :=
  match states0.LoadTree store stateRootIn with
  | .error err => (0, some err)
  | .ok actorsIn =>
    match actorsIn.ForEach store with
    | .error err =>
      ((actorsIn.entries.take visited).foldl (fun total e => total + e.2.Balance) 0, some err)
    | .ok entries => (entries.foldl (fun total e => total + e.2.Balance) 0, none)

/-! ## Lemmas on bindings -/

/-- The sum of the balances of a list of bindings. -/
def balanceSum (l : List (Address × Actor)) : TokenAmount := (l.map fun e => e.2.Balance).sum

theorem lookupEntry_insertEntry (k addr : Address) (a : Actor) (l : List (Address × Actor)) :
    lookupEntry k (insertEntry addr a l) = if k = addr then some a else lookupEntry k l := by
  induction l with
  | nil => simp [insertEntry, lookupEntry]
  | cons hd tl ih =>
    obtain ⟨k0, v0⟩ := hd
    unfold insertEntry
    by_cases hk : k = addr
    · subst hk
      by_cases h1 : k < k0
      · simp [h1, lookupEntry]
      · by_cases h2 : k = k0
        · simp [h2, lookupEntry]
        · simp [h1, h2, lookupEntry, ih]
    · by_cases h1 : addr < k0
      · simp [h1, lookupEntry, hk]
      · by_cases h2 : addr = k0
        · subst h2
          simp [lookupEntry, hk]
        · simp [h1, h2, lookupEntry, ih, hk]

theorem lookupEntry_eq_none_iff (k : Address) (l : List (Address × Actor)) :
    lookupEntry k l = none ↔ k ∉ l.map Prod.fst := by
  induction l with
  | nil => simp [lookupEntry]
  | cons hd tl ih =>
    obtain ⟨k0, v0⟩ := hd
    unfold lookupEntry
    split_ifs with h
    · simp [h]
    · simp [ih, h]

theorem mem_of_lookupEntry {k : Address} {v : Actor} {l : List (Address × Actor)}
    (h : lookupEntry k l = some v) : (k, v) ∈ l := by
  induction l with
  | nil => simp [lookupEntry] at h
  | cons hd tl ih =>
    obtain ⟨k0, v0⟩ := hd
    unfold lookupEntry at h
    split_ifs at h with h1
    · subst h1
      simp only [Option.some.injEq] at h
      subst h
      exact List.mem_cons_self _ _
    · exact List.mem_cons_of_mem _ (ih h)

theorem lookupEntry_of_mem {k : Address} {v : Actor} {l : List (Address × Actor)}
    (hnd : (l.map Prod.fst).Nodup) (h : (k, v) ∈ l) : lookupEntry k l = some v := by
  induction l with
  | nil => simp at h
  | cons hd tl ih =>
    obtain ⟨k0, v0⟩ := hd
    simp only [List.map_cons, List.nodup_cons] at hnd
    unfold lookupEntry
    rcases List.mem_cons.mp h with h | h
    · cases h; simp
    · have hk : k ∈ tl.map Prod.fst := List.mem_map.mpr ⟨(k, v), h, rfl⟩
      have hne : k ≠ k0 := fun e => hnd.1 (e ▸ hk)
      rw [if_neg hne]
      exact ih hnd.2 h

theorem mem_keys_insertEntry (k addr : Address) (a : Actor) (l : List (Address × Actor)) :
    k ∈ (insertEntry addr a l).map Prod.fst ↔ k = addr ∨ k ∈ l.map Prod.fst := by
  have h1 := lookupEntry_eq_none_iff k (insertEntry addr a l)
  have h2 := lookupEntry_eq_none_iff k l
  rw [lookupEntry_insertEntry] at h1
  by_cases hk : k = addr
  · simp only [hk, if_true, true_or, iff_true] at h1 ⊢
    by_contra hc
    exact absurd (h1.mpr hc) (by simp)
  · simp only [hk, if_false, false_or] at h1 ⊢
    rw [← not_iff_not, ← h1, h2]

theorem ordered_nodup {l : List (Address × Actor)} (h : (l.map Prod.fst).Pairwise (· < ·)) :
    (l.map Prod.fst).Nodup :=
  h.imp (fun hab => ne_of_lt hab)

theorem Tree.nodup (t : Tree) : (t.entries.map Prod.fst).Nodup := ordered_nodup t.ordered

/-- Two address-ordered lists of bindings with the same lookups are equal. -/
theorem entries_ext : ∀ (l1 l2 : List (Address × Actor)),
    (l1.map Prod.fst).Pairwise (· < ·) → (l2.map Prod.fst).Pairwise (· < ·) →
    (∀ k, lookupEntry k l1 = lookupEntry k l2) → l1 = l2 := by
  intro l1
  induction l1 with
  | nil =>
    intro l2 _ _ h
    cases l2 with
    | nil => rfl
    | cons hd tl =>
      obtain ⟨k0, v0⟩ := hd
      have := h k0
      simp [lookupEntry] at this
  | cons hd1 tl1 ih =>
    intro l2 h1 h2 h
    obtain ⟨k1, v1⟩ := hd1
    cases l2 with
    | nil =>
      have := h k1
      simp [lookupEntry] at this
    | cons hd2 tl2 =>
      obtain ⟨k2, v2⟩ := hd2
      simp only [List.map_cons, List.pairwise_cons] at h1 h2
      have e1 : lookupEntry k1 ((k2, v2) :: tl2) = some v1 := by
        rw [← h k1]; simp [lookupEntry]
      have e2 : lookupEntry k2 ((k1, v1) :: tl1) = some v2 := by
        rw [h k2]; simp [lookupEntry]
      have m1 : k1 ∈ ((k2, v2) :: tl2).map Prod.fst :=
        List.mem_map.mpr ⟨(k1, v1), mem_of_lookupEntry e1, rfl⟩
      have m2 : k2 ∈ ((k1, v1) :: tl1).map Prod.fst :=
        List.mem_map.mpr ⟨(k2, v2), mem_of_lookupEntry e2, rfl⟩
      have hk : k1 = k2 := by
        simp only [List.map_cons, List.mem_cons] at m1 m2
        rcases m1 with m1 | m1
        · exact m1
        · rcases m2 with m2 | m2
          · exact m2.symm
          · exact absurd (lt_trans (h1.1 k2 m2) (h2.1 k1 m1)) (lt_irrefl _)
      subst hk
      have hv : v1 = v2 := by
        simp only [lookupEntry, if_true, Option.some.injEq] at e1
        exact e1.symm
      subst hv
      congr 1
      apply ih tl2 h1.2 h2.2
      intro k
      by_cases hk : k = k1
      · subst hk
        rw [(lookupEntry_eq_none_iff k tl1).mpr (fun hm => lt_irrefl _ (h1.1 k hm)),
          (lookupEntry_eq_none_iff k tl2).mpr (fun hm => lt_irrefl _ (h2.1 k hm))]
      · have := h k
        simpa [lookupEntry, hk] using this

theorem Tree.ext_lookup {s t : Tree}
    (h : ∀ k, lookupEntry k s.entries = lookupEntry k t.entries) : s = t :=
  Tree.ext_entries (entries_ext _ _ s.ordered t.ordered h)

/-- The balance bound at an address, zero when the address is unbound. -/
def balanceAt (k : Address) (l : List (Address × Actor)) : TokenAmount :=
  match lookupEntry k l with
  | some v => v.Balance
  | none => 0

theorem balanceSum_insertEntry (addr : Address) (a : Actor) (l : List (Address × Actor))
    (h : (l.map Prod.fst).Pairwise (· < ·)) :
    balanceSum (insertEntry addr a l) = balanceSum l - balanceAt addr l + a.Balance := by
  induction l with
  | nil => simp [insertEntry, balanceSum, balanceAt, lookupEntry]
  | cons hd tl ih =>
    obtain ⟨k0, v0⟩ := hd
    simp only [List.map_cons, List.pairwise_cons] at h
    unfold insertEntry
    split_ifs with h1 h2
    · have hn : lookupEntry addr ((k0, v0) :: tl) = none := by
        rw [lookupEntry_eq_none_iff]
        simp only [List.map_cons, List.mem_cons, not_or]
        exact ⟨ne_of_lt h1, fun hm => lt_asymm h1 (h.1 addr hm)⟩
      simp only [balanceSum, balanceAt, hn, List.map_cons, List.sum_cons]
      ring
    · subst h2
      simp only [balanceSum, balanceAt, lookupEntry, if_true, List.map_cons, List.sum_cons]
      ring
    · have := ih h.2
      simp only [balanceSum, balanceAt, lookupEntry, if_neg h2, List.map_cons,
        List.sum_cons] at this ⊢
      rw [this]
      ring

theorem foldl_balance (l : List (Address × Actor)) (init : TokenAmount) :
    l.foldl (fun total e => total + e.2.Balance) init = init + balanceSum l := by
  induction l generalizing init with
  | nil => simp [balanceSum]
  | cons hd tl ih =>
    simp only [List.foldl_cons, ih, balanceSum, List.map_cons, List.sum_cons]
    ring

/-! ## The schedule -/

theorem completionOrderAux_perm {α : Type} (w : Nat) (hw : 0 < w) :
    ∀ (n : Nat) (sched : List Nat) (pending : List α), pending.length = n →
      (completionOrderAux w n sched pending).Perm pending := by
  intro n
  induction n with
  | zero =>
    intro sched pending hlen
    have : pending = [] := List.length_eq_zero.mp hlen
    subst this
    simp [completionOrderAux]
  | succ n ih =>
    intro sched pending hlen
    have hpos : 0 < min w pending.length := by
      rw [hlen]; exact lt_min hw (Nat.succ_pos n)
    have hk : sched.headD 0 % min w pending.length < pending.length :=
      lt_of_lt_of_le (Nat.mod_lt _ hpos) (min_le_right _ _)
    unfold completionOrderAux
    simp only []
    have hsplit := List.take_append_drop (sched.headD 0 % min w pending.length) pending
    cases hd : pending.drop (sched.headD 0 % min w pending.length) with
    | nil =>
      have := List.drop_eq_nil_iff.mp hd
      omega
    | cons x after =>
      simp only []
      rw [hd] at hsplit
      have hlen2 :
          (pending.take (sched.headD 0 % min w pending.length) ++ after).length = n := by
        have := congrArg List.length hsplit
        simp only [List.length_append, List.length_cons] at this ⊢
        omega
      have hrec := ih sched.tail _ hlen2
      calc x :: completionOrderAux w n sched.tail
              (pending.take (sched.headD 0 % min w pending.length) ++ after)
          |>.Perm (x :: (pending.take (sched.headD 0 % min w pending.length) ++ after)) :=
            List.Perm.cons x hrec
        _ |>.Perm (pending.take (sched.headD 0 % min w pending.length) ++ x :: after) :=
            List.perm_middle.symm
        _ = pending := hsplit

/-- With one worker the tasks finish in `ForEach` order, whatever the schedule. -/
theorem completionOrder_one {α : Type} (sched : List Nat) (entries : List α) :
    completionOrder 1 sched entries = entries := by
  unfold completionOrder
  induction entries generalizing sched with
  | nil => rfl
  | cons x tl ih =>
    have hk : sched.headD 0 % min 1 (x :: tl).length = 0 := by
      have : min 1 (x :: tl).length = 1 := by simp
      rw [this, Nat.mod_one]
    simp only [List.length_cons, completionOrderAux]
    simp only [List.length_cons] at hk
    rw [hk]
    simp only [List.drop_zero, List.take_zero, List.nil_append]
    rw [ih]

/-- With at least one worker every task finishes exactly once. -/
theorem completionOrder_perm {α : Type} (w : Nat) (hw : 0 < w) (sched : List Nat)
    (entries : List α) : (completionOrder w sched entries).Perm entries :=
  completionOrderAux_perm w hw entries.length sched entries rfl

/-! ## One task -/

/-- The events of a task that migrates and writes an actor. -/
def writeEvents (addr : Address) (actorIn : Actor) (codeOut headOut : Cid)
    (transfer : TokenAmount) : List Event :=
  [.migrateState actorIn.Code addr actorIn.Head actorIn.Balance (.ok (headOut, transfer)),
    .setActor addr ⟨codeOut, headOut, actorIn.CallSeqNum, actorIn.Balance + transfer⟩ none,
    .release] ++ (if transfer > 0 then [.sendTransfer transfer] else [])

/-- The five ways a task can go: the deferred actor, a missing table entry, a migrator error,
an output-write error, and success. -/
theorem migrateOneActor_cases (store : Store) (table : Cid → Option ActorMigration)
    (addr : Address) (actorIn : Actor) (actorsOut : Tree) :
    (actorIn.Code = builtin0.VerifiedRegistryActorCodeID ∧
      migrateOneActor store table addr actorIn actorsOut = (actorsOut, [.release])) ∨
    (actorIn.Code ≠ builtin0.VerifiedRegistryActorCodeID ∧ table actorIn.Code = none ∧
      migrateOneActor store table addr actorIn actorsOut = (actorsOut, [.nilMigratorPanic])) ∨
    (∃ m err, actorIn.Code ≠ builtin0.VerifiedRegistryActorCodeID ∧
      table actorIn.Code = some m ∧
      m.StateMigration actorIn.Head actorIn.Balance = .error err ∧
      migrateOneActor store table addr actorIn actorsOut =
        (actorsOut,
          [.migrateState actorIn.Code addr actorIn.Head actorIn.Balance (.error err), .release,
            .sendErr (.stateMigration (builtin.ActorNameByCode m.OutCodeCID) addr err)])) ∨
    (∃ m headOut transfer err, actorIn.Code ≠ builtin0.VerifiedRegistryActorCodeID ∧
      table actorIn.Code = some m ∧
      m.StateMigration actorIn.Head actorIn.Balance = .ok (headOut, transfer) ∧
      store.fault (.setActor addr
        ⟨m.OutCodeCID, headOut, actorIn.CallSeqNum, actorIn.Balance + transfer⟩) = some err ∧
      migrateOneActor store table addr actorIn actorsOut =
        (actorsOut,
          [.migrateState actorIn.Code addr actorIn.Head actorIn.Balance
              (.ok (headOut, transfer)),
            .setActor addr
              ⟨m.OutCodeCID, headOut, actorIn.CallSeqNum, actorIn.Balance + transfer⟩ (some err),
            .release, .sendErr err])) ∨
    (∃ m headOut transfer out, actorIn.Code ≠ builtin0.VerifiedRegistryActorCodeID ∧
      table actorIn.Code = some m ∧
      m.StateMigration actorIn.Head actorIn.Balance = .ok (headOut, transfer) ∧
      store.fault (.setActor addr
        ⟨m.OutCodeCID, headOut, actorIn.CallSeqNum, actorIn.Balance + transfer⟩) = none ∧
      out = actorsOut.insert addr
        ⟨m.OutCodeCID, headOut, actorIn.CallSeqNum, actorIn.Balance + transfer⟩ ∧
      migrateOneActor store table addr actorIn actorsOut =
        (out, writeEvents addr actorIn m.OutCodeCID headOut transfer)) := by
  by_cases hvr : actorIn.Code = builtin0.VerifiedRegistryActorCodeID
  · left
    exact ⟨hvr, by simp [migrateOneActor, hvr]⟩
  · right
    cases htab : table actorIn.Code with
    | none =>
      left
      exact ⟨hvr, rfl, by simp [migrateOneActor, hvr, htab]⟩
    | some m =>
      right
      cases hres : m.StateMigration actorIn.Head actorIn.Balance with
      | error err =>
        left
        exact ⟨m, err, hvr, rfl, hres, by simp [migrateOneActor, hvr, htab, hres]⟩
      | ok r =>
        obtain ⟨headOut, transfer⟩ := r
        right
        cases hf : store.fault (.setActor addr
            ⟨m.OutCodeCID, headOut, actorIn.CallSeqNum, actorIn.Balance + transfer⟩) with
        | some err =>
          left
          exact ⟨m, headOut, transfer, err, hvr, rfl, hres, hf,
            by simp [migrateOneActor, hvr, htab, hres, Tree.SetActor, hf]⟩
        | none =>
          right
          exact ⟨m, headOut, transfer, _, hvr, rfl, hres, hf, rfl,
            by simp [migrateOneActor, hvr, htab, hres, Tree.SetActor, hf, writeEvents]⟩

theorem taskReport_writeEvents (addr : Address) (actorIn : Actor) (codeOut headOut : Cid)
    (transfer : TokenAmount) :
    taskReport (writeEvents addr actorIn codeOut headOut transfer) =
      if transfer > 0 then .transfer transfer else .nothing := by
  unfold writeEvents
  split_ifs <;> simp [taskReport]

/-! ## The concurrent pass -/

/-- The trace with which a pass ends. -/
def PassResult.trace : PassResult → List Event
  | .done s => s.trace
  | .failed _ trace => trace
  | .panicked trace => trace

/-- The output tree and the transfer ledger of a pass that completes. -/
def PassResult.output : PassResult → Option (Tree × TokenAmount)
  | .done s => some (s.actorsOut, s.transferFromBurnt)
  | .failed _ _ => none
  | .panicked _ => none

theorem concurrentPass_skip (store : Store) (table : Cid → Option ActorMigration)
    (addr : Address) (a : Actor) (rest : List (Address × Actor)) (s : PassState)
    (hvr : a.Code = builtin0.VerifiedRegistryActorCodeID) :
    concurrentPass store table ((addr, a) :: rest) s =
      concurrentPass store table rest ⟨s.actorsOut, s.transferFromBurnt, s.trace ++ [.release]⟩ := by
  rw [concurrentPass]
  simp [migrateOneActor, hvr, taskReport]

theorem concurrentPass_write (store : Store) (table : Cid → Option ActorMigration)
    (addr : Address) (a : Actor) (rest : List (Address × Actor)) (s : PassState)
    (m : ActorMigration) (headOut : Cid) (transfer : TokenAmount)
    (hvr : a.Code ≠ builtin0.VerifiedRegistryActorCodeID) (htab : table a.Code = some m)
    (hres : m.StateMigration a.Head a.Balance = .ok (headOut, transfer))
    (hf : store.fault (.setActor addr
      ⟨m.OutCodeCID, headOut, a.CallSeqNum, a.Balance + transfer⟩) = none) :
    concurrentPass store table ((addr, a) :: rest) s =
      concurrentPass store table rest
        ⟨s.actorsOut.insert addr ⟨m.OutCodeCID, headOut, a.CallSeqNum, a.Balance + transfer⟩,
          s.transferFromBurnt + (if transfer > 0 then transfer else 0),
          s.trace ++ writeEvents addr a m.OutCodeCID headOut transfer⟩ := by
  rw [concurrentPass]
  have hm : migrateOneActor store table addr a s.actorsOut =
      (s.actorsOut.insert addr ⟨m.OutCodeCID, headOut, a.CallSeqNum, a.Balance + transfer⟩,
        writeEvents addr a m.OutCodeCID headOut transfer) := by
    simp [migrateOneActor, hvr, htab, hres, Tree.SetActor, hf, writeEvents]
  simp only [hm, taskReport_writeEvents]
  split_ifs with hpos
  · rfl
  · simp

theorem concurrentPass_migrator_error (store : Store) (table : Cid → Option ActorMigration)
    (addr : Address) (a : Actor) (rest : List (Address × Actor)) (s : PassState)
    (m : ActorMigration) (err : Error)
    (hvr : a.Code ≠ builtin0.VerifiedRegistryActorCodeID) (htab : table a.Code = some m)
    (hres : m.StateMigration a.Head a.Balance = .error err) :
    concurrentPass store table ((addr, a) :: rest) s =
      .failed (.stateMigration (builtin.ActorNameByCode m.OutCodeCID) addr err)
        (s.trace ++ [.migrateState a.Code addr a.Head a.Balance (.error err), .release,
          .sendErr (.stateMigration (builtin.ActorNameByCode m.OutCodeCID) addr err)]) := by
  rw [concurrentPass]
  simp [migrateOneActor, hvr, htab, hres, taskReport]

theorem concurrentPass_write_error (store : Store) (table : Cid → Option ActorMigration)
    (addr : Address) (a : Actor) (rest : List (Address × Actor)) (s : PassState)
    (m : ActorMigration) (headOut : Cid) (transfer : TokenAmount) (err : Error)
    (hvr : a.Code ≠ builtin0.VerifiedRegistryActorCodeID) (htab : table a.Code = some m)
    (hres : m.StateMigration a.Head a.Balance = .ok (headOut, transfer))
    (hf : store.fault (.setActor addr
      ⟨m.OutCodeCID, headOut, a.CallSeqNum, a.Balance + transfer⟩) = some err) :
    concurrentPass store table ((addr, a) :: rest) s =
      .failed err
        (s.trace ++ [.migrateState a.Code addr a.Head a.Balance (.ok (headOut, transfer)),
          .setActor addr ⟨m.OutCodeCID, headOut, a.CallSeqNum, a.Balance + transfer⟩ (some err),
          .release, .sendErr err]) := by
  rw [concurrentPass]
  simp [migrateOneActor, hvr, htab, hres, Tree.SetActor, hf, taskReport]

theorem concurrentPass_crash (store : Store) (table : Cid → Option ActorMigration)
    (addr : Address) (a : Actor) (rest : List (Address × Actor)) (s : PassState)
    (hvr : a.Code ≠ builtin0.VerifiedRegistryActorCodeID) (htab : table a.Code = none) :
    concurrentPass store table ((addr, a) :: rest) s =
      .panicked (s.trace ++ [.nilMigratorPanic]) := by
  rw [concurrentPass]
  simp [migrateOneActor, hvr, htab, taskReport]

/-- The first task of a pass that completes is the deferred actor or a successful write. -/
theorem concurrentPass_cons_done (store : Store) (table : Cid → Option ActorMigration)
    (addr : Address) (a : Actor) (rest : List (Address × Actor)) (s s' : PassState)
    (h : concurrentPass store table ((addr, a) :: rest) s = .done s') :
    (a.Code = builtin0.VerifiedRegistryActorCodeID ∧
      concurrentPass store table rest
        ⟨s.actorsOut, s.transferFromBurnt, s.trace ++ [.release]⟩ = .done s') ∨
    (∃ m headOut transfer, a.Code ≠ builtin0.VerifiedRegistryActorCodeID ∧
      table a.Code = some m ∧
      m.StateMigration a.Head a.Balance = .ok (headOut, transfer) ∧
      store.fault (.setActor addr
        ⟨m.OutCodeCID, headOut, a.CallSeqNum, a.Balance + transfer⟩) = none ∧
      concurrentPass store table rest
        ⟨s.actorsOut.insert addr ⟨m.OutCodeCID, headOut, a.CallSeqNum, a.Balance + transfer⟩,
          s.transferFromBurnt + (if transfer > 0 then transfer else 0),
          s.trace ++ writeEvents addr a m.OutCodeCID headOut transfer⟩ = .done s') := by
  by_cases hvr : a.Code = builtin0.VerifiedRegistryActorCodeID
  · left
    rw [concurrentPass_skip store table addr a rest s hvr] at h
    exact ⟨hvr, h⟩
  · right
    cases htab : table a.Code with
    | none =>
      rw [concurrentPass_crash store table addr a rest s hvr htab] at h
      cases h
    | some m =>
      cases hres : m.StateMigration a.Head a.Balance with
      | error err =>
        rw [concurrentPass_migrator_error store table addr a rest s m err hvr htab hres] at h
        cases h
      | ok r =>
        obtain ⟨headOut, transfer⟩ := r
        cases hf : store.fault (.setActor addr
            ⟨m.OutCodeCID, headOut, a.CallSeqNum, a.Balance + transfer⟩) with
        | some err =>
          rw [concurrentPass_write_error store table addr a rest s m headOut transfer err hvr
            htab hres hf] at h
          cases h
        | none =>
          rw [concurrentPass_write store table addr a rest s m headOut transfer hvr htab hres
            hf] at h
          exact ⟨m, headOut, transfer, hvr, rfl, hres, hf, h⟩

/-! ## The pass as a function of the bindings -/

theorem Tree.lookup_insert (t : Tree) (k addr : Address) (a : Actor) :
    lookupEntry k (t.insert addr a).entries = if k = addr then some a else lookupEntry k t.entries :=
  lookupEntry_insertEntry k addr a t.entries

/-- Writes at different addresses commute. -/
theorem Tree.insert_comm (t : Tree) (k1 k2 : Address) (a1 a2 : Actor) (h : k1 ≠ k2) :
    (t.insert k1 a1).insert k2 a2 = (t.insert k2 a2).insert k1 a1 := by
  apply Tree.ext_lookup
  intro k
  simp only [Tree.lookup_insert]
  by_cases h1 : k = k1
  · subst h1
    simp [h]
  · simp [h1]

/-- What a task contributes when it neither fails nor crashes: the actor it writes (none for
the deferred actor) and the amount it sends on the transfer channel. -/
def taskEffect (store : Store) (table : Cid → Option ActorMigration) (e : Address × Actor) :
    Option (Option Actor × TokenAmount) :=
  if e.2.Code = builtin0.VerifiedRegistryActorCodeID then some (none, 0)
  else
    match table e.2.Code with
    | none => none
    | some m =>
      match m.StateMigration e.2.Head e.2.Balance with
      | .error _ => none
      | .ok (headOut, transfer) =>
        match store.fault (.setActor e.1
            ⟨m.OutCodeCID, headOut, e.2.CallSeqNum, e.2.Balance + transfer⟩) with
        | some _ => none
        | none =>
          some (some ⟨m.OutCodeCID, headOut, e.2.CallSeqNum, e.2.Balance + transfer⟩,
            if transfer > 0 then transfer else 0)

/-- The output tree and ledger after a contribution at an address. -/
def applyEffect (addr : Address) (st : Tree × TokenAmount) (eff : Option Actor × TokenAmount) :
    Tree × TokenAmount :=
  (match eff.1 with
    | none => st.1
    | some a => st.1.insert addr a, st.2 + eff.2)

/-- The output tree and ledger of a pass over the given tasks, if all of them succeed. -/
def passOutput (store : Store) (table : Cid → Option ActorMigration) :
    List (Address × Actor) → Tree × TokenAmount → Option (Tree × TokenAmount)
  | [], st => some st
  | e :: rest, st =>
    match taskEffect store table e with
    | none => none
    | some eff => passOutput store table rest (applyEffect e.1 st eff)

theorem concurrentPass_output (store : Store) (table : Cid → Option ActorMigration) :
    ∀ (order : List (Address × Actor)) (s : PassState),
      (concurrentPass store table order s).output =
        passOutput store table order (s.actorsOut, s.transferFromBurnt) := by
  intro order
  induction order with
  | nil => intro s; simp [concurrentPass, passOutput, PassResult.output]
  | cons hd tl ih =>
    intro s
    obtain ⟨addr, a⟩ := hd
    by_cases hvr : a.Code = builtin0.VerifiedRegistryActorCodeID
    · rw [concurrentPass_skip store table addr a tl s hvr, ih]
      simp [passOutput, taskEffect, hvr, applyEffect]
    · cases htab : table a.Code with
      | none =>
        rw [concurrentPass_crash store table addr a tl s hvr htab]
        simp [passOutput, taskEffect, hvr, htab, PassResult.output]
      | some m =>
        cases hres : m.StateMigration a.Head a.Balance with
        | error err =>
          rw [concurrentPass_migrator_error store table addr a tl s m err hvr htab hres]
          simp [passOutput, taskEffect, hvr, htab, hres, PassResult.output]
        | ok r =>
          obtain ⟨headOut, transfer⟩ := r
          cases hf : store.fault (.setActor addr
              ⟨m.OutCodeCID, headOut, a.CallSeqNum, a.Balance + transfer⟩) with
          | some err =>
            rw [concurrentPass_write_error store table addr a tl s m headOut transfer err hvr
              htab hres hf]
            simp [passOutput, taskEffect, hvr, htab, hres, hf, PassResult.output]
          | none =>
            rw [concurrentPass_write store table addr a tl s m headOut transfer hvr htab hres
              hf, ih]
            simp [passOutput, taskEffect, hvr, htab, hres, hf, applyEffect]

theorem applyEffect_comm (k1 k2 : Address) (h : k1 ≠ k2) (st : Tree × TokenAmount)
    (e1 e2 : Option Actor × TokenAmount) :
    applyEffect k2 (applyEffect k1 st e1) e2 = applyEffect k1 (applyEffect k2 st e2) e1 := by
  obtain ⟨a1, i1⟩ := e1
  obtain ⟨a2, i2⟩ := e2
  cases a1 <;> cases a2 <;> simp [applyEffect, add_right_comm, Tree.insert_comm _ _ _ _ _ h]

/-- The output of a pass does not depend on the order of its tasks. -/
theorem passOutput_perm (store : Store) (table : Cid → Option ActorMigration)
    {l1 l2 : List (Address × Actor)} (h : l1.Perm l2) :
    (l1.map Prod.fst).Nodup → ∀ st, passOutput store table l1 st = passOutput store table l2 st := by
  induction h with
  | nil => intro _ st; rfl
  | cons x _ ih =>
    intro hnd st
    simp only [List.map_cons, List.nodup_cons] at hnd
    simp only [passOutput]
    cases taskEffect store table x with
    | none => rfl
    | some eff => exact ih hnd.2 _
  | swap x y l =>
    intro hnd st
    simp only [List.map_cons, List.nodup_cons, List.mem_cons, not_or] at hnd
    simp only [passOutput]
    cases taskEffect store table x with
    | none => cases taskEffect store table y <;> rfl
    | some ex =>
      cases taskEffect store table y with
      | none => rfl
      | some ey =>
        simp only []
        rw [applyEffect_comm y.1 x.1 hnd.1.1 st ey ex]
  | trans h1 _ ih1 ih2 =>
    intro hnd st
    rw [ih1 hnd st, ih2 ((h1.map Prod.fst).nodup_iff.mp hnd) st]

/-! ## Measures on traces -/

/-- The balance change reported by a migrator invoked in the concurrent pass. -/
def Event.passDelta : Event → TokenAmount
  | .migrateState _ _ _ _ (.ok (_, transfer)) => transfer
  | _ => 0

/-- The balance change reported by the deferred verified-registry migrator. -/
def Event.deferredDelta : Event → TokenAmount
  | .migrateVerifreg _ _ _ (.ok (_, transfer)) => transfer
  | _ => 0

/-- Whether the event is an invocation of the verified-registry migrator: the deferred call, or
a call through the table entry of the verified-registry code. -/
def Event.invokesVerifreg : Event → Bool
  | .migrateState code _ _ _ _ => decide (code = builtin0.VerifiedRegistryActorCodeID)
  | .migrateVerifreg _ _ _ _ => true
  | _ => false

/-- The sum of the balance changes reported in the concurrent pass. -/
def passDeltaSum (trace : List Event) : TokenAmount := (trace.map Event.passDelta).sum

/-- The sum of the strictly positive balance changes reported in the concurrent pass. -/
def posDeltaSum (trace : List Event) : TokenAmount :=
  (trace.map fun ev => if ev.passDelta > 0 then ev.passDelta else 0).sum

/-- The sum of the balance changes reported by the deferred migrator. -/
def deferredDeltaSum (trace : List Event) : TokenAmount := (trace.map Event.deferredDelta).sum

theorem passDeltaSum_append (t1 t2 : List Event) :
    passDeltaSum (t1 ++ t2) = passDeltaSum t1 + passDeltaSum t2 := by
  simp [passDeltaSum]

theorem posDeltaSum_append (t1 t2 : List Event) :
    posDeltaSum (t1 ++ t2) = posDeltaSum t1 + posDeltaSum t2 := by
  simp [posDeltaSum]

theorem deferredDeltaSum_append (t1 t2 : List Event) :
    deferredDeltaSum (t1 ++ t2) = deferredDeltaSum t1 + deferredDeltaSum t2 := by
  simp [deferredDeltaSum]

theorem posDeltaSum_eq_passDeltaSum (trace : List Event)
    (h : ∀ ev ∈ trace, 0 ≤ ev.passDelta) : posDeltaSum trace = passDeltaSum trace := by
  induction trace with
  | nil => rfl
  | cons ev tl ih =>
    have h0 := h ev (List.mem_cons_self _ _)
    have ih' := ih (fun e he => h e (List.mem_cons_of_mem _ he))
    simp only [posDeltaSum, passDeltaSum, List.map_cons, List.sum_cons] at ih' ⊢
    rw [ih']
    split_ifs with hp
    · rfl
    · have : ev.passDelta = 0 := le_antisymm (not_lt.mp hp) h0
      rw [this]

theorem passDeltaSum_writeEvents (addr : Address) (a : Actor) (codeOut headOut : Cid)
    (transfer : TokenAmount) :
    passDeltaSum (writeEvents addr a codeOut headOut transfer) = transfer := by
  unfold writeEvents passDeltaSum
  split_ifs <;> simp [Event.passDelta]

theorem posDeltaSum_writeEvents (addr : Address) (a : Actor) (codeOut headOut : Cid)
    (transfer : TokenAmount) :
    posDeltaSum (writeEvents addr a codeOut headOut transfer) =
      if transfer > 0 then transfer else 0 := by
  unfold writeEvents posDeltaSum
  split_ifs <;> simp_all [Event.passDelta]

theorem deferredDeltaSum_writeEvents (addr : Address) (a : Actor) (codeOut headOut : Cid)
    (transfer : TokenAmount) :
    deferredDeltaSum (writeEvents addr a codeOut headOut transfer) = 0 := by
  unfold writeEvents deferredDeltaSum
  split_ifs <;> simp [Event.deferredDelta]

/-! ## Invariants of a pass that completes -/

/-- The bindings a pass migrates itself: those whose code is not the deferred one. -/
def passEntries (order : List (Address × Actor)) : List (Address × Actor) :=
  order.filter fun e => decide (e.2.Code ≠ builtin0.VerifiedRegistryActorCodeID)

theorem Tree.totalBalance_insert (t : Tree) (addr : Address) (a : Actor) :
    (t.insert addr a).totalBalance = t.totalBalance - balanceAt addr t.entries + a.Balance :=
  balanceSum_insertEntry addr a t.entries t.ordered

theorem Tree.mem_addresses_insert (t : Tree) (k addr : Address) (a : Actor) :
    k ∈ (t.insert addr a).addresses ↔ k = addr ∨ k ∈ t.addresses :=
  mem_keys_insertEntry k addr a t.entries

theorem balanceAt_of_not_mem {k : Address} {l : List (Address × Actor)}
    (h : k ∉ l.map Prod.fst) : balanceAt k l = 0 := by
  simp [balanceAt, (lookupEntry_eq_none_iff k l).mpr h]

/-- Balances, ledger and reported changes after a pass that completes. -/
theorem pass_done_accounts (store : Store) (table : Cid → Option ActorMigration) :
    ∀ (order : List (Address × Actor)) (s s' : PassState),
      concurrentPass store table order s = .done s' →
      (order.map Prod.fst).Nodup →
      (∀ e ∈ order, e.1 ∉ s.actorsOut.addresses) →
      s'.actorsOut.totalBalance - passDeltaSum s'.trace =
          s.actorsOut.totalBalance - passDeltaSum s.trace + balanceSum (passEntries order) ∧
        s'.transferFromBurnt - posDeltaSum s'.trace =
          s.transferFromBurnt - posDeltaSum s.trace ∧
        deferredDeltaSum s'.trace = deferredDeltaSum s.trace := by
  intro order
  induction order with
  | nil =>
    intro s s' h _ _
    simp only [concurrentPass, PassResult.done.injEq] at h
    subst h
    simp [passEntries, balanceSum]
  | cons hd tl ih =>
    intro s s' h hnd hdis
    obtain ⟨addr, a⟩ := hd
    simp only [List.map_cons, List.nodup_cons] at hnd
    rcases concurrentPass_cons_done store table addr a tl s s' h with
      ⟨hvr, hrest⟩ | ⟨m, headOut, transfer, hvr, _, _, _, hrest⟩
    · have := ih _ s' hrest hnd.2 (fun e he => hdis e (List.mem_cons_of_mem _ he))
      obtain ⟨h1, h2, h3⟩ := this
      simp only [passDeltaSum_append, posDeltaSum_append, deferredDeltaSum_append] at h1 h2 h3
      have e1 : passDeltaSum [Event.release] = 0 := rfl
      have e2 : posDeltaSum [Event.release] = 0 := rfl
      have e3 : deferredDeltaSum [Event.release] = 0 := rfl
      have e4 : passEntries ((addr, a) :: tl) = passEntries tl := by
        simp [passEntries, hvr]
      rw [e4]
      rw [e1] at h1
      rw [e2] at h2
      rw [e3] at h3
      refine ⟨by linarith, by linarith, by linarith⟩
    · have hdis' : ∀ e ∈ tl, e.1 ∉ (s.actorsOut.insert addr
          ⟨m.OutCodeCID, headOut, a.CallSeqNum, a.Balance + transfer⟩).addresses := by
        intro e he hmem
        rcases (Tree.mem_addresses_insert _ _ _ _).mp hmem with hk | hk
        · exact hnd.1 (hk ▸ List.mem_map.mpr ⟨e, he, rfl⟩)
        · exact hdis e (List.mem_cons_of_mem _ he) hk
      have := ih _ s' hrest hnd.2 hdis'
      obtain ⟨h1, h2, h3⟩ := this
      simp only [passDeltaSum_append, posDeltaSum_append, deferredDeltaSum_append,
        passDeltaSum_writeEvents, posDeltaSum_writeEvents, deferredDeltaSum_writeEvents,
        Tree.totalBalance_insert] at h1 h2 h3
      have hb : balanceAt addr s.actorsOut.entries = 0 :=
        balanceAt_of_not_mem (hdis (addr, a) (List.mem_cons_self _ _))
      have e4 : balanceSum (passEntries ((addr, a) :: tl)) =
          a.Balance + balanceSum (passEntries tl) := by
        simp [passEntries, hvr, balanceSum]
      rw [e4]
      rw [hb] at h1
      refine ⟨by linarith, by linarith, by linarith⟩

/-- The addresses of the output tree after a pass that completes. -/
theorem pass_done_keys (store : Store) (table : Cid → Option ActorMigration) :
    ∀ (order : List (Address × Actor)) (s s' : PassState),
      concurrentPass store table order s = .done s' →
      ∀ k, k ∈ s'.actorsOut.addresses ↔
        k ∈ s.actorsOut.addresses ∨
          ∃ a, (k, a) ∈ order ∧ a.Code ≠ builtin0.VerifiedRegistryActorCodeID := by
  intro order
  induction order with
  | nil =>
    intro s s' h k
    simp only [concurrentPass, PassResult.done.injEq] at h
    subst h
    simp
  | cons hd tl ih =>
    intro s s' h k
    obtain ⟨addr, a⟩ := hd
    rcases concurrentPass_cons_done store table addr a tl s s' h with
      ⟨hvr, hrest⟩ | ⟨m, headOut, transfer, hvr, _, _, _, hrest⟩
    · rw [ih _ s' hrest k]
      constructor
      · rintro (h1 | ⟨b, hb, hc⟩)
        · exact Or.inl h1
        · exact Or.inr ⟨b, List.mem_cons_of_mem _ hb, hc⟩
      · rintro (h1 | ⟨b, hb, hc⟩)
        · exact Or.inl h1
        · rcases List.mem_cons.mp hb with hb | hb
          · cases hb
            exact absurd hvr hc
          · exact Or.inr ⟨b, hb, hc⟩
    · rw [ih _ s' hrest k, Tree.mem_addresses_insert]
      constructor
      · rintro ((h1 | h1) | ⟨b, hb, hc⟩)
        · exact Or.inr ⟨a, h1 ▸ List.mem_cons_self _ _, hvr⟩
        · exact Or.inl h1
        · exact Or.inr ⟨b, List.mem_cons_of_mem _ hb, hc⟩
      · rintro (h1 | ⟨b, hb, hc⟩)
        · exact Or.inl (Or.inr h1)
        · rcases List.mem_cons.mp hb with hb | hb
          · cases hb
            exact Or.inl (Or.inl rfl)
          · exact Or.inr ⟨b, hb, hc⟩

/-- A pass leaves the bindings at the addresses of other actors alone. -/
theorem pass_done_lookup_other (store : Store) (table : Cid → Option ActorMigration) :
    ∀ (order : List (Address × Actor)) (s s' : PassState),
      concurrentPass store table order s = .done s' →
      ∀ k, k ∉ order.map Prod.fst →
        lookupEntry k s'.actorsOut.entries = lookupEntry k s.actorsOut.entries := by
  intro order
  induction order with
  | nil =>
    intro s s' h k _
    simp only [concurrentPass, PassResult.done.injEq] at h
    subst h
    rfl
  | cons hd tl ih =>
    intro s s' h k hk
    obtain ⟨addr, a⟩ := hd
    simp only [List.map_cons, List.mem_cons, not_or] at hk
    rcases concurrentPass_cons_done store table addr a tl s s' h with
      ⟨hvr, hrest⟩ | ⟨m, headOut, transfer, hvr, _, _, _, hrest⟩
    · rw [ih _ s' hrest k hk.2]
    · rw [ih _ s' hrest k hk.2, Tree.lookup_insert, if_neg hk.1]

/-- After a pass that completes, every actor it migrates is bound in the output tree to the
actor built from its migrator's result, under the target code of its table entry. -/
theorem pass_done_codes (store : Store) (table : Cid → Option ActorMigration) :
    ∀ (order : List (Address × Actor)) (s s' : PassState),
      concurrentPass store table order s = .done s' →
      (order.map Prod.fst).Nodup →
      ∀ k a, (k, a) ∈ order → a.Code ≠ builtin0.VerifiedRegistryActorCodeID →
        ∃ m headOut transfer, table a.Code = some m ∧
          m.StateMigration a.Head a.Balance = .ok (headOut, transfer) ∧
          lookupEntry k s'.actorsOut.entries =
            some ⟨m.OutCodeCID, headOut, a.CallSeqNum, a.Balance + transfer⟩ := by
  intro order
  induction order with
  | nil => intro s s' _ _ k a hmem; simp at hmem
  | cons hd tl ih =>
    intro s s' h hnd k a hmem hcode
    obtain ⟨addr, a0⟩ := hd
    simp only [List.map_cons, List.nodup_cons] at hnd
    rcases concurrentPass_cons_done store table addr a0 tl s s' h with
      ⟨hvr, hrest⟩ | ⟨m, headOut, transfer, hvr, htab, hres, _, hrest⟩
    · rcases List.mem_cons.mp hmem with hm | hm
      · cases hm
        exact absurd hvr hcode
      · exact ih _ s' hrest hnd.2 k a hm hcode
    · rcases List.mem_cons.mp hmem with hm | hm
      · cases hm
        refine ⟨m, headOut, transfer, htab, hres, ?_⟩
        rw [pass_done_lookup_other store table tl _ s' hrest k hnd.1, Tree.lookup_insert,
          if_pos rfl]
      · exact ih _ s' hrest hnd.2 k a hm hcode

/-! ## Inversion of the phases of a run -/

/-- A run that returns a pair never pairs an error with a root, nor a nil error with the
undefined root. -/
def Outcome.Consistent : Outcome → Prop
  | .returned root err => (err = none ∧ root ≠ .Undef) ∨ (err ≠ none ∧ root = .Undef)
  | .panicked => True
  | .blocked => True

/-- The outcome returns no root: it is an error with the undefined root, a crash or a hang. -/
def Outcome.NoRoot : Outcome → Prop
  | .returned root err => err ≠ none ∧ root = .Undef
  | .panicked => True
  | .blocked => True

theorem runPass_ready {store : Store} {ms : Migrators} {stateRootIn : StateRoot} {cfg : Config}
    {sched : List Nat} {actorsIn : Tree} {s : PassState}
    (h : runPass store ms stateRootIn cfg sched = .ready actorsIn s) :
    stateRootIn = .tree actorsIn ∧ store.fault .forEach = none ∧
      (0 < cfg.MaxWorkers ∨ actorsIn.entries = []) ∧
      concurrentPass store (migrations ms (some actorsIn) none)
        (completionOrder cfg.MaxWorkers.toNat sched actorsIn.entries) ⟨Tree.empty, 0, []⟩ =
          .done s := by
  unfold runPass at h
  unfold states0.LoadTree adt.MakeEmptyMapRoot states.LoadTree Tree.ForEach at h
  cases h1 : store.fault (.loadTree .input) with
  | some e => simp [h1] at h
  | none =>
    cases stateRootIn with
    | Undef => simp [h1] at h
    | tree t =>
      cases h2 : store.fault .emptyMapRoot with
      | some e => simp [h1, h2] at h
      | none =>
        cases h3 : store.fault (.loadTree .output) with
        | some e => simp [h1, h2, h3] at h
        | none =>
          cases h4 : store.fault .forEach with
          | some e => simp [h1, h2, h3, h4] at h
          | none =>
            simp only [h1, h2, h3, h4] at h
            split_ifs at h with hb
            · cases hp : concurrentPass store (migrations ms (some t) none)
                  (completionOrder cfg.MaxWorkers.toNat sched t.entries) ⟨Tree.empty, 0, []⟩ with
              | failed err trace => rw [hp] at h; cases h
              | panicked trace => rw [hp] at h; cases h
              | done s0 =>
                rw [hp] at h
                simp only [Progress.ready.injEq] at h
                obtain ⟨rfl, rfl⟩ := h
                refine ⟨rfl, rfl, ?_, hp⟩
                by_cases hw : 0 < cfg.MaxWorkers
                · exact Or.inl hw
                · right
                  by_contra hne
                  exact hb ⟨not_lt.mp hw, hne⟩

theorem runPass_stopped {store : Store} {ms : Migrators} {stateRootIn : StateRoot}
    {cfg : Config} {sched : List Nat} {run : Run}
    (h : runPass store ms stateRootIn cfg sched = .stopped run) : run.outcome.NoRoot := by
  unfold runPass at h
  unfold states0.LoadTree adt.MakeEmptyMapRoot states.LoadTree Tree.ForEach at h
  cases h1 : store.fault (.loadTree .input) with
  | some e => simp only [h1] at h; cases h; simp [Outcome.NoRoot]
  | none =>
    cases stateRootIn with
    | Undef => simp only [h1] at h; cases h; simp [Outcome.NoRoot]
    | tree t =>
      cases h2 : store.fault .emptyMapRoot with
      | some e => simp only [h1, h2] at h; cases h; simp [Outcome.NoRoot]
      | none =>
        cases h3 : store.fault (.loadTree .output) with
        | some e => simp only [h1, h2, h3] at h; cases h; simp [Outcome.NoRoot]
        | none =>
          cases h4 : store.fault .forEach with
          | some e => simp only [h1, h2, h3, h4] at h; cases h; simp [Outcome.NoRoot]
          | none =>
            simp only [h1, h2, h3, h4] at h
            split_ifs at h with hb
            · cases h; simp [Outcome.NoRoot]
            · cases hp : concurrentPass store (migrations ms (some t) none)
                  (completionOrder cfg.MaxWorkers.toNat sched t.entries) ⟨Tree.empty, 0, []⟩ with
              | failed err trace => rw [hp] at h; cases h; simp [Outcome.NoRoot]
              | panicked trace => rw [hp] at h; cases h; simp [Outcome.NoRoot]
              | done s0 => rw [hp] at h; cases h

theorem migrateVerifreg_ready {store : Store} {ms : Migrators} {actorsIn actorsIn' : Tree}
    {s s2 : PassState} (h : migrateVerifreg store ms actorsIn s = .ready actorsIn' s2) :
    actorsIn' = actorsIn ∧
      ∃ vrIn headOut transfer,
        lookupEntry builtin0.VerifiedRegistryActorAddr actorsIn.entries = some vrIn ∧
        ms.verifregMigrator (some s.actorsOut) vrIn.Head vrIn.Balance =
          .ok (headOut, transfer) ∧
        s2 = ⟨s.actorsOut.insert builtin.VerifiedRegistryActorAddr
              ⟨builtin.VerifiedRegistryActorCodeID, headOut, vrIn.CallSeqNum,
                vrIn.Balance + transfer⟩,
            s.transferFromBurnt,
            s.trace ++
              [.migrateVerifreg s.actorsOut vrIn.Head vrIn.Balance (.ok (headOut, transfer))] ++
              [.setActor builtin.VerifiedRegistryActorAddr
                ⟨builtin.VerifiedRegistryActorCodeID, headOut, vrIn.CallSeqNum,
                  vrIn.Balance + transfer⟩ none]⟩ := by
  unfold migrateVerifreg Tree.GetActor Tree.SetActor at h
  cases h1 : store.fault (.getActor .input builtin0.VerifiedRegistryActorAddr) with
  | some e => simp [h1] at h
  | none =>
    cases h2 : lookupEntry builtin0.VerifiedRegistryActorAddr actorsIn.entries with
    | none => simp [h1, h2] at h
    | some vrIn =>
      cases h3 : ms.verifregMigrator (some s.actorsOut) vrIn.Head vrIn.Balance with
      | error e => simp [h1, h2, h3] at h
      | ok r =>
        obtain ⟨headOut, transfer⟩ := r
        cases h4 : store.fault (.setActor builtin.VerifiedRegistryActorAddr
            ⟨builtin.VerifiedRegistryActorCodeID, headOut, vrIn.CallSeqNum,
              vrIn.Balance + transfer⟩) with
        | some e => simp [h1, h2, h3, h4] at h
        | none =>
          simp only [h1, h2, h3, h4, Progress.ready.injEq] at h
          obtain ⟨rfl, rfl⟩ := h
          exact ⟨rfl, vrIn, headOut, transfer, rfl, h3, rfl⟩

theorem migrateVerifreg_stopped {store : Store} {ms : Migrators} {actorsIn : Tree}
    {s : PassState} {run : Run} (h : migrateVerifreg store ms actorsIn s = .stopped run) :
    ∃ e, run.outcome = .returned .Undef (some e) := by
  unfold migrateVerifreg Tree.GetActor Tree.SetActor at h
  cases h1 : store.fault (.getActor .input builtin0.VerifiedRegistryActorAddr) with
  | some e => simp only [h1] at h; cases h; exact ⟨_, rfl⟩
  | none =>
    cases h2 : lookupEntry builtin0.VerifiedRegistryActorAddr actorsIn.entries with
    | none => simp only [h1, h2] at h; cases h; exact ⟨_, rfl⟩
    | some vrIn =>
      cases h3 : ms.verifregMigrator (some s.actorsOut) vrIn.Head vrIn.Balance with
      | error e => simp only [h1, h2, h3] at h; cases h; exact ⟨_, rfl⟩
      | ok r =>
        obtain ⟨headOut, transfer⟩ := r
        cases h4 : store.fault (.setActor builtin.VerifiedRegistryActorAddr
            ⟨builtin.VerifiedRegistryActorCodeID, headOut, vrIn.CallSeqNum,
              vrIn.Balance + transfer⟩) with
        | some e => simp only [h1, h2, h3, h4] at h; cases h; exact ⟨_, rfl⟩
        | none => simp only [h1, h2, h3, h4] at h; cases h

theorem reconcileBurntFunds_cases (store : Store) (s : PassState) :
    (∃ e, (reconcileBurntFunds store s).outcome = .returned .Undef (some e)) ∨
    (∃ bf, lookupEntry builtin.BurntFundsActorAddr s.actorsOut.entries = some bf ∧
      0 ≤ bf.Balance - s.transferFromBurnt ∧
      reconcileBurntFunds store s =
        ⟨.returned
          (.tree (s.actorsOut.insert builtin.BurntFundsActorAddr
            ⟨bf.Code, bf.Head, bf.CallSeqNum, bf.Balance - s.transferFromBurnt⟩)) none,
          s.trace ++ [.setActor builtin.BurntFundsActorAddr
            ⟨bf.Code, bf.Head, bf.CallSeqNum, bf.Balance - s.transferFromBurnt⟩ none]⟩) := by
  unfold reconcileBurntFunds Tree.GetActor Tree.SetActor Tree.Flush
  cases h1 : store.fault (.getActor .output builtin.BurntFundsActorAddr) with
  | some e => left; exact ⟨e, by simp⟩
  | none =>
    cases h2 : lookupEntry builtin.BurntFundsActorAddr s.actorsOut.entries with
    | none => left; exact ⟨.errorf "burnt funds actor not in tree", by simp⟩
    | some bf =>
      by_cases hneg : bf.Balance - s.transferFromBurnt < 0
      · left
        exact ⟨.errorf "miner transfers send burnt funds actor balance below zero",
          by simp [hneg]⟩
      · cases h4 : store.fault (.setActor builtin.BurntFundsActorAddr
            ⟨bf.Code, bf.Head, bf.CallSeqNum, bf.Balance - s.transferFromBurnt⟩) with
        | some e => left; exact ⟨e, by simp [hneg, h4]⟩
        | none =>
          cases h5 : store.fault .flush with
          | some e => left; exact ⟨e, by simp [hneg, h4, h5]⟩
          | none =>
            right
            exact ⟨bf, rfl, not_lt.mp hneg, by simp [hneg, h4, h5]⟩

/-! ## Runs that return a root -/

/-- The verified-registry actor written by the deferred step. -/
def verifregActorOut (vrIn : Actor) (headOut : Cid) (transfer : TokenAmount) : Actor :=
  ⟨builtin.VerifiedRegistryActorCodeID, headOut, vrIn.CallSeqNum, vrIn.Balance + transfer⟩

/-- The coordinator's state after the deferred step. -/
def deferredState (s : PassState) (vrIn : Actor) (headOut : Cid) (transfer : TokenAmount) :
    PassState :=
  ⟨s.actorsOut.insert builtin.VerifiedRegistryActorAddr (verifregActorOut vrIn headOut transfer),
    s.transferFromBurnt,
    s.trace ++ [.migrateVerifreg s.actorsOut vrIn.Head vrIn.Balance (.ok (headOut, transfer))] ++
      [.setActor builtin.VerifiedRegistryActorAddr (verifregActorOut vrIn headOut transfer) none]⟩

/-- The burnt-funds actor written by the reconciliation. -/
def burntActorOut (bf : Actor) (transferFromBurnt : TokenAmount) : Actor :=
  ⟨bf.Code, bf.Head, bf.CallSeqNum, bf.Balance - transferFromBurnt⟩

/-- The value of `transferFromBurnt` when the run reaches the reconciliation (`top.go:205`):
the amount debited from the burnt-funds actor. -/
def debitedFromBurnt (store : Store) (ms : Migrators) (stateRootIn : StateRoot) (cfg : Config)
    (sched : List Nat) : TokenAmount :=
  match runDeferred store ms stateRootIn cfg sched with
  | .ready _ s => s.transferFromBurnt
  | .stopped _ => 0

/-- Everything that holds of a run that returns a root. -/
theorem MigrateStateTree_root {store : Store} {ms : Migrators} {stateRootIn : StateRoot}
    {cfg : Config} {sched : List Nat} {out : Tree} {err : Option Error}
    (h : (MigrateStateTree store ms stateRootIn cfg sched).outcome = .returned (.tree out) err) :
    err = none ∧
    ∃ actorsIn s1 vrIn headOut transfer bf,
      stateRootIn = .tree actorsIn ∧
      runPass store ms stateRootIn cfg sched = .ready actorsIn s1 ∧
      lookupEntry builtin0.VerifiedRegistryActorAddr actorsIn.entries = some vrIn ∧
      ms.verifregMigrator (some s1.actorsOut) vrIn.Head vrIn.Balance =
        .ok (headOut, transfer) ∧
      runDeferred store ms stateRootIn cfg sched =
        .ready actorsIn (deferredState s1 vrIn headOut transfer) ∧
      lookupEntry builtin.BurntFundsActorAddr
        (deferredState s1 vrIn headOut transfer).actorsOut.entries = some bf ∧
      0 ≤ bf.Balance - s1.transferFromBurnt ∧
      out = (deferredState s1 vrIn headOut transfer).actorsOut.insert
        builtin.BurntFundsActorAddr (burntActorOut bf s1.transferFromBurnt) ∧
      (MigrateStateTree store ms stateRootIn cfg sched).trace =
        (deferredState s1 vrIn headOut transfer).trace ++
          [.setActor builtin.BurntFundsActorAddr (burntActorOut bf s1.transferFromBurnt) none] := by
  unfold MigrateStateTree at h ⊢
  unfold runDeferred at h ⊢
  cases hp : runPass store ms stateRootIn cfg sched with
  | stopped run =>
    rw [hp] at h
    simp only [] at h
    have := runPass_stopped hp
    rw [h] at this
    simp [Outcome.NoRoot] at this
  | ready actorsIn s1 =>
    rw [hp] at h
    simp only [] at h ⊢
    cases hd : migrateVerifreg store ms actorsIn s1 with
    | stopped run =>
      rw [hd] at h
      simp only [] at h
      obtain ⟨e, he⟩ := migrateVerifreg_stopped hd
      rw [h] at he
      cases he
    | ready actorsIn' s2 =>
      rw [hd] at h
      simp only [] at h ⊢
      obtain ⟨rfl, vrIn, headOut, transfer, hl, hm, rfl⟩ := migrateVerifreg_ready hd
      rcases reconcileBurntFunds_cases store
          ⟨s1.actorsOut.insert builtin.VerifiedRegistryActorAddr
              ⟨builtin.VerifiedRegistryActorCodeID, headOut, vrIn.CallSeqNum,
                vrIn.Balance + transfer⟩,
            s1.transferFromBurnt,
            s1.trace ++
              [.migrateVerifreg s1.actorsOut vrIn.Head vrIn.Balance (.ok (headOut, transfer))] ++
              [.setActor builtin.VerifiedRegistryActorAddr
                ⟨builtin.VerifiedRegistryActorCodeID, headOut, vrIn.CallSeqNum,
                  vrIn.Balance + transfer⟩ none]⟩ with ⟨e, he⟩ | ⟨bf, hbf, hnn, hrun⟩
      · rw [h] at he
        cases he
      · rw [hrun] at h ⊢
        simp only [Outcome.returned.injEq, StateRoot.tree.injEq] at h
        obtain ⟨hout, herr⟩ := h
        refine ⟨herr.symm, actorsIn', s1, vrIn, headOut, transfer, bf, (runPass_ready hp).1, rfl,
          hl, hm, rfl, hbf, hnn, hout.symm, rfl⟩

/-! ## Balances of the input tree -/

theorem completionOrder_perm_of_run (cfg : Config) (sched : List Nat)
    (entries : List (Address × Actor)) (h : 0 < cfg.MaxWorkers ∨ entries = []) :
    (completionOrder cfg.MaxWorkers.toNat sched entries).Perm entries := by
  rcases h with h | h
  · exact completionOrder_perm _ (by omega) sched entries
  · subst h
    simp [completionOrder, completionOrderAux]

theorem balanceSum_perm {l1 l2 : List (Address × Actor)} (h : l1.Perm l2) :
    balanceSum l1 = balanceSum l2 :=
  (h.map _).sum_eq

theorem passEntries_perm {l1 l2 : List (Address × Actor)} (h : l1.Perm l2) :
    (passEntries l1).Perm (passEntries l2) :=
  h.filter _

/-- The verified-registry code sits exactly at the verified-registry address. -/
def VerifregSingleton (t : Tree) : Prop :=
  ∀ e ∈ t.entries, e.2.Code = builtin0.VerifiedRegistryActorCodeID ↔
    e.1 = builtin0.VerifiedRegistryActorAddr

theorem balanceSum_split (l : List (Address × Actor)) (hnd : (l.map Prod.fst).Nodup)
    (hs : ∀ e ∈ l, e.2.Code = builtin0.VerifiedRegistryActorCodeID ↔
      e.1 = builtin0.VerifiedRegistryActorAddr) :
    balanceSum l = balanceSum (passEntries l) + balanceAt builtin0.VerifiedRegistryActorAddr l := by
  induction l with
  | nil => simp [balanceSum, passEntries, balanceAt, lookupEntry]
  | cons hd tl ih =>
    obtain ⟨k, v⟩ := hd
    simp only [List.map_cons, List.nodup_cons] at hnd
    have ih' := ih hnd.2 (fun e he => hs e (List.mem_cons_of_mem _ he))
    have hhd := hs (k, v) (List.mem_cons_self _ _)
    simp only at hhd
    by_cases hc : v.Code = builtin0.VerifiedRegistryActorCodeID
    · have hk : k = builtin0.VerifiedRegistryActorAddr := hhd.mp hc
      subst hk
      have h0 : balanceAt builtin0.VerifiedRegistryActorAddr tl = 0 :=
        balanceAt_of_not_mem hnd.1
      have e1 : passEntries ((builtin0.VerifiedRegistryActorAddr, v) :: tl) = passEntries tl := by
        simp [passEntries, hc]
      have e2 : balanceAt builtin0.VerifiedRegistryActorAddr
          ((builtin0.VerifiedRegistryActorAddr, v) :: tl) = v.Balance := by
        simp [balanceAt, lookupEntry]
      have e3 : balanceSum ((builtin0.VerifiedRegistryActorAddr, v) :: tl) =
          v.Balance + balanceSum tl := by
        simp [balanceSum]
      rw [e1, e2, e3, ih', h0]
      ring
    · have hk : ¬ builtin0.VerifiedRegistryActorAddr = k := fun e => hc (hhd.mpr e.symm)
      have e1 : passEntries ((k, v) :: tl) = (k, v) :: passEntries tl := by
        simp [passEntries, hc]
      have e2 : balanceAt builtin0.VerifiedRegistryActorAddr ((k, v) :: tl) =
          balanceAt builtin0.VerifiedRegistryActorAddr tl := by
        simp [balanceAt, lookupEntry, hk]
      have e3 : ∀ l : List (Address × Actor), balanceSum ((k, v) :: l) =
          v.Balance + balanceSum l := by
        intro l
        simp [balanceSum]
      rw [e1, e2, e3, e3, ih']
      ring

theorem InputTreeBalance_ok (store : Store) (t : Tree) (visited : Nat)
    (h1 : store.fault (.loadTree .input) = none) (h2 : store.fault .forEach = none) :
    InputTreeBalance store (.tree t) visited = (t.totalBalance, none) := by
  simp [InputTreeBalance, states0.LoadTree, Tree.ForEach, h1, h2, foldl_balance,
    Tree.totalBalance, balanceSum]

theorem runPass_ready_load {store : Store} {ms : Migrators} {stateRootIn : StateRoot}
    {cfg : Config} {sched : List Nat} {actorsIn : Tree} {s : PassState}
    (h : runPass store ms stateRootIn cfg sched = .ready actorsIn s) :
    store.fault (.loadTree .input) = none := by
  unfold runPass states0.LoadTree at h
  cases h1 : store.fault (.loadTree .input) with
  | some e => simp [h1] at h
  | none => rfl

/-! ## Example inputs -/

/-- A migrator that keeps the head and reports no balance change. -/
def keepMigrator : StateMigration := fun head _ => .ok (head, 0)

/-- Migrators under which the power migrator reports a transfer of 5 and every other migrator
reports none. -/
def exampleMigrators : Migrators :=
  ⟨keepMigrator, keepMigrator, keepMigrator, keepMigrator, keepMigrator, keepMigrator,
    fun _ head _ => .ok (head, 5), keepMigrator, keepMigrator, fun _ head _ => .ok (head, 0),
    keepMigrator⟩

/-- A tree with a system actor, a power actor, the verified registry and the burnt-funds
account. -/
def exampleTree : Tree :=
  ⟨[(0, ⟨builtin0.SystemActorCodeID, .block 1, 0, 10⟩),
    (4, ⟨builtin0.StoragePowerActorCodeID, .block 2, 3, 20⟩),
    (6, ⟨builtin0.VerifiedRegistryActorCodeID, .block 3, 0, 30⟩),
    (99, ⟨builtin0.AccountActorCodeID, .block 4, 7, 40⟩)], by decide⟩

/-- The migration of `exampleTree` under `exampleMigrators`. -/
def exampleTreeOut : Tree :=
  ⟨[(0, ⟨builtin.SystemActorCodeID, .block 1, 0, 10⟩),
    (4, ⟨builtin.StoragePowerActorCodeID, .block 2, 3, 25⟩),
    (6, ⟨builtin.VerifiedRegistryActorCodeID, .block 3, 0, 30⟩),
    (99, ⟨builtin.AccountActorCodeID, .block 4, 7, 35⟩)], by decide⟩

/-- Migrators under which only the deferred verified-registry migrator reports a balance
change, of 3. -/
def verifregTransferMigrators : Migrators :=
  ⟨keepMigrator, keepMigrator, keepMigrator, keepMigrator, keepMigrator, keepMigrator,
    fun _ head _ => .ok (head, 0), keepMigrator, keepMigrator, fun _ head _ => .ok (head, 3),
    keepMigrator⟩

/-- The migration of `exampleTree` under `verifregTransferMigrators`. -/
def verifregTransferOut : Tree :=
  ⟨[(0, ⟨builtin.SystemActorCodeID, .block 1, 0, 10⟩),
    (4, ⟨builtin.StoragePowerActorCodeID, .block 2, 3, 20⟩),
    (6, ⟨builtin.VerifiedRegistryActorCodeID, .block 3, 0, 33⟩),
    (99, ⟨builtin.AccountActorCodeID, .block 4, 7, 40⟩)], by decide⟩

/-- Migrators under which the power migrator reports a transfer of 50, more than the
burnt-funds balance of `exampleTree`. -/
def overdrawMigrators : Migrators :=
  ⟨keepMigrator, keepMigrator, keepMigrator, keepMigrator, keepMigrator, keepMigrator,
    fun _ head _ => .ok (head, 50), keepMigrator, keepMigrator, fun _ head _ => .ok (head, 0),
    keepMigrator⟩

/-- The burnt-funds actor of the output tree when the run reaches the reconciliation, before
its balance is debited (`top.go:198`). -/
def burntBeforeDebit (store : Store) (ms : Migrators) (stateRootIn : StateRoot) (cfg : Config)
    (sched : List Nat) : Option Actor :=
  match runDeferred store ms stateRootIn cfg sched with
  | .ready _ s => lookupEntry builtin.BurntFundsActorAddr s.actorsOut.entries
  | .stopped _ => none

/-- Migrators that all keep the head and report no balance change. -/
def keepMigrators : Migrators :=
  ⟨keepMigrator, keepMigrator, keepMigrator, keepMigrator, keepMigrator, keepMigrator,
    fun _ => keepMigrator, keepMigrator, keepMigrator, fun _ => keepMigrator, keepMigrator⟩

/-- A tree with a second actor of the verified-registry code, at address 7. -/
def strayVerifregTree : Tree :=
  ⟨[(6, ⟨builtin0.VerifiedRegistryActorCodeID, .block 3, 0, 30⟩),
    (7, ⟨builtin0.VerifiedRegistryActorCodeID, .block 5, 0, 8⟩),
    (99, ⟨builtin0.AccountActorCodeID, .block 4, 7, 40⟩)], by decide⟩

/-- The migration of `strayVerifregTree` under `keepMigrators`. -/
def strayVerifregOut : Tree :=
  ⟨[(6, ⟨builtin.VerifiedRegistryActorCodeID, .block 3, 0, 30⟩),
    (99, ⟨builtin.AccountActorCodeID, .block 4, 7, 40⟩)], by decide⟩

/-- A tree with an account actor at the verified-registry address. -/
def accountAtVerifregTree : Tree :=
  ⟨[(6, ⟨builtin0.AccountActorCodeID, .block 3, 0, 30⟩),
    (99, ⟨builtin0.AccountActorCodeID, .block 4, 7, 40⟩)], by decide⟩

/-- The migration of `accountAtVerifregTree` under `keepMigrators`. -/
def accountAtVerifregOut : Tree :=
  ⟨[(6, ⟨builtin.VerifiedRegistryActorCodeID, .block 3, 0, 30⟩),
    (99, ⟨builtin.AccountActorCodeID, .block 4, 7, 40⟩)], by decide⟩

/-- Migrators under which only the deferred verified-registry migrator fails. -/
def failingVerifregMigrators : Migrators :=
  ⟨keepMigrator, keepMigrator, keepMigrator, keepMigrator, keepMigrator, keepMigrator,
    fun _ => keepMigrator, keepMigrator, keepMigrator,
    fun _ _ _ => .error (.other "verifreg migration failed"), keepMigrator⟩

/-- Migrators under which only the power migrator fails. -/
def failingPowerMigrators : Migrators :=
  ⟨keepMigrator, keepMigrator, keepMigrator, keepMigrator, keepMigrator, keepMigrator,
    fun _ _ _ => .error (.other "power migration failed"), keepMigrator, keepMigrator,
    fun _ => keepMigrator, keepMigrator⟩

/-- The output tree at the end of the concurrent pass, when the run gets that far. -/
def passOutputTree (store : Store) (ms : Migrators) (stateRootIn : StateRoot) (cfg : Config)
    (sched : List Nat) : Option Tree :=
  match runPass store ms stateRootIn cfg sched with
  | .ready _ s => some s.actorsOut
  | .stopped _ => none

/-- A tree without the verified registry. -/
def noVerifregTree : Tree :=
  ⟨[(0, ⟨builtin0.SystemActorCodeID, .block 1, 0, 10⟩),
    (99, ⟨builtin0.AccountActorCodeID, .block 4, 7, 40⟩)], by decide⟩

/-- A tree without the burnt-funds account. -/
def noBurntFundsTree : Tree :=
  ⟨[(0, ⟨builtin0.SystemActorCodeID, .block 1, 0, 10⟩),
    (6, ⟨builtin0.VerifiedRegistryActorCodeID, .block 3, 0, 30⟩)], by decide⟩

/-- A tree with an actor whose code has no entry in the migrations table, at address 5. -/
def foreignCodeTree : Tree :=
  ⟨[(0, ⟨builtin0.SystemActorCodeID, .block 1, 0, 10⟩),
    (5, ⟨.block 77, .block 6, 0, 1⟩),
    (6, ⟨builtin0.VerifiedRegistryActorCodeID, .block 3, 0, 30⟩),
    (99, ⟨builtin0.AccountActorCodeID, .block 4, 7, 40⟩)], by decide⟩

/-- The run from the end of the concurrent pass on: the deferred step and the reconciliation
(`top.go:172-214`). -/
def finishRun (store : Store) (ms : Migrators) (actorsIn : Tree) (s : PassState) : Run :=
  match migrateVerifreg store ms actorsIn s with
  | .stopped run => run
  | .ready _ s2 => reconcileBurntFunds store s2

/-! ## Conservation when every report is received -/

/-- Conservation in the runs in which every report is received: on an input tree that holds
the verified-registry code exactly at the verified-registry address, for every such run that
returns a root and in which the deferred migrator reports no balance change, the sum of the
output balances plus the amount debited from burnt funds equals the sum of the input balances
(as computed by `InputTreeBalance`) plus the sum of the balance changes reported in the
concurrent pass; when none of these is negative, the debit is their sum and the sum of the
output balances equals the sum of the input balances. -/
theorem conservation_delivered (store : Store) (ms : Migrators) (actorsIn : Tree)
    (cfg : Config) (sched : List Nat) (out : Tree) (visited : Nat)
    (hsingle : VerifregSingleton actorsIn)
    (hroot : (MigrateStateTree store ms (.tree actorsIn) cfg sched).outcome =
      .returned (.tree out) none)
    (hdef : ∀ ev ∈ (MigrateStateTree store ms (.tree actorsIn) cfg sched).trace,
      ev.deferredDelta = 0) :
    (InputTreeBalance store (.tree actorsIn) visited).2 = none ∧
    out.totalBalance + debitedFromBurnt store ms (.tree actorsIn) cfg sched =
      (InputTreeBalance store (.tree actorsIn) visited).1 +
        passDeltaSum (MigrateStateTree store ms (.tree actorsIn) cfg sched).trace ∧
    ((∀ ev ∈ (MigrateStateTree store ms (.tree actorsIn) cfg sched).trace, 0 ≤ ev.passDelta) →
      debitedFromBurnt store ms (.tree actorsIn) cfg sched =
          passDeltaSum (MigrateStateTree store ms (.tree actorsIn) cfg sched).trace ∧
        out.totalBalance = (InputTreeBalance store (.tree actorsIn) visited).1) := by
  obtain ⟨-, t, s1, vrIn, headOut, transfer, bf, hr, hpass, hvr, hmig, hdefer, hbf, hnn, hout,
    htrace⟩ := MigrateStateTree_root hroot
  cases hr
  obtain ⟨-, hfe, hw, hdone⟩ := runPass_ready hpass
  have hload := runPass_ready_load hpass
  rw [InputTreeBalance_ok store actorsIn visited hload hfe]
  have hperm := completionOrder_perm_of_run cfg sched actorsIn.entries hw
  have hnd : ((completionOrder cfg.MaxWorkers.toNat sched actorsIn.entries).map Prod.fst).Nodup :=
    (hperm.map Prod.fst).nodup_iff.mpr actorsIn.nodup
  obtain ⟨hacc1, hacc2, hacc3⟩ := pass_done_accounts store _ _ _ s1 hdone hnd
    (by intro e _ hm; simp [Tree.empty, Tree.addresses] at hm)
  simp only [Tree.empty, Tree.totalBalance, passDeltaSum, posDeltaSum, deferredDeltaSum,
    List.map_nil, List.sum_nil, sub_zero, zero_add] at hacc1 hacc2 hacc3
  rw [balanceSum_perm (passEntries_perm hperm)] at hacc1
  -- the deferred write lands on an unbound address
  have hfree : builtin.VerifiedRegistryActorAddr ∉ s1.actorsOut.addresses := by
    intro hm
    rcases (pass_done_keys store _ _ _ s1 hdone _).mp hm with hm | ⟨a, ha, hc⟩
    · simp [Tree.empty, Tree.addresses] at hm
    · have ha' : (builtin.VerifiedRegistryActorAddr, a) ∈ actorsIn.entries := hperm.mem_iff.mp ha
      exact hc ((hsingle _ ha').mpr rfl)
  have htot2 : (deferredState s1 vrIn headOut transfer).actorsOut.totalBalance =
      s1.actorsOut.totalBalance + vrIn.Balance + transfer := by
    simp only [deferredState, Tree.totalBalance_insert, verifregActorOut]
    rw [balanceAt_of_not_mem hfree]
    ring
  have hbfbal : balanceAt builtin.BurntFundsActorAddr
      (deferredState s1 vrIn headOut transfer).actorsOut.entries = bf.Balance := by
    simp [balanceAt, hbf]
  have htot3 : out.totalBalance =
      s1.actorsOut.totalBalance + vrIn.Balance + transfer - s1.transferFromBurnt := by
    rw [hout, Tree.totalBalance_insert, hbfbal, htot2]
    simp only [burntActorOut]
    ring
  have hin : actorsIn.totalBalance = balanceSum (passEntries actorsIn.entries) + vrIn.Balance := by
    have := balanceSum_split actorsIn.entries actorsIn.nodup hsingle
    simp only [balanceAt, hvr] at this
    exact this
  have hdebit : debitedFromBurnt store ms (.tree actorsIn) cfg sched = s1.transferFromBurnt := by
    simp [debitedFromBurnt, hdefer, deferredState]
  have htr1 : passDeltaSum (MigrateStateTree store ms (.tree actorsIn) cfg sched).trace =
      passDeltaSum s1.trace := by
    rw [htrace]
    simp [deferredState, passDeltaSum, Event.passDelta]
  have htr0 : transfer = 0 := by
    have := hdef (.migrateVerifreg s1.actorsOut vrIn.Head vrIn.Balance (.ok (headOut, transfer)))
      (by rw [htrace]; simp [deferredState])
    simpa [Event.deferredDelta] using this
  simp only [Tree.totalBalance, passDeltaSum] at htot3 hin htr1 ⊢
  refine ⟨trivial, ?_, ?_⟩
  · rw [hdebit, htr1]
    linarith
  · intro hpos
    have hpos1 : ∀ ev ∈ s1.trace, 0 ≤ ev.passDelta := by
      intro ev hev
      apply hpos
      rw [htrace]
      simp [deferredState, hev]
    have := posDeltaSum_eq_passDeltaSum s1.trace hpos1
    simp only [posDeltaSum, passDeltaSum] at this
    rw [hdebit, htr1]
    constructor <;> linarith

/-! ## C2: the burnt-funds debit -/

/-- C2, the code at the failing input: on `exampleTree`, when the deferred verified-registry
migrator reports a balance change of 3 (and no other migrator reports any), the run succeeds,
the verified-registry balance is raised by 3, and the burnt-funds balance in the output tree is
still 40, its balance after its own migration, not 40 - 3. -/
theorem burnt_debit_omits_deferred_delta :
    (MigrateStateTree Store.reliable verifregTransferMigrators (.tree exampleTree) DefaultConfig
        []).outcome = .returned (.tree verifregTransferOut) none ∧
      (burntBeforeDebit Store.reliable verifregTransferMigrators (.tree exampleTree)
        DefaultConfig []).map Actor.Balance = some 40 ∧
      deferredDeltaSum (MigrateStateTree Store.reliable verifregTransferMigrators
        (.tree exampleTree) DefaultConfig []).trace = 3 ∧
      passDeltaSum (MigrateStateTree Store.reliable verifregTransferMigrators
        (.tree exampleTree) DefaultConfig []).trace = 0 ∧
      balanceAt builtin.BurntFundsActorAddr verifregTransferOut.entries = 40 ∧
      balanceAt builtin.VerifiedRegistryActorAddr verifregTransferOut.entries = 33 := by
  decide

/-! ## Entries of the migrations table -/

theorem migrations_verifreg (ms : Migrators) (pmActorsIn vmActorsOut : Option Tree) :
    migrations ms pmActorsIn vmActorsOut builtin0.VerifiedRegistryActorCodeID =
      some ⟨builtin.VerifiedRegistryActorCodeID, ms.verifregMigrator vmActorsOut⟩ := rfl

/-! ## The pass of a run on a loaded tree -/

theorem runPass_loaded (store : Store) (ms : Migrators) (t : Tree) (cfg : Config)
    (sched : List Nat) (h1 : store.fault (.loadTree .input) = none)
    (h2 : store.fault .emptyMapRoot = none) (h3 : store.fault (.loadTree .output) = none)
    (h4 : store.fault .forEach = none) (hw : 0 < cfg.MaxWorkers ∨ t.entries = []) :
    runPass store ms (.tree t) cfg sched =
      match concurrentPass store (migrations ms (some t) none)
          (completionOrder cfg.MaxWorkers.toNat sched t.entries) ⟨Tree.empty, 0, []⟩ with
      | .failed err trace => .stopped ⟨.returned .Undef (some err), trace⟩
      | .panicked trace => .stopped ⟨.panicked, trace⟩
      | .done s => .ready t s := by
  have hb : ¬ (cfg.MaxWorkers ≤ 0 ∧ t.entries ≠ []) := by
    rintro ⟨hle, hne⟩
    rcases hw with hw | hw
    · omega
    · exact hne hw
  simp [runPass, states0.LoadTree, adt.MakeEmptyMapRoot, states.LoadTree, Tree.ForEach, h1, h2,
    h3, h4, hb]

/-! ## C6: no partial root -/

theorem runDeferred_stopped {store : Store} {ms : Migrators} {stateRootIn : StateRoot}
    {cfg : Config} {sched : List Nat} {run : Run}
    (h : runDeferred store ms stateRootIn cfg sched = .stopped run) : run.outcome.NoRoot := by
  unfold runDeferred at h
  cases hp : runPass store ms stateRootIn cfg sched with
  | stopped r =>
    rw [hp] at h
    simp only [Progress.stopped.injEq] at h
    subst h
    exact runPass_stopped hp
  | ready actorsIn s =>
    rw [hp] at h
    obtain ⟨e, he⟩ := migrateVerifreg_stopped h
    rw [he]
    simp [Outcome.NoRoot]

theorem MigrateStateTree_consistent (store : Store) (ms : Migrators) (stateRootIn : StateRoot)
    (cfg : Config) (sched : List Nat) :
    (MigrateStateTree store ms stateRootIn cfg sched).outcome.Consistent := by
  unfold MigrateStateTree
  cases hd : runDeferred store ms stateRootIn cfg sched with
  | stopped run =>
    have := runDeferred_stopped hd
    simp only []
    cases ho : run.outcome with
    | returned root err =>
      rw [ho] at this
      exact Or.inr this
    | panicked => trivial
    | blocked => trivial
  | ready actorsIn s =>
    simp only []
    rcases reconcileBurntFunds_cases store s with ⟨e, he⟩ | ⟨bf, -, -, hrun⟩
    · rw [he]
      exact Or.inr ⟨by simp, rfl⟩
    · rw [hrun]
      exact Or.inl ⟨rfl, by simp⟩

/-- C6: whatever `MigrateStateTree` returns is either a root with a nil error or an error with
the undefined root; with a non-nil error the root is `cid.Undef`. -/
theorem no_partial_root (store : Store) (ms : Migrators) (stateRootIn : StateRoot)
    (cfg : Config) (sched : List Nat) (root : StateRoot) (err : Option Error)
    (h : (MigrateStateTree store ms stateRootIn cfg sched).outcome = .returned root err) :
    ((err = none ∧ root ≠ .Undef) ∨ (err ≠ none ∧ root = .Undef)) ∧
      (err ≠ none → root = .Undef) := by
  have hc := MigrateStateTree_consistent store ms stateRootIn cfg sched
  rw [h] at hc
  refine ⟨hc, fun hne => ?_⟩
  rcases hc with ⟨h1, -⟩ | ⟨-, h2⟩
  · exact absurd h1 hne
  · exact h2

/-- C6, witness: the run on `exampleTree` returns a root with a nil error, the run with the
failing power migrator an error with the undefined root. -/
theorem no_partial_root_witness :
    (((none : Option Error) = none ∧ StateRoot.tree exampleTreeOut ≠ .Undef) ∨
      ((none : Option Error) ≠ none ∧ StateRoot.tree exampleTreeOut = .Undef)) ∧
    (some (Error.stateMigration "fil/2/storagepower" 4 (.other "power migration failed")) ≠
        none → StateRoot.Undef = .Undef) :=
  ⟨(no_partial_root Store.reliable exampleMigrators (.tree exampleTree) DefaultConfig []
      (.tree exampleTreeOut) none (by decide)).1,
    (no_partial_root Store.reliable failingPowerMigrators (.tree exampleTree) DefaultConfig []
      .Undef (some (.stateMigration "fil/2/storagepower" 4 (.other "power migration failed")))
      (by decide)).2⟩

/-! ## C7: missing system actors -/

/-- C7: when the concurrent pass has completed and the input tree has no actor at the
verified-registry address, or the output tree has then no actor at the burnt-funds address, the
run returns an error and the undefined root; and with no verified-registry actor in the input
tree no run returns a root, however the pass ends. -/
theorem missing_system_actor (store : Store) (ms : Migrators) (actorsIn : Tree)
    (cfg : Config) (sched : List Nat) :
    (∀ passOut, passOutputTree store ms (.tree actorsIn) cfg sched = some passOut →
      lookupEntry builtin0.VerifiedRegistryActorAddr actorsIn.entries = none ∨
        lookupEntry builtin.BurntFundsActorAddr passOut.entries = none →
      ∃ e, (MigrateStateTree store ms (.tree actorsIn) cfg sched).outcome =
        .returned .Undef (some e)) ∧
    (lookupEntry builtin0.VerifiedRegistryActorAddr actorsIn.entries = none →
      (MigrateStateTree store ms (.tree actorsIn) cfg sched).outcome.NoRoot) := by
  have key : ∀ out err, (MigrateStateTree store ms (.tree actorsIn) cfg sched).outcome =
      .returned (.tree out) err →
      ∃ s1 vrIn, runPass store ms (.tree actorsIn) cfg sched = .ready actorsIn s1 ∧
        lookupEntry builtin0.VerifiedRegistryActorAddr actorsIn.entries = some vrIn ∧
        lookupEntry builtin.BurntFundsActorAddr s1.actorsOut.entries ≠ none := by
    intro out err h
    obtain ⟨-, t, s1, vrIn, headOut, transfer, bf, hr, hpass, hvr, -, -, hbf, -, -, -⟩ :=
      MigrateStateTree_root h
    cases hr
    refine ⟨s1, vrIn, hpass, hvr, ?_⟩
    simp only [deferredState, Tree.lookup_insert] at hbf
    rw [if_neg (by decide)] at hbf
    rw [hbf]
    simp
  have hcons := MigrateStateTree_consistent store ms (.tree actorsIn) cfg sched
  constructor
  · intro passOut hpo hmiss
    unfold passOutputTree at hpo
    cases hp : runPass store ms (.tree actorsIn) cfg sched with
    | stopped r => rw [hp] at hpo; cases hpo
    | ready t s =>
      rw [hp] at hpo
      simp only [Option.some.injEq] at hpo
      subst hpo
      have ht : t = actorsIn := by
        have := (runPass_ready hp).1
        simp only [StateRoot.tree.injEq] at this
        exact this.symm
      subst ht
      cases ho : (MigrateStateTree store ms (.tree t) cfg sched).outcome with
      | returned root err =>
        rw [ho] at hcons
        cases root with
        | Undef =>
          rcases hcons with ⟨-, h2⟩ | ⟨h1, -⟩
          · exact absurd rfl h2
          · obtain ⟨e, he⟩ := Option.ne_none_iff_exists'.mp h1
            exact ⟨e, by rw [he]⟩
        | tree out =>
          obtain ⟨s1, vrIn, hpass, hvr, hbf⟩ := key out err ho
          rw [hp] at hpass
          simp only [Progress.ready.injEq, true_and] at hpass
          subst hpass
          rcases hmiss with h | h
          · rw [h] at hvr; cases hvr
          · exact absurd h hbf
      | panicked =>
        exfalso
        unfold MigrateStateTree runDeferred at ho
        rw [hp] at ho
        simp only [] at ho
        cases hd : migrateVerifreg store ms t s with
        | stopped run =>
          rw [hd] at ho
          obtain ⟨e, he⟩ := migrateVerifreg_stopped hd
          simp only [] at ho
          rw [ho] at he
          cases he
        | ready t2 s2 =>
          rw [hd] at ho
          simp only [] at ho
          rcases reconcileBurntFunds_cases store s2 with ⟨e, he⟩ | ⟨bf, -, -, hrun⟩
          · rw [ho] at he; cases he
          · rw [hrun] at ho; cases ho
      | blocked =>
        exfalso
        unfold MigrateStateTree runDeferred at ho
        rw [hp] at ho
        simp only [] at ho
        cases hd : migrateVerifreg store ms t s with
        | stopped run =>
          rw [hd] at ho
          obtain ⟨e, he⟩ := migrateVerifreg_stopped hd
          simp only [] at ho
          rw [ho] at he
          cases he
        | ready t2 s2 =>
          rw [hd] at ho
          simp only [] at ho
          rcases reconcileBurntFunds_cases store s2 with ⟨e, he⟩ | ⟨bf, -, -, hrun⟩
          · rw [ho] at he; cases he
          · rw [hrun] at ho; cases ho
  · intro hmiss
    cases ho : (MigrateStateTree store ms (.tree actorsIn) cfg sched).outcome with
    | returned root err =>
      rw [ho] at hcons
      cases root with
      | Undef =>
        rcases hcons with ⟨-, h2⟩ | h1
        · exact absurd rfl h2
        · exact h1
      | tree out =>
        obtain ⟨s1, vrIn, -, hvr, -⟩ := key out err ho
        rw [hmiss] at hvr
        cases hvr
    | panicked => trivial
    | blocked => trivial

/-- C7, witness: a tree without the verified registry and a tree without the burnt-funds
account both end in an error with the undefined root. -/
theorem missing_system_actor_witness :
    (∃ e, (MigrateStateTree Store.reliable keepMigrators (.tree noVerifregTree) DefaultConfig
        []).outcome = .returned .Undef (some e)) ∧
    (∃ e, (MigrateStateTree Store.reliable keepMigrators (.tree noBurntFundsTree) DefaultConfig
        []).outcome = .returned .Undef (some e)) ∧
    (MigrateStateTree Store.reliable keepMigrators (.tree noVerifregTree) DefaultConfig
        []).outcome.NoRoot :=
  ⟨(missing_system_actor Store.reliable keepMigrators noVerifregTree DefaultConfig []).1
      ⟨[(0, ⟨builtin.SystemActorCodeID, .block 1, 0, 10⟩),
        (99, ⟨builtin.AccountActorCodeID, .block 4, 7, 40⟩)], by decide⟩
      (by decide) (Or.inl (by decide)),
    (missing_system_actor Store.reliable keepMigrators noBurntFundsTree DefaultConfig []).1
      ⟨[(0, ⟨builtin.SystemActorCodeID, .block 1, 0, 10⟩)], by decide⟩
      (by decide) (Or.inr (by decide)),
    (missing_system_actor Store.reliable keepMigrators noVerifregTree DefaultConfig []).2
      (by decide)⟩

/-! ## C8: an actor without a table entry -/

/-- Every output write of a pass is at the address of a task whose code has a table entry. -/
theorem pass_trace_setActor (store : Store) (table : Cid → Option ActorMigration) :
    ∀ (order : List (Address × Actor)) (s : PassState),
      ∀ ev ∈ (concurrentPass store table order s).trace,
        ev ∈ s.trace ∨
          ∀ k actor err, ev = .setActor k actor err →
            ∃ v, (k, v) ∈ order ∧ table v.Code ≠ none := by
  intro order
  induction order with
  | nil =>
    intro s ev hev
    simp only [concurrentPass, PassResult.trace] at hev
    exact Or.inl hev
  | cons hd tl ih =>
    intro s ev hev
    obtain ⟨addr, a⟩ := hd
    have lift : ∀ s1 : PassState,
        (∀ e ∈ s1.trace, e ∈ s.trace ∨
          ∀ k actor err, e = .setActor k actor err → k = addr ∧ table a.Code ≠ none) →
        ev ∈ (concurrentPass store table tl s1).trace →
        ev ∈ s.trace ∨
          ∀ k actor err, ev = .setActor k actor err →
            ∃ v, (k, v) ∈ (addr, a) :: tl ∧ table v.Code ≠ none := by
      intro s1 hs1 hev1
      rcases ih s1 ev hev1 with h | h
      · rcases hs1 ev h with h' | h'
        · exact Or.inl h'
        · right
          intro k actor err heq
          obtain ⟨hk, ht⟩ := h' k actor err heq
          exact ⟨a, hk ▸ List.mem_cons_self _ _, ht⟩
      · right
        intro k actor err heq
        obtain ⟨v, hv, ht⟩ := h k actor err heq
        exact ⟨v, List.mem_cons_of_mem _ hv, ht⟩
    by_cases hvr : a.Code = builtin0.VerifiedRegistryActorCodeID
    · rw [concurrentPass_skip store table addr a tl s hvr] at hev
      apply lift _ _ hev
      intro e he
      simp only [List.mem_append, List.mem_singleton] at he
      rcases he with he | he
      · exact Or.inl he
      · right
        intro k actor err heq
        rw [he] at heq
        cases heq
    · cases htab : table a.Code with
      | none =>
        rw [concurrentPass_crash store table addr a tl s hvr htab] at hev
        simp only [PassResult.trace, List.mem_append, List.mem_singleton] at hev
        rcases hev with he | he
        · exact Or.inl he
        · right
          intro k actor err heq
          rw [he] at heq
          cases heq
      | some m =>
        have hne : table a.Code ≠ none := by rw [htab]; simp
        cases hres : m.StateMigration a.Head a.Balance with
        | error err =>
          rw [concurrentPass_migrator_error store table addr a tl s m err hvr htab hres] at hev
          simp only [PassResult.trace, List.mem_append, List.mem_cons, List.mem_singleton,
            List.not_mem_nil, or_false] at hev
          rcases hev with he | he | he | he
          · exact Or.inl he
          all_goals
            right
            intro k actor err' heq
            rw [he] at heq
            cases heq
        | ok r =>
          obtain ⟨headOut, transfer⟩ := r
          cases hf : store.fault (.setActor addr
              ⟨m.OutCodeCID, headOut, a.CallSeqNum, a.Balance + transfer⟩) with
          | some err =>
            rw [concurrentPass_write_error store table addr a tl s m headOut transfer err hvr
              htab hres hf] at hev
            simp only [PassResult.trace, List.mem_append, List.mem_cons, List.mem_singleton,
              List.not_mem_nil, or_false] at hev
            rcases hev with he | he | he | he | he
            · exact Or.inl he
            · right
              intro k actor err' heq
              rw [he] at heq
              cases heq
            · right
              intro k actor err' heq
              rw [he] at heq
              cases heq
              exact ⟨a, List.mem_cons_self _ _, hne⟩
            · right
              intro k actor err' heq
              rw [he] at heq
              cases heq
            · right
              intro k actor err' heq
              rw [he] at heq
              cases heq
          | none =>
            rw [concurrentPass_write store table addr a tl s m headOut transfer hvr htab hres
              hf] at hev
            apply lift _ _ hev
            intro e he
            simp only [List.mem_append] at he
            rcases he with he | he
            · exact Or.inl he
            · right
              intro k actor err heq
              subst heq
              unfold writeEvents at he
              split_ifs at he <;>
                simp only [List.cons_append, List.nil_append, List.mem_cons, List.mem_singleton,
                  List.not_mem_nil, or_false, Event.setActor.injEq, false_or,
                  reduceCtorEq] at he <;>
                exact ⟨he.1, hne⟩

/-- How a run that stops in the concurrent pass ends and what its trace is. -/
theorem runPass_stopped_cases {store : Store} {ms : Migrators} {t : Tree} {cfg : Config}
    {sched : List Nat} {run : Run}
    (h : runPass store ms (.tree t) cfg sched = .stopped run) :
    (run.trace = [] ∧
      ((∃ e, run.outcome = .returned .Undef (some e)) ∨
        (run.outcome = .blocked ∧ cfg.MaxWorkers ≤ 0))) ∨
    ((0 < cfg.MaxWorkers ∨ t.entries = []) ∧
      run.trace = (concurrentPass store (migrations ms (some t) none)
        (completionOrder cfg.MaxWorkers.toNat sched t.entries) ⟨Tree.empty, 0, []⟩).trace ∧
      (run.outcome = .panicked ∨ ∃ e, run.outcome = .returned .Undef (some e))) := by
  unfold runPass at h
  unfold states0.LoadTree adt.MakeEmptyMapRoot states.LoadTree Tree.ForEach at h
  cases h1 : store.fault (.loadTree .input) with
  | some e => simp only [h1] at h; cases h; exact Or.inl ⟨rfl, Or.inl ⟨_, rfl⟩⟩
  | none =>
    cases h2 : store.fault .emptyMapRoot with
    | some e => simp only [h1, h2] at h; cases h; exact Or.inl ⟨rfl, Or.inl ⟨_, rfl⟩⟩
    | none =>
      cases h3 : store.fault (.loadTree .output) with
      | some e => simp only [h1, h2, h3] at h; cases h; exact Or.inl ⟨rfl, Or.inl ⟨_, rfl⟩⟩
      | none =>
        cases h4 : store.fault .forEach with
        | some e =>
          simp only [h1, h2, h3, h4] at h; cases h; exact Or.inl ⟨rfl, Or.inl ⟨_, rfl⟩⟩
        | none =>
          simp only [h1, h2, h3, h4] at h
          split_ifs at h with hb
          · cases h
            exact Or.inl ⟨rfl, Or.inr ⟨rfl, hb.1⟩⟩
          · have hw : 0 < cfg.MaxWorkers ∨ t.entries = [] := by
              by_cases hw : 0 < cfg.MaxWorkers
              · exact Or.inl hw
              · right
                by_contra hne
                exact hb ⟨not_lt.mp hw, hne⟩
            right
            refine ⟨hw, ?_⟩
            cases hp : concurrentPass store (migrations ms (some t) none)
                (completionOrder cfg.MaxWorkers.toNat sched t.entries) ⟨Tree.empty, 0, []⟩ with
            | failed err trace =>
              rw [hp] at h; cases h
              exact ⟨rfl, Or.inr ⟨_, rfl⟩⟩
            | panicked trace =>
              rw [hp] at h; cases h
              exact ⟨rfl, Or.inl rfl⟩
            | done s0 => rw [hp] at h; cases h

/-- C8: when the input tree holds an actor whose code has no entry in the migrations table, no
run returns a root; with a positive `MaxWorkers` the run ends in a crash (the nil migrator of
the zero-value entry) or returns an error with the undefined root; and no run ever writes the
address of that actor to the output tree. -/
theorem missing_table_entry (store : Store) (ms : Migrators) (actorsIn : Tree) (cfg : Config)
    (sched : List Nat) (addr : Address) (a : Actor) (hmem : (addr, a) ∈ actorsIn.entries)
    (htab : migrations ms (some actorsIn) none a.Code = none) :
    (MigrateStateTree store ms (.tree actorsIn) cfg sched).outcome.NoRoot ∧
    (0 < cfg.MaxWorkers →
      (MigrateStateTree store ms (.tree actorsIn) cfg sched).outcome = .panicked ∨
        ∃ e, (MigrateStateTree store ms (.tree actorsIn) cfg sched).outcome =
          .returned .Undef (some e)) ∧
    (∀ ev ∈ (MigrateStateTree store ms (.tree actorsIn) cfg sched).trace,
      ∀ actor err, ev ≠ .setActor addr actor err) := by
  have hcode : a.Code ≠ builtin0.VerifiedRegistryActorCodeID := by
    intro hc
    rw [hc, migrations_verifreg] at htab
    cases htab
  cases hp : runPass store ms (.tree actorsIn) cfg sched with
  | ready t s =>
    exfalso
    obtain ⟨hr, -, hw, hdone⟩ := runPass_ready hp
    simp only [StateRoot.tree.injEq] at hr
    subst hr
    have hperm := completionOrder_perm_of_run cfg sched actorsIn.entries hw
    have hnd := (hperm.map Prod.fst).nodup_iff.mpr actorsIn.nodup
    obtain ⟨m, -, -, hm, -, -⟩ :=
      pass_done_codes store _ _ _ s hdone hnd addr a (hperm.mem_iff.mpr hmem) hcode
    rw [htab] at hm
    cases hm
  | stopped run =>
    have hrun : MigrateStateTree store ms (.tree actorsIn) cfg sched = run := by
      unfold MigrateStateTree runDeferred
      rw [hp]
    rw [hrun]
    refine ⟨runPass_stopped hp, ?_, ?_⟩
    · intro hw
      rcases runPass_stopped_cases hp with ⟨-, h | ⟨-, h⟩⟩ | ⟨-, -, h⟩
      · exact Or.inr h
      · omega
      · exact h
    · intro ev hev actor err heq
      rcases runPass_stopped_cases hp with ⟨h, -⟩ | ⟨hw, h, -⟩
      · rw [h] at hev
        cases hev
      · rw [h] at hev
        rcases pass_trace_setActor store _ _ _ ev hev with h' | h'
        · cases h'
        · obtain ⟨v, hv, ht⟩ := h' addr actor err heq
          have hperm := completionOrder_perm_of_run cfg sched actorsIn.entries hw
          have hv' := hperm.mem_iff.mp hv
          have e1 := lookupEntry_of_mem actorsIn.nodup hv'
          have e2 := lookupEntry_of_mem actorsIn.nodup hmem
          rw [e1] at e2
          simp only [Option.some.injEq] at e2
          subst e2
          exact ht htab

/-- C8, witness: on a tree with an actor of a foreign code the run crashes or fails, and
returns no root. -/
theorem missing_table_entry_witness :
    (MigrateStateTree Store.reliable keepMigrators (.tree foreignCodeTree) DefaultConfig
        [3, 1]).outcome.NoRoot ∧
      ((MigrateStateTree Store.reliable keepMigrators (.tree foreignCodeTree) DefaultConfig
          [3, 1]).outcome = .panicked ∨
        ∃ e, (MigrateStateTree Store.reliable keepMigrators (.tree foreignCodeTree)
          DefaultConfig [3, 1]).outcome = .returned .Undef (some e)) :=
  ⟨(missing_table_entry Store.reliable keepMigrators foreignCodeTree DefaultConfig [3, 1] 5
      ⟨.block 77, .block 6, 0, 1⟩ (by decide) rfl).1,
    (missing_table_entry Store.reliable keepMigrators foreignCodeTree DefaultConfig [3, 1] 5
      ⟨.block 77, .block 6, 0, 1⟩ (by decide) rfl).2.1 (by decide)⟩

/-! ## The pass under another completion order -/

theorem MigrateStateTree_eq_finishRun (store : Store) (ms : Migrators) (stateRootIn : StateRoot)
    (cfg : Config) (sched : List Nat) :
    MigrateStateTree store ms stateRootIn cfg sched =
      match runPass store ms stateRootIn cfg sched with
      | .stopped run => run
      | .ready actorsIn s => finishRun store ms actorsIn s := by
  unfold MigrateStateTree runDeferred finishRun
  cases runPass store ms stateRootIn cfg sched with
  | stopped run => rfl
  | ready actorsIn s => rfl

/-- The outcome of the deferred step and the reconciliation depends on the output tree and the
ledger of the pass only, not on its trace. -/
theorem finishRun_outcome (store : Store) (ms : Migrators) (actorsIn : Tree) (out : Tree)
    (ledger : TokenAmount) (tr1 tr2 : List Event) :
    (finishRun store ms actorsIn ⟨out, ledger, tr1⟩).outcome =
      (finishRun store ms actorsIn ⟨out, ledger, tr2⟩).outcome := by
  unfold finishRun migrateVerifreg Tree.GetActor Tree.SetActor
  cases h1 : store.fault (.getActor .input builtin0.VerifiedRegistryActorAddr) with
  | some e => rfl
  | none =>
    cases h2 : lookupEntry builtin0.VerifiedRegistryActorAddr actorsIn.entries with
    | none => rfl
    | some vrIn =>
      cases h3 : ms.verifregMigrator (some out) vrIn.Head vrIn.Balance with
      | error e => simp [h3]
      | ok r =>
        obtain ⟨headOut, transfer⟩ := r
        cases h4 : store.fault (.setActor builtin.VerifiedRegistryActorAddr
            ⟨builtin.VerifiedRegistryActorCodeID, headOut, vrIn.CallSeqNum,
              vrIn.Balance + transfer⟩) with
        | some e => simp [h3, h4]
        | none =>
          simp only [h3, h4]
          unfold reconcileBurntFunds Tree.GetActor Tree.SetActor Tree.Flush
          cases h5 : store.fault (.getActor .output builtin.BurntFundsActorAddr) with
          | some e => rfl
          | none =>
            simp only []
            cases h6 : lookupEntry builtin.BurntFundsActorAddr
                (out.insert builtin.VerifiedRegistryActorAddr
                  ⟨builtin.VerifiedRegistryActorCodeID, headOut, vrIn.CallSeqNum,
                    vrIn.Balance + transfer⟩).entries with
            | none => rfl
            | some bf =>
              simp only []
              split_ifs with hneg
              · rfl
              · cases h7 : store.fault (.setActor builtin.BurntFundsActorAddr
                    ⟨bf.Code, bf.Head, bf.CallSeqNum, bf.Balance - ledger⟩) with
                | some e => rfl
                | none => rfl

/-- The pass over any completion order has the output of the pass in `ForEach` order. -/
theorem concurrentPass_output_perm (store : Store) (table : Cid → Option ActorMigration)
    (t : Tree) (order : List (Address × Actor)) (s : PassState) (h : order.Perm t.entries) :
    (concurrentPass store table order s).output =
      (concurrentPass store table t.entries s).output := by
  rw [concurrentPass_output, concurrentPass_output]
  exact passOutput_perm store table h ((h.map Prod.fst).nodup_iff.mpr t.nodup) _

/-! ## C12: the semaphore is released once, before any send -/

/-- Whether the event is a release of the semaphore. -/
def Event.isRelease : Event → Bool
  | .release => true
  | _ => false

/-- Whether the event is a send on the error channel or on the transfer channel. -/
def Event.isSend : Event → Bool
  | .sendErr _ => true
  | .sendTransfer _ => true
  | _ => false

/-- C12: on every path of `migrateOneActor` that does not crash (the deferred actor, a migrator
error, an output-write error, success with or without a transfer) the events of the task are
`pre ++ release :: post` with no release and no send in `pre` and no release in `post`: the
semaphore is released exactly once, and before any send on `errCh` or `transferCh`. -/
theorem release_once_before_send (store : Store) (table : Cid → Option ActorMigration)
    (addr : Address) (actorIn : Actor) (actorsOut : Tree)
    (h : actorIn.Code = builtin0.VerifiedRegistryActorCodeID ∨ table actorIn.Code ≠ none) :
    (migrateOneActor store table addr actorIn actorsOut).2.countP Event.isRelease = 1 ∧
    ∃ pre post, (migrateOneActor store table addr actorIn actorsOut).2 = pre ++ .release :: post ∧
      (∀ ev ∈ pre, ev.isRelease = false ∧ ev.isSend = false) ∧
      (∀ ev ∈ post, ev.isRelease = false) := by
  rcases migrateOneActor_cases store table addr actorIn actorsOut with
    ⟨-, he⟩ | ⟨hvr, hnone, -⟩ | ⟨m, err, -, -, -, he⟩ | ⟨m, headOut, transfer, err, -, -, -, -, he⟩ |
      ⟨m, headOut, transfer, out, -, -, -, -, -, he⟩
  · rw [he]
    exact ⟨rfl, [], [], rfl, by simp, by simp⟩
  · rcases h with h | h
    · exact absurd h hvr
    · exact absurd hnone h
  · rw [he]
    refine ⟨rfl, [.migrateState actorIn.Code addr actorIn.Head actorIn.Balance (.error err)],
      [.sendErr (.stateMigration (builtin.ActorNameByCode m.OutCodeCID) addr err)], rfl, ?_, ?_⟩
    · intro ev hev
      simp only [List.mem_singleton] at hev
      subst hev
      exact ⟨rfl, rfl⟩
    · intro ev hev
      simp only [List.mem_singleton] at hev
      subst hev
      rfl
  · rw [he]
    refine ⟨rfl,
      [.migrateState actorIn.Code addr actorIn.Head actorIn.Balance (.ok (headOut, transfer)),
        .setActor addr
          ⟨m.OutCodeCID, headOut, actorIn.CallSeqNum, actorIn.Balance + transfer⟩ (some err)],
      [.sendErr err], rfl, ?_, ?_⟩
    · intro ev hev
      simp only [List.mem_cons, List.mem_singleton, List.not_mem_nil, or_false] at hev
      rcases hev with rfl | rfl <;> exact ⟨rfl, rfl⟩
    · intro ev hev
      simp only [List.mem_singleton] at hev
      subst hev
      rfl
  · rw [he]
    unfold writeEvents
    refine ⟨?_,
      [.migrateState actorIn.Code addr actorIn.Head actorIn.Balance (.ok (headOut, transfer)),
        .setActor addr
          ⟨m.OutCodeCID, headOut, actorIn.CallSeqNum, actorIn.Balance + transfer⟩ none],
      (if transfer > 0 then [.sendTransfer transfer] else []), rfl, ?_, ?_⟩
    · split_ifs <;> rfl
    · intro ev hev
      simp only [List.mem_cons, List.mem_singleton, List.not_mem_nil, or_false] at hev
      rcases hev with rfl | rfl <;> exact ⟨rfl, rfl⟩
    · intro ev hev
      split_ifs at hev
      · simp only [List.mem_singleton] at hev
        subst hev
        rfl
      · cases hev

/-- C12, witness: the task of the power actor of `exampleTree`, which sends a transfer of 5,
releases the semaphore exactly once. -/
theorem release_once_before_send_witness :
    (migrateOneActor Store.reliable (migrations exampleMigrators (some exampleTree) none) 4
        ⟨builtin0.StoragePowerActorCodeID, .block 2, 3, 20⟩
        Tree.empty).2.countP Event.isRelease = 1 :=
  (release_once_before_send Store.reliable (migrations exampleMigrators (some exampleTree) none) 4
    ⟨builtin0.StoragePowerActorCodeID, .block 2, 3, 20⟩ Tree.empty
    (Or.inr (by rw [show (⟨builtin0.StoragePowerActorCodeID, .block 2, 3, 20⟩ : Actor).Code =
      builtin0.StoragePowerActorCodeID from rfl]; exact fun h => nomatch h))).1

/-! ## The end-to-end scenario -/

/-- The tree of the scenario: a system actor, a power actor and the verified registry, and no
other actor. -/
def scenarioTree : Tree :=
  ⟨[(0, ⟨builtin0.SystemActorCodeID, .block 1, 0, 10⟩),
    (4, ⟨builtin0.StoragePowerActorCodeID, .block 2, 3, 20⟩),
    (6, ⟨builtin0.VerifiedRegistryActorCodeID, .block 3, 0, 30⟩)], by decide⟩

/-- The tree of a system actor, a power actor, the verified registry and a burnt-funds
account, at their singleton addresses 0, 4, 6 and 99. -/
def scenarioTreeWithBurnt (sys pow vr bf : Actor) : Tree :=
  ⟨[(0, sys), (4, pow), (6, vr), (99, bf)], by simp⟩

/-- The tree the scenario ends with. -/
def scenarioTreeOut (sys pow vr bf : Actor) (hs hp hv hb : Cid) : Tree :=
  ⟨[(0, ⟨builtin.SystemActorCodeID, hs, sys.CallSeqNum, sys.Balance⟩),
    (4, ⟨builtin.StoragePowerActorCodeID, hp, pow.CallSeqNum, pow.Balance + 5⟩),
    (6, ⟨builtin.VerifiedRegistryActorCodeID, hv, vr.CallSeqNum, vr.Balance⟩),
    (99, ⟨builtin.AccountActorCodeID, hb, bf.CallSeqNum, bf.Balance - 5⟩)], by simp⟩

theorem migrations_system (ms : Migrators) (pmActorsIn vmActorsOut : Option Tree) :
    migrations ms pmActorsIn vmActorsOut builtin0.SystemActorCodeID =
      some ⟨builtin.SystemActorCodeID, ms.systemMigrator⟩ := rfl

theorem migrations_power (ms : Migrators) (pmActorsIn vmActorsOut : Option Tree) :
    migrations ms pmActorsIn vmActorsOut builtin0.StoragePowerActorCodeID =
      some ⟨builtin.StoragePowerActorCodeID, ms.powerMigrator pmActorsIn⟩ := rfl

theorem migrations_account (ms : Migrators) (pmActorsIn vmActorsOut : Option Tree) :
    migrations ms pmActorsIn vmActorsOut builtin0.AccountActorCodeID =
      some ⟨builtin.AccountActorCodeID, ms.accountMigrator⟩ := rfl

/-- A pass whose output is known completes in a state with that output. -/
theorem concurrentPass_done_of_output {store : Store} {table : Cid → Option ActorMigration}
    {order : List (Address × Actor)} {s : PassState} {out : Tree} {ledger : TokenAmount}
    (h : (concurrentPass store table order s).output = some (out, ledger)) :
    ∃ trace, concurrentPass store table order s = .done ⟨out, ledger, trace⟩ := by
  cases hp : concurrentPass store table order s with
  | done s' =>
    rw [hp] at h
    simp only [PassResult.output, Option.some.injEq, Prod.mk.injEq] at h
    obtain ⟨o, l, tr⟩ := s'
    simp only at h
    obtain ⟨rfl, rfl⟩ := h
    exact ⟨tr, rfl⟩
  | failed e tr => rw [hp] at h; cases h
  | panicked tr => rw [hp] at h; cases h

/-- The scenario in the runs in which every report is received: on the tree of a system actor
whose migrator reports no transfer, a power actor whose migrator reports a transfer of 5, a
verified-registry actor whose migrator reports no transfer, and a burnt-funds account of
balance at least 5 whose migrator reports no transfer, with a store that does not fail and a
positive `MaxWorkers`, the run returns a tree in which the burnt-funds balance is lower by
exactly 5, the power actor's balance is higher by 5, and all four addresses appear under their
mapped code identifiers. -/
theorem end_to_end_delivered (store : Store) (ms : Migrators) (cfg : Config) (sched : List Nat)
    (sys pow vr bf : Actor) (hs hp hv hb : Cid)
    (hstore : ∀ op, store.fault op = none) (hw : 0 < cfg.MaxWorkers)
    (hsys : sys.Code = builtin0.SystemActorCodeID)
    (hpow : pow.Code = builtin0.StoragePowerActorCodeID)
    (hvr : vr.Code = builtin0.VerifiedRegistryActorCodeID)
    (hbf : bf.Code = builtin0.AccountActorCodeID)
    (hms : ms.systemMigrator sys.Head sys.Balance = .ok (hs, 0))
    (hmp : ∀ t, ms.powerMigrator (some t) pow.Head pow.Balance = .ok (hp, 5))
    (hmv : ∀ t, ms.verifregMigrator (some t) vr.Head vr.Balance = .ok (hv, 0))
    (hmb : ms.accountMigrator bf.Head bf.Balance = .ok (hb, 0))
    (hbal : 5 ≤ bf.Balance) :
    (MigrateStateTree store ms (.tree (scenarioTreeWithBurnt sys pow vr bf)) cfg sched).outcome =
      .returned (.tree (scenarioTreeOut sys pow vr bf hs hp hv hb)) none := by
  have hperm := completionOrder_perm cfg.MaxWorkers.toNat (by omega) sched
    (scenarioTreeWithBurnt sys pow vr bf).entries
  -- the output of the pass, computed in `ForEach` order
  have hout : (concurrentPass store
        (migrations ms (some (scenarioTreeWithBurnt sys pow vr bf)) none)
        (completionOrder cfg.MaxWorkers.toNat sched (scenarioTreeWithBurnt sys pow vr bf).entries)
        ⟨Tree.empty, 0, []⟩).output =
      some (⟨[(0, ⟨builtin.SystemActorCodeID, hs, sys.CallSeqNum, sys.Balance⟩),
          (4, ⟨builtin.StoragePowerActorCodeID, hp, pow.CallSeqNum, pow.Balance + 5⟩),
          (99, ⟨builtin.AccountActorCodeID, hb, bf.CallSeqNum, bf.Balance⟩)], by simp⟩, 5) := by
    rw [concurrentPass_output_perm store _ _ _ _ hperm, concurrentPass_output]
    have c1 : sys.Code ≠ builtin0.VerifiedRegistryActorCodeID := by rw [hsys]; decide
    have c2 : pow.Code ≠ builtin0.VerifiedRegistryActorCodeID := by rw [hpow]; decide
    have c4 : bf.Code ≠ builtin0.VerifiedRegistryActorCodeID := by rw [hbf]; decide
    have e1 : taskEffect store (migrations ms (some (scenarioTreeWithBurnt sys pow vr bf)) none)
        (0, sys) = some (some ⟨builtin.SystemActorCodeID, hs, sys.CallSeqNum, sys.Balance + 0⟩,
          0) := by
      simp only [taskEffect, if_neg c1]
      rw [hsys, migrations_system]
      simp [hms, hstore]
    have e2 : taskEffect store (migrations ms (some (scenarioTreeWithBurnt sys pow vr bf)) none)
        (4, pow) = some (some ⟨builtin.StoragePowerActorCodeID, hp, pow.CallSeqNum,
          pow.Balance + 5⟩, 5) := by
      simp only [taskEffect, if_neg c2]
      rw [hpow, migrations_power]
      simp [hmp, hstore]
    have e3 : taskEffect store (migrations ms (some (scenarioTreeWithBurnt sys pow vr bf)) none)
        (6, vr) = some (none, 0) := by
      simp [taskEffect, hvr]
    have e4 : taskEffect store (migrations ms (some (scenarioTreeWithBurnt sys pow vr bf)) none)
        (99, bf) = some (some ⟨builtin.AccountActorCodeID, hb, bf.CallSeqNum, bf.Balance + 0⟩,
          0) := by
      simp only [taskEffect, if_neg c4]
      rw [hbf, migrations_account]
      simp [hmb, hstore]
    have hentries : (scenarioTreeWithBurnt sys pow vr bf).entries =
        [(0, sys), (4, pow), (6, vr), (99, bf)] := rfl
    rw [hentries]
    simp only [passOutput, e1, e2, e3, e4, applyEffect]
    simp only [Option.some.injEq, Prod.mk.injEq]
    refine ⟨Tree.ext_entries ?_, by norm_num⟩
    simp [Tree.insert, Tree.empty, insertEntry]
  obtain ⟨trace, hdone⟩ := concurrentPass_done_of_output hout
  rw [MigrateStateTree_eq_finishRun,
    runPass_loaded store ms _ cfg sched (hstore _) (hstore _) (hstore _) (hstore _) (Or.inl hw),
    hdone]
  simp only []
  rw [finishRun_outcome store ms _ _ _ trace []]
  have hneg : ¬ (bf.Balance - 5 < 0) := by linarith
  simp [finishRun, migrateVerifreg, reconcileBurntFunds, Tree.GetActor, Tree.SetActor,
    Tree.Flush, hstore, scenarioTreeWithBurnt, lookupEntry, builtin0.VerifiedRegistryActorAddr,
    builtin.VerifiedRegistryActorAddr, builtin.BurntFundsActorAddr, hmv, Tree.insert,
    insertEntry, hneg, scenarioTreeOut]

/-! ## C20: the available balance of the miners -/

/-- The fields of `miner0.State` that `InputTreeMinerAvailableBalance` reads. -/
structure miner0.State where
  LockedFunds : TokenAmount
  PreCommitDeposits : TokenAmount
  InitialPledgeRequirement : TokenAmount

/-- The variadic sum `big.Sum`. -/
def big.Sum (xs : List TokenAmount) : TokenAmount := xs.foldl (fun acc x => acc + x) 0

/-- A Go `map[address.Address]abi.TokenAmount`. -/
abbrev AvailableMap := Address → Option TokenAmount

/-- The callback of `actorsIn.ForEach` in `InputTreeMinerAvailableBalance`
(`top.go:285-297`), run over the bindings of the tree; `getState head` is
`store.Get(ctx, head, &inState)`. -/
def minerAvailableLoop (getState : Cid → Except Error miner0.State) :
    List (Address × Actor) → AvailableMap → AvailableMap × Option Error
  | [], available => (available, none)
  | (addr, a) :: rest, available =>
    if a.Code ≠ builtin0.StorageMinerActorCodeID then
      minerAvailableLoop getState rest available
    else
      match getState a.Head with
      | .error err => (available, some err)
      | .ok inState =>
        let minerLiabilities :=
          big.Sum [inState.LockedFunds, inState.PreCommitDeposits, inState.InitialPledgeRequirement]
        let availableBalance := a.Balance - minerLiabilities
        minerAvailableLoop getState rest
          (fun k => if k = addr then some availableBalance else available k)

/-- `InputTreeMinerAvailableBalance` (`top.go:278-299`), returning `(available, err)`; a nil
map is `none`. -/
def InputTreeMinerAvailableBalance (store : Store)
    (getState : Cid → Except Error miner0.State) (stateRootIn : StateRoot) :
    Option AvailableMap × Option Error :=
  match states0.LoadTree store stateRootIn with
  | .error err => (none, some err)
  | .ok actorsIn =>
    match actorsIn.ForEach store with
    | .error err => (some (fun _ => none), some err)
    | .ok entries =>
      let r := minerAvailableLoop getState entries (fun _ => none)
      (some r.1, r.2)

theorem minerAvailableLoop_ok (getState : Cid → Except Error miner0.State) :
    ∀ (l : List (Address × Actor)) (available m : AvailableMap),
      minerAvailableLoop getState l available = (m, none) → (l.map Prod.fst).Nodup →
      (∀ k, (∀ a, (k, a) ∈ l → a.Code ≠ builtin0.StorageMinerActorCodeID) →
        m k = available k) ∧
      (∀ k a, (k, a) ∈ l → a.Code = builtin0.StorageMinerActorCodeID →
        ∃ st, getState a.Head = .ok st ∧
          m k = some (a.Balance -
            (st.LockedFunds + st.PreCommitDeposits + st.InitialPledgeRequirement))) := by
  intro l
  induction l with
  | nil =>
    intro available m h _
    simp only [minerAvailableLoop, Prod.mk.injEq, and_true] at h
    subst h
    exact ⟨fun _ _ => rfl, fun k a hm => by simp at hm⟩
  | cons hd tl ih =>
    intro available m h hnd
    obtain ⟨addr, a0⟩ := hd
    simp only [List.map_cons, List.nodup_cons] at hnd
    unfold minerAvailableLoop at h
    by_cases hc : a0.Code = builtin0.StorageMinerActorCodeID
    · simp only [hc, ne_eq, not_true_eq_false, if_false] at h
      cases hg : getState a0.Head with
      | error err => rw [hg] at h; simp at h
      | ok st =>
        rw [hg] at h
        simp only [] at h
        obtain ⟨h1, h2⟩ := ih _ m h hnd.2
        constructor
        · intro k hk
          have hne : k ≠ addr := by
            intro e
            exact hk a0 (e ▸ List.mem_cons_self _ _) hc
          rw [h1 k (fun a ha => hk a (List.mem_cons_of_mem _ ha))]
          simp [hne]
        · intro k a hm hca
          rcases List.mem_cons.mp hm with hm | hm
          · cases hm
            refine ⟨st, hg, ?_⟩
            have hnot : ∀ a, (addr, a) ∈ tl → a.Code ≠ builtin0.StorageMinerActorCodeID := by
              intro a ha
              exact absurd (List.mem_map.mpr ⟨(addr, a), ha, rfl⟩) hnd.1
            rw [h1 addr hnot]
            simp [big.Sum]
          · exact h2 k a hm hca
    · simp only [ne_eq, hc, not_false_eq_true, if_true] at h
      obtain ⟨h1, h2⟩ := ih _ m h hnd.2
      constructor
      · intro k hk
        exact h1 k (fun a ha => hk a (List.mem_cons_of_mem _ ha))
      · intro k a hm hca
        rcases List.mem_cons.mp hm with hm | hm
        · cases hm
          exact absurd hca hc
        · exact h2 k a hm hca

theorem minerAvailableLoop_total (getState : Cid → Except Error miner0.State) :
    ∀ (l : List (Address × Actor)) (available : AvailableMap),
      (∀ k a, (k, a) ∈ l → a.Code = builtin0.StorageMinerActorCodeID →
        ∃ st, getState a.Head = .ok st) →
      (minerAvailableLoop getState l available).2 = none := by
  intro l
  induction l with
  | nil => intro available _; rfl
  | cons hd tl ih =>
    intro available hall
    obtain ⟨addr, a0⟩ := hd
    unfold minerAvailableLoop
    by_cases hc : a0.Code = builtin0.StorageMinerActorCodeID
    · obtain ⟨st, hst⟩ := hall addr a0 (List.mem_cons_self _ _) hc
      simp only [hc, ne_eq, not_true_eq_false, if_false, hst]
      exact ih _ (fun k a hm => hall k a (List.mem_cons_of_mem _ hm))
    · simp only [ne_eq, hc, not_false_eq_true, if_true]
      exact ih _ (fun k a hm => hall k a (List.mem_cons_of_mem _ hm))

/-- A tree with two miners, at addresses 1000 and 1001, and the burnt-funds account. -/
def minersTree : Tree :=
  ⟨[(99, ⟨builtin0.AccountActorCodeID, .block 4, 7, 40⟩),
    (1000, ⟨builtin0.StorageMinerActorCodeID, .block 10, 0, 100⟩),
    (1001, ⟨builtin0.StorageMinerActorCodeID, .block 11, 0, 7⟩)], by decide⟩

/-- The miner states behind the heads of `minersTree`. -/
def minersStates (head : Cid) : Except Error miner0.State :=
  if head = .block 10 then .ok ⟨10, 20, 30⟩
  else if head = .block 11 then .ok ⟨5, 5, 5⟩
  else .error (.other "block not found")

/-- C20: whenever `InputTreeMinerAvailableBalance` returns a map without an error, the keys of
the map are exactly the addresses of the actors of the input tree with the storage-miner code,
and the value of each miner is its balance minus the sum of its `LockedFunds`,
`PreCommitDeposits` and `InitialPledgeRequirement`; and it returns without an error whenever
the tree loads and the state of every miner can be read from the store. -/
theorem miner_available_balance (store : Store) (getState : Cid → Except Error miner0.State)
    (actorsIn : Tree) :
    (∀ m, InputTreeMinerAvailableBalance store getState (.tree actorsIn) = (some m, none) →
      (∀ addr, (m addr).isSome ↔
        ∃ a, (addr, a) ∈ actorsIn.entries ∧ a.Code = builtin0.StorageMinerActorCodeID) ∧
      (∀ addr a, (addr, a) ∈ actorsIn.entries → a.Code = builtin0.StorageMinerActorCodeID →
        ∃ st, getState a.Head = .ok st ∧
          m addr = some (a.Balance -
            (st.LockedFunds + st.PreCommitDeposits + st.InitialPledgeRequirement)))) ∧
    (store.fault (.loadTree .input) = none → store.fault .forEach = none →
      (∀ addr a, (addr, a) ∈ actorsIn.entries → a.Code = builtin0.StorageMinerActorCodeID →
        ∃ st, getState a.Head = .ok st) →
      ∃ m, InputTreeMinerAvailableBalance store getState (.tree actorsIn) = (some m, none)) := by
  constructor
  · intro m h
    unfold InputTreeMinerAvailableBalance states0.LoadTree Tree.ForEach at h
    cases h1 : store.fault (.loadTree .input) with
    | some e => simp [h1] at h
    | none =>
      cases h2 : store.fault .forEach with
      | some e => simp [h1, h2] at h
      | none =>
        simp only [h1, h2, Prod.mk.injEq, Option.some.injEq] at h
        obtain ⟨hm, herr⟩ := h
        have hloop : minerAvailableLoop getState actorsIn.entries (fun _ => none) = (m, none) := by
          rw [← hm, ← herr]
        obtain ⟨ha, hb⟩ := minerAvailableLoop_ok getState _ _ m hloop actorsIn.nodup
        refine ⟨fun addr => ?_, hb⟩
        constructor
        · intro hsome
          by_contra hno
          have := ha addr (fun a hmem hc => hno ⟨a, hmem, hc⟩)
          rw [this] at hsome
          simp at hsome
        · rintro ⟨a, hmem, hc⟩
          obtain ⟨st, -, hv⟩ := hb addr a hmem hc
          rw [hv]
          rfl
  · intro h1 h2 hall
    refine ⟨(minerAvailableLoop getState actorsIn.entries (fun _ => none)).1, ?_⟩
    simp only [InputTreeMinerAvailableBalance, states0.LoadTree, Tree.ForEach, h1, h2,
      Prod.mk.injEq, true_and]
    exact minerAvailableLoop_total getState _ _ hall

/-- C20, witness: on `minersTree` the function returns a map without an error, in which the
miner at address 1000, of balance 100 and liabilities 10 + 20 + 30, has 40 available, and the
burnt-funds account has no key. -/
theorem miner_available_balance_witness :
    ∃ m, InputTreeMinerAvailableBalance Store.reliable minersStates (.tree minersTree) =
        (some m, none) ∧ m 1000 = some 40 ∧ (m 99).isSome = false := by
  have hall : ∀ addr a, (addr, a) ∈ minersTree.entries →
      a.Code = builtin0.StorageMinerActorCodeID → ∃ st, minersStates a.Head = .ok st := by
    intro addr a hm hc
    simp only [minersTree, List.mem_cons, List.mem_singleton, Prod.mk.injEq, List.not_mem_nil,
      or_false] at hm
    rcases hm with ⟨-, rfl⟩ | ⟨-, rfl⟩ | ⟨-, rfl⟩
    · exact absurd hc (by decide)
    · exact ⟨⟨10, 20, 30⟩, rfl⟩
    · exact ⟨⟨5, 5, 5⟩, rfl⟩
  obtain ⟨m, hm⟩ := (miner_available_balance Store.reliable minersStates minersTree).2 rfl rfl hall
  obtain ⟨hkeys, hvals⟩ := (miner_available_balance Store.reliable minersStates minersTree).1 m hm
  refine ⟨m, hm, ?_, ?_⟩
  · obtain ⟨st, hst, hv⟩ := hvals 1000 ⟨builtin0.StorageMinerActorCodeID, .block 10, 0, 100⟩
      (by decide) rfl
    have hst' : st = ⟨10, 20, 30⟩ := by
      have : minersStates (.block 10) = .ok ⟨10, 20, 30⟩ := rfl
      rw [this] at hst
      cases hst
      rfl
    rw [hv, hst']
    rfl
  · cases h99 : (m 99).isSome with
    | false => rfl
    | true =>
      obtain ⟨a, hmem, hc⟩ := (hkeys 99).mp h99
      simp only [minersTree, List.mem_cons, List.mem_singleton, Prod.mk.injEq, List.not_mem_nil,
        or_false] at hmem
      rcases hmem with ⟨-, rfl⟩ | ⟨h, -⟩ | ⟨h, -⟩
      · exact absurd hc (by decide)
      · exact absurd h (by decide)
      · exact absurd h (by decide)


/-! ## C21: the transfer ledger -/

/-- The value an event puts on the transfer channel (`transferCh <- transfer`). -/
def Event.sent : Event → TokenAmount
  | .sendTransfer t => t
  | _ => 0

/-- The sum of the values put on the transfer channel in a trace. -/
def sentSum (trace : List Event) : TokenAmount := (trace.map Event.sent).sum

/-- The states of the coordinator in the course of the concurrent pass (`top.go:127-170`), in
order: the state before the first task, and the state after each task whose report does not
end the run (with `transferFromBurnt = big.Add(transferFromBurnt, transfer)` applied when the
report is a transfer). -/
def passStates (store : Store) (table : Cid → Option ActorMigration) :
    List (Address × Actor) → PassState → List PassState
  | [], s => [s]
  | (addr, actorIn) :: rest, s =>
    let task := migrateOneActor store table addr actorIn s.actorsOut
    let trace := s.trace ++ task.2
    match taskReport task.2 with
    | .crash => [s]
    | .err _ => [s]
    | .transfer t => s :: passStates store table rest ⟨task.1, s.transferFromBurnt + t, trace⟩
    | .nothing => s :: passStates store table rest ⟨task.1, s.transferFromBurnt, trace⟩

/-- The states of the coordinator in the course of a run of `MigrateStateTree`, in order, from
the initialisation `transferFromBurnt := big.Zero()` (`top.go:120`) on: the states of the
concurrent pass and, when the run gets that far, the state after the deferred step, in which
the reconciliation reads the ledger (`top.go:205`). -/
def runStates (store : Store) (ms : Migrators) (stateRootIn : StateRoot) (cfg : Config)
    (sched : List Nat) : List PassState :=
  (match states0.LoadTree store stateRootIn with
    | .error _ => []
    | .ok actorsIn =>
      match adt.MakeEmptyMapRoot store with
      | .error _ => []
      | .ok stateRootOut =>
        match states.LoadTree store stateRootOut with
        | .error _ => []
        | .ok actorsOut =>
          match actorsIn.ForEach store with
          | .error _ => [⟨actorsOut, 0, []⟩]
          | .ok entries =>
            if cfg.MaxWorkers ≤ 0 ∧ entries ≠ [] then [⟨actorsOut, 0, []⟩]
            else
              passStates store (migrations ms (some actorsIn) none)
                (completionOrder cfg.MaxWorkers.toNat sched entries) ⟨actorsOut, 0, []⟩) ++
    match runDeferred store ms stateRootIn cfg sched with
    | .ready _ s => [s]
    | .stopped _ => []

/-- The values of `transferFromBurnt` in the course of a run, in order. -/
def ledgerHistory (store : Store) (ms : Migrators) (stateRootIn : StateRoot) (cfg : Config)
    (sched : List Nat) : List TokenAmount :=
  (runStates store ms stateRootIn cfg sched).map PassState.transferFromBurnt

theorem sentSum_append (t1 t2 : List Event) : sentSum (t1 ++ t2) = sentSum t1 + sentSum t2 := by
  simp [sentSum]

/-- What a task puts on the transfer channel: only values above zero, and its report is the
value it sent. -/
theorem task_sent (store : Store) (table : Cid → Option ActorMigration) (addr : Address)
    (actorIn : Actor) (actorsOut : Tree) :
    (∀ t, Event.sendTransfer t ∈ (migrateOneActor store table addr actorIn actorsOut).2 →
      0 < t) ∧
    (∀ t, taskReport (migrateOneActor store table addr actorIn actorsOut).2 = .transfer t →
      0 < t ∧ sentSum (migrateOneActor store table addr actorIn actorsOut).2 = t) ∧
    (taskReport (migrateOneActor store table addr actorIn actorsOut).2 = .nothing →
      sentSum (migrateOneActor store table addr actorIn actorsOut).2 = 0) := by
  rcases migrateOneActor_cases store table addr actorIn actorsOut with
    ⟨_, h⟩ | ⟨_, _, h⟩ | ⟨m, err, _, _, _, h⟩ | ⟨m, headOut, transfer, err, _, _, _, _, h⟩ |
    ⟨m, headOut, transfer, out, _, _, _, _, _, h⟩
  · rw [h]
    simp [taskReport, sentSum, Event.sent]
  · rw [h]
    simp [taskReport, sentSum, Event.sent]
  · rw [h]
    simp [taskReport, sentSum, Event.sent]
  · rw [h]
    simp [taskReport, sentSum, Event.sent]
  · rw [h]
    simp only [taskReport_writeEvents]
    unfold writeEvents
    by_cases hpos : transfer > 0
    · simp only [if_pos hpos]
      refine ⟨?_, ?_, ?_⟩
      · intro t ht
        simp at ht
        rw [ht]; exact hpos
      · intro t ht
        cases ht
        exact ⟨hpos, by simp [sentSum, Event.sent]⟩
      · intro ht
        cases ht
    · simp only [if_neg hpos]
      refine ⟨?_, ?_, ?_⟩
      · intro t ht
        simp at ht
      · intro t ht
        cases ht
      · intro _
        simp [sentSum, Event.sent]


/-- Every state of the pass has a ledger that is at least the ledger the pass started with, and
is the sum of the values sent so far if the ledger the pass started with is. -/
theorem passStates_ledger (store : Store) (table : Cid → Option ActorMigration) :
    ∀ (order : List (Address × Actor)) (s x : PassState), x ∈ passStates store table order s →
      s.transferFromBurnt ≤ x.transferFromBurnt ∧
        (s.transferFromBurnt = sentSum s.trace → x.transferFromBurnt = sentSum x.trace) := by
  intro order
  induction order with
  | nil =>
    intro s x hx
    simp only [passStates, List.mem_singleton] at hx
    rw [hx]
    exact ⟨le_refl _, id⟩
  | cons e rest ih =>
    intro s x hx
    obtain ⟨addr, actorIn⟩ := e
    obtain ⟨_, htr, hno⟩ := task_sent store table addr actorIn s.actorsOut
    simp only [passStates] at hx
    cases hrep : taskReport (migrateOneActor store table addr actorIn s.actorsOut).2 with
    | crash =>
      simp only [hrep, List.mem_singleton] at hx
      rw [hx]
      exact ⟨le_refl _, id⟩
    | err e =>
      simp only [hrep, List.mem_singleton] at hx
      rw [hx]
      exact ⟨le_refl _, id⟩
    | transfer t =>
      simp only [hrep, List.mem_cons] at hx
      rcases hx with hx | hx
      · rw [hx]
        exact ⟨le_refl _, id⟩
      · obtain ⟨hpos, hsum⟩ := htr t hrep
        obtain ⟨hle, hinv⟩ := ih _ x hx
        simp only at hle hinv
        refine ⟨by linarith, fun hs => hinv ?_⟩
        rw [sentSum_append, hsum, hs]
    | nothing =>
      simp only [hrep, List.mem_cons] at hx
      rcases hx with hx | hx
      · rw [hx]
        exact ⟨le_refl _, id⟩
      · have hsum := hno hrep
        obtain ⟨hle, hinv⟩ := ih _ x hx
        simp only at hle hinv
        refine ⟨hle, fun hs => hinv ?_⟩
        rw [sentSum_append, hsum, hs, add_zero]

/-- The ledger never decreases in the course of the pass. -/
theorem passStates_pairwise (store : Store) (table : Cid → Option ActorMigration) :
    ∀ (order : List (Address × Actor)) (s : PassState),
      ((passStates store table order s).map PassState.transferFromBurnt).Pairwise
        (fun a b => a ≤ b) := by
  intro order
  induction order with
  | nil =>
    intro s
    simp [passStates]
  | cons e rest ih =>
    intro s
    obtain ⟨addr, actorIn⟩ := e
    obtain ⟨_, htr, _⟩ := task_sent store table addr actorIn s.actorsOut
    simp only [passStates]
    cases hrep : taskReport (migrateOneActor store table addr actorIn s.actorsOut).2 with
    | crash => simp
    | err e => simp
    | transfer t =>
      simp only [List.map_cons, List.pairwise_cons]
      refine ⟨?_, ih _⟩
      intro y hy
      obtain ⟨x, hx, rfl⟩ := List.mem_map.mp hy
      have hle := (passStates_ledger store table rest _ x hx).1
      simp only at hle
      have hpos := (htr t hrep).1
      linarith
    | nothing =>
      simp only [List.map_cons, List.pairwise_cons]
      refine ⟨?_, ih _⟩
      intro y hy
      obtain ⟨x, hx, rfl⟩ := List.mem_map.mp hy
      exact (passStates_ledger store table rest _ x hx).1

/-- The pass starts in the state it is given. -/
theorem passStates_head (store : Store) (table : Cid → Option ActorMigration)
    (order : List (Address × Actor)) (s : PassState) :
    (passStates store table order s).head? = some s := by
  cases order with
  | nil => rfl
  | cons e rest =>
    obtain ⟨addr, actorIn⟩ := e
    simp only [passStates]
    cases taskReport (migrateOneActor store table addr actorIn s.actorsOut).2 <;> rfl

theorem getLast?_cons_of_some {α : Type} (b a : α) (l : List α) (h : l.getLast? = some a) :
    (b :: l).getLast? = some a := by
  cases l with
  | nil => simp at h
  | cons c tl => rw [List.getLast?_cons_cons]; exact h

/-- The state in which a pass completes is the last of its states. -/
theorem passStates_last (store : Store) (table : Cid → Option ActorMigration) :
    ∀ (order : List (Address × Actor)) (s s' : PassState),
      concurrentPass store table order s = .done s' →
      (passStates store table order s).getLast? = some s' := by
  intro order
  induction order with
  | nil =>
    intro s s' h
    simp only [concurrentPass, PassResult.done.injEq] at h
    rw [h]
    rfl
  | cons e rest ih =>
    intro s s' h
    obtain ⟨addr, actorIn⟩ := e
    simp only [concurrentPass] at h
    simp only [passStates]
    cases hrep : taskReport (migrateOneActor store table addr actorIn s.actorsOut).2 with
    | crash => rw [hrep] at h; cases h
    | err e => rw [hrep] at h; cases h
    | transfer t =>
      rw [hrep] at h
      exact getLast?_cons_of_some _ _ _ (ih _ _ h)
    | nothing =>
      rw [hrep] at h
      exact getLast?_cons_of_some _ _ _ (ih _ _ h)


/-- The shapes of the states of a run: none (a tree could not be loaded), the initial state
alone (the iteration failed or never got a worker), the states of the pass (the run ended in
the pass or in the deferred step), or the states of the pass and the state after the deferred
step, which has the ledger of the state in which the pass completed and no further send. -/
theorem runStates_cases (store : Store) (ms : Migrators) (stateRootIn : StateRoot)
    (cfg : Config) (sched : List Nat) :
    (runStates store ms stateRootIn cfg sched = [] ∧
      ∀ a s, runDeferred store ms stateRootIn cfg sched ≠ .ready a s) ∨
    (runStates store ms stateRootIn cfg sched = [⟨Tree.empty, 0, []⟩] ∧
      ∀ a s, runDeferred store ms stateRootIn cfg sched ≠ .ready a s) ∨
    (∃ actorsIn order,
      (runStates store ms stateRootIn cfg sched =
          passStates store (migrations ms (some actorsIn) none) order ⟨Tree.empty, 0, []⟩ ∧
        ∀ a s, runDeferred store ms stateRootIn cfg sched ≠ .ready a s) ∨
      (∃ s1 s2, concurrentPass store (migrations ms (some actorsIn) none) order
            ⟨Tree.empty, 0, []⟩ = .done s1 ∧
          runDeferred store ms stateRootIn cfg sched = .ready actorsIn s2 ∧
          s2.transferFromBurnt = s1.transferFromBurnt ∧ sentSum s2.trace = sentSum s1.trace ∧
          runStates store ms stateRootIn cfg sched =
            passStates store (migrations ms (some actorsIn) none) order ⟨Tree.empty, 0, []⟩ ++
              [s2])) := by
  unfold runStates runDeferred runPass
  unfold states0.LoadTree adt.MakeEmptyMapRoot states.LoadTree Tree.ForEach
  cases h1 : store.fault (.loadTree .input) with
  | some e => left; simp
  | none =>
    cases stateRootIn with
    | Undef => left; simp
    | tree t =>
      cases h2 : store.fault .emptyMapRoot with
      | some e => left; simp
      | none =>
        cases h3 : store.fault (.loadTree .output) with
        | some e => left; simp
        | none =>
          cases h4 : store.fault .forEach with
          | some e => right; left; simp
          | none =>
            simp only []
            by_cases hb : cfg.MaxWorkers ≤ 0 ∧ t.entries ≠ []
            · right; left; simp [hb]
            · right; right
              refine ⟨t, completionOrder cfg.MaxWorkers.toNat sched t.entries, ?_⟩
              simp only [if_neg hb]
              cases hp : concurrentPass store (migrations ms (some t) none)
                  (completionOrder cfg.MaxWorkers.toNat sched t.entries)
                  ⟨Tree.empty, 0, []⟩ with
              | failed err trace => left; simp
              | panicked trace => left; simp
              | done s1 =>
                simp only []
                cases hd : migrateVerifreg store ms t s1 with
                | stopped run => left; simp
                | ready a s2 =>
                  right
                  obtain ⟨rfl, vrIn, headOut, transfer, _, _, rfl⟩ := migrateVerifreg_ready hd
                  refine ⟨s1, _, rfl, rfl, rfl, ?_, rfl⟩
                  simp [sentSum, Event.sent]


/-- In a pass that completes, no state has a ledger above the ledger of the last state. -/
theorem passStates_le_done (store : Store) (table : Cid → Option ActorMigration)
    (order : List (Address × Actor)) (s s' x : PassState)
    (h : concurrentPass store table order s = .done s')
    (hx : x ∈ passStates store table order s) : x.transferFromBurnt ≤ s'.transferFromBurnt := by
  obtain ⟨ys, hys⟩ := List.getLast?_eq_some_iff.mp (passStates_last store table order s s' h)
  have hpw := passStates_pairwise store table order s
  rw [hys] at hx hpw
  rw [List.map_append, List.pairwise_append] at hpw
  rcases List.mem_append.mp hx with hx | hx
  · exact hpw.2.2 _ (List.mem_map_of_mem _ hx) _ (by simp)
  · simp only [List.mem_singleton] at hx
    rw [hx]

/-- C21: the transfer ledger `transferFromBurnt` is nonnegative at every point of a run and never
decreases.  A task of `migrateOneActor` puts a value on the transfer channel only when it is
strictly greater than zero; the ledger starts at zero; of any two values the ledger takes in
the course of a run the earlier is at most the later; every value it takes is nonnegative and
is the sum of the values sent on the transfer channel so far; and the value the reconciliation
reads is the last of them. -/
theorem transfer_ledger_monotone (store : Store) (ms : Migrators) (stateRootIn : StateRoot)
    (cfg : Config) (sched : List Nat) :
    (∀ (table : Cid → Option ActorMigration) (addr : Address) (actorIn : Actor)
        (actorsOut : Tree) (t : TokenAmount),
      Event.sendTransfer t ∈ (migrateOneActor store table addr actorIn actorsOut).2 → 0 < t) ∧
    (∀ s, (runStates store ms stateRootIn cfg sched).head? = some s →
      s.transferFromBurnt = 0) ∧
    (ledgerHistory store ms stateRootIn cfg sched).Pairwise (fun a b => a ≤ b) ∧
    (∀ x ∈ ledgerHistory store ms stateRootIn cfg sched, 0 ≤ x) ∧
    (∀ s ∈ runStates store ms stateRootIn cfg sched, s.transferFromBurnt = sentSum s.trace) ∧
    (∀ actorsIn s, runDeferred store ms stateRootIn cfg sched = .ready actorsIn s →
      (runStates store ms stateRootIn cfg sched).getLast? = some s ∧
        (ledgerHistory store ms stateRootIn cfg sched).getLast? =
          some s.transferFromBurnt) := by
  refine ⟨fun table addr actorIn actorsOut =>
    (task_sent store table addr actorIn actorsOut).1, ?_⟩
  unfold ledgerHistory
  rcases runStates_cases store ms stateRootIn cfg sched with
    ⟨hrs, hnr⟩ | ⟨hrs, hnr⟩ | ⟨actorsIn, order, ⟨hrs, hnr⟩ | ⟨s1, s2, hp, hd, hl, htr, hrs⟩⟩
  · rw [hrs]
    refine ⟨by simp, by simp, by simp, by simp, fun a s h => absurd h (hnr a s)⟩
  · rw [hrs]
    refine ⟨?_, by simp, by simp, ?_, fun a s h => absurd h (hnr a s)⟩
    · intro s hs
      simp only [List.head?_cons, Option.some.injEq] at hs
      rw [← hs]
    · intro s hs
      simp only [List.mem_singleton] at hs
      rw [hs]
      rfl
  · rw [hrs]
    refine ⟨?_, passStates_pairwise store _ order _, ?_, ?_,
      fun a s h => absurd h (hnr a s)⟩
    · intro s hs
      rw [passStates_head] at hs
      simp only [Option.some.injEq] at hs
      rw [← hs]
    · intro y hy
      obtain ⟨x, hx, rfl⟩ := List.mem_map.mp hy
      exact (passStates_ledger store _ order _ x hx).1
    · intro x hx
      exact (passStates_ledger store _ order _ x hx).2 rfl
  · rw [hrs]
    have hhead := passStates_head store (migrations ms (some actorsIn) none) order
      ⟨Tree.empty, 0, []⟩
    have hs1 : s1 ∈ passStates store (migrations ms (some actorsIn) none) order
        ⟨Tree.empty, 0, []⟩ :=
      List.mem_of_mem_getLast? (passStates_last store _ order _ s1 hp)
    have hinv := passStates_ledger store (migrations ms (some actorsIn) none) order
      ⟨Tree.empty, 0, []⟩
    refine ⟨?_, ?_, ?_, ?_, ?_⟩
    · intro s hs
      rw [List.head?_append, hhead] at hs
      simp only [Option.or_some, Option.some.injEq] at hs
      rw [← hs]
    · rw [List.map_append, List.pairwise_append]
      refine ⟨passStates_pairwise store _ order _, by simp, ?_⟩
      intro a ha b hb
      obtain ⟨x, hx, rfl⟩ := List.mem_map.mp ha
      simp only [List.map_cons, List.map_nil, List.mem_singleton] at hb
      rw [hb, hl]
      exact passStates_le_done store _ order _ s1 x hp hx
    · intro y hy
      obtain ⟨x, hx, rfl⟩ := List.mem_map.mp hy
      rcases List.mem_append.mp hx with hx | hx
      · exact (hinv x hx).1
      · simp only [List.mem_singleton] at hx
        rw [hx, hl]
        exact (hinv s1 hs1).1
    · intro x hx
      rcases List.mem_append.mp hx with hx | hx
      · exact (hinv x hx).2 rfl
      · simp only [List.mem_singleton] at hx
        rw [hx, hl, htr]
        exact (hinv s1 hs1).2 rfl
    · intro a s h
      rw [hd] at h
      simp only [Progress.ready.injEq] at h
      rw [← h.2]
      constructor
      · exact List.getLast?_concat _
      · rw [List.map_append]
        exact List.getLast?_concat _


/-- The state in which the run on `exampleTree` under `exampleMigrators` reaches the
reconciliation. -/
def exampleReconcileState : PassState :=
  match runDeferred Store.reliable exampleMigrators (.tree exampleTree) DefaultConfig [] with
  | .ready _ s => s
  | .stopped _ => ⟨Tree.empty, 0, []⟩

/-- C21, witness: in the run on `exampleTree` under `exampleMigrators` the power task sends its
transfer of 5, which is above zero; the ledger takes the values 0, 0, 5, 5, 5, 5; and the
reconciliation reads the last of them, 5. -/
theorem transfer_ledger_monotone_witness :
    Event.sendTransfer 5 ∈ (migrateOneActor Store.reliable
        (migrations exampleMigrators (some exampleTree) none) 4
        ⟨builtin0.StoragePowerActorCodeID, .block 2, 3, 20⟩ Tree.empty).2 ∧
      (0 : TokenAmount) < 5 ∧
      ledgerHistory Store.reliable exampleMigrators (.tree exampleTree) DefaultConfig [] =
        [0, 0, 5, 5, 5, 5] ∧
      runDeferred Store.reliable exampleMigrators (.tree exampleTree) DefaultConfig [] =
        .ready exampleTree exampleReconcileState ∧
      (ledgerHistory Store.reliable exampleMigrators (.tree exampleTree) DefaultConfig
        []).getLast? = some exampleReconcileState.transferFromBurnt ∧
      exampleReconcileState.transferFromBurnt = 5 :=
  ⟨List.Mem.tail _ (List.Mem.tail _ (List.Mem.tail _ (List.Mem.head _))),
    (transfer_ledger_monotone Store.reliable exampleMigrators (.tree exampleTree) DefaultConfig
      []).1 (migrations exampleMigrators (some exampleTree) none) 4
      ⟨builtin0.StoragePowerActorCodeID, .block 2, 3, 20⟩ Tree.empty 5
      (List.Mem.tail _ (List.Mem.tail _ (List.Mem.tail _ (List.Mem.head _)))),
    by decide, rfl,
    ((transfer_ledger_monotone Store.reliable exampleMigrators (.tree exampleTree) DefaultConfig
      []).2.2.2.2.2 exampleTree exampleReconcileState rfl).2,
    by decide⟩


/-! ## Runs in which reports are missed or the context is cancelled

A task releases the semaphore before it sends on `errCh` or `transferCh` (`top.go:235-236`,
`253-258`), the channels are unbuffered, and the coordinator reads them only with `select`
statements that have a `default` branch (`READLOOP`, `top.go:133-143`, and `READEND`,
`top.go:160-170`, after the barrier).  A task that has released its unit but is not yet parked
in its send when the coordinator runs its last `select` is skipped: its report is never
received, and the run goes on without it.  The two `sem.Acquire` calls return the error of the
context when it is cancelled while they wait (`top.go:146-148`, `156-158`).

`concurrentPass`, `runPass` and `MigrateStateTree` above are the runs in which every report is
received and the context is not cancelled; the definitions of this section are the runs under
any interleaving. -/

/-- The error of a cancelled context (`ctx.Err()`). -/
def ctxErr : Error := .other "context canceled"

/-- What the scheduler and the context decide in a run.  `sched` chooses the order in which the
tasks finish, as in `completionOrder`.  `missed addr` says that the report of the task for
`addr`, if it sends one, is not received: the task is not yet parked in its send when the
coordinator runs its last `select`.  `cancelled = some k` says that the context is done once
`k` tasks have finished (all of them, when they are fewer), so that the next `sem.Acquire` of
the coordinator returns the error of the context. -/
structure Interleaving where
  sched : List Nat
  missed : Address → Bool
  cancelled : Option Nat

/-- The concurrent pass (`top.go:127-170`) over the tasks in completion order, when the reports
of the tasks in `missed` are not received: an error that is received ends the run, a transfer
that is received is added to `transferFromBurnt`, and after a report that is missed the run
goes on as if the task had sent nothing. -/
def Async.concurrentPass (store : Store) (table : Cid → Option ActorMigration)
    (missed : Address → Bool) : List (Address × Actor) → PassState → PassResult
  | [], s => .done s
  | (addr, actorIn) :: rest, s =>
    let task := migrateOneActor store table addr actorIn s.actorsOut
    let trace := s.trace ++ task.2
    match taskReport task.2 with
    | .crash => .panicked trace
    | .err e =>
      if missed addr then
        Async.concurrentPass store table missed rest ⟨task.1, s.transferFromBurnt, trace⟩
      else .failed e trace
    | .transfer t =>
      if missed addr then
        Async.concurrentPass store table missed rest ⟨task.1, s.transferFromBurnt, trace⟩
      else
        Async.concurrentPass store table missed rest ⟨task.1, s.transferFromBurnt + t, trace⟩
    | .nothing =>
      Async.concurrentPass store table missed rest ⟨task.1, s.transferFromBurnt, trace⟩

/-- `MigrateStateTree` up to the end of the concurrent pass (`top.go:100-170`) under an
interleaving.  With `MaxWorkers ≤ 0` the first `sem.Acquire(ctx, 1)` waits until the context is
done.  When the context is cancelled after `k` tasks have finished, these tasks are the pass,
and the `sem.Acquire` that is waiting then fails: the one of the iteration (`top.go:146-148`)
while some task has not been handed off, the one of the barrier (`top.go:156-158`) after. -/
def Async.runPass (store : Store) (ms : Migrators) (stateRootIn : StateRoot) (cfg : Config)
    (il : Interleaving) : Progress :=
  match states0.LoadTree store stateRootIn with
  | .error err => .stopped ⟨.returned .Undef (some err), []⟩
  | .ok actorsIn =>
    match adt.MakeEmptyMapRoot store with
    | .error err => .stopped ⟨.returned .Undef (some err), []⟩
    | .ok stateRootOut =>
      match states.LoadTree store stateRootOut with
      | .error err => .stopped ⟨.returned .Undef (some err), []⟩
      | .ok actorsOut =>
        let table := migrations ms (some actorsIn) none
        match actorsIn.ForEach store with
        | .error err => .stopped ⟨.returned .Undef (some err), []⟩
        | .ok entries =>
          if cfg.MaxWorkers ≤ 0 ∧ entries ≠ [] then
            match il.cancelled with
            | some _ => .stopped ⟨.returned .Undef (some ctxErr), []⟩
            | none => .stopped ⟨.blocked, []⟩
          else
            let order := completionOrder cfg.MaxWorkers.toNat il.sched entries
            match il.cancelled with
            | some k =>
              match Async.concurrentPass store table il.missed (order.take k)
                  ⟨actorsOut, 0, []⟩ with
              | .failed err trace => .stopped ⟨.returned .Undef (some err), trace⟩
              | .panicked trace => .stopped ⟨.panicked, trace⟩
              | .done s =>
                if k + cfg.MaxWorkers.toNat < entries.length then
                  .stopped ⟨.returned .Undef (some ctxErr), s.trace⟩
                else
                  .stopped ⟨.returned .Undef (some (.waitWorkers ctxErr)), s.trace⟩
            | none =>
              match Async.concurrentPass store table il.missed order ⟨actorsOut, 0, []⟩ with
              | .failed err trace => .stopped ⟨.returned .Undef (some err), trace⟩
              | .panicked trace => .stopped ⟨.panicked, trace⟩
              | .done s => .ready actorsIn s

/-- `MigrateStateTree` up to the end of the deferred step (`top.go:100-195`) under an
interleaving; the deferred step runs on the coordinator alone. -/
def Async.runDeferred (store : Store) (ms : Migrators) (stateRootIn : StateRoot) (cfg : Config)
    (il : Interleaving) : Progress :=
  match Async.runPass store ms stateRootIn cfg il with
  | .stopped run => .stopped run
  | .ready actorsIn s => migrateVerifreg store ms actorsIn s

/-- `MigrateStateTree` (`top.go:99-215`) under an interleaving. -/
def Async.MigrateStateTree (store : Store) (ms : Migrators) (stateRootIn : StateRoot)
    (cfg : Config) (il : Interleaving) : Run :=
  match Async.runDeferred store ms stateRootIn cfg il with
  | .stopped run => run
  | .ready _ s => reconcileBurntFunds store s

/-- The value of `transferFromBurnt` when the run reaches the reconciliation (`top.go:205`):
the amount debited from the burnt-funds actor. -/
def Async.debitedFromBurnt (store : Store) (ms : Migrators) (stateRootIn : StateRoot)
    (cfg : Config) (il : Interleaving) : TokenAmount :=
  match Async.runDeferred store ms stateRootIn cfg il with
  | .ready _ s => s.transferFromBurnt
  | .stopped _ => 0

/-- The report of the task of a binding. -/
def reportOf (store : Store) (table : Cid → Option ActorMigration) (e : Address × Actor) :
    Report :=
  taskReport (migrateOneActor store table e.1 e.2 Tree.empty).2

/-- No report that a task of `order` sends is missed. -/
def NoneMissed (store : Store) (table : Cid → Option ActorMigration) (missed : Address → Bool)
    (order : List (Address × Actor)) : Prop :=
  ∀ e ∈ order, missed e.1 = true →
    reportOf store table e = .nothing ∨ reportOf store table e = .crash

/-- The events of a task do not depend on the output tree it writes to. -/
theorem migrateOneActor_events (store : Store) (table : Cid → Option ActorMigration)
    (addr : Address) (a : Actor) (out1 out2 : Tree) :
    (migrateOneActor store table addr a out1).2 = (migrateOneActor store table addr a out2).2 := by
  unfold migrateOneActor Tree.SetActor
  by_cases hv : a.Code = builtin0.VerifiedRegistryActorCodeID
  · rw [if_pos hv, if_pos hv]
  · rw [if_neg hv, if_neg hv]
    cases table a.Code with
    | none => rfl
    | some m =>
      simp only []
      cases m.StateMigration a.Head a.Balance with
      | error e => rfl
      | ok r =>
        obtain ⟨headOut, transfer⟩ := r
        simp only []
        cases store.fault (.setActor addr
          ⟨m.OutCodeCID, headOut, a.CallSeqNum, a.Balance + transfer⟩) <;> rfl

/-- When no report is missed the pass is the pass in which every report is received. -/
theorem Async_concurrentPass_eq (store : Store) (table : Cid → Option ActorMigration)
    (missed : Address → Bool) :
    ∀ (order : List (Address × Actor)) (s : PassState), NoneMissed store table missed order →
      Async.concurrentPass store table missed order s = concurrentPass store table order s := by
  intro order
  induction order with
  | nil => intro s _; rfl
  | cons e rest ih =>
    intro s h
    obtain ⟨addr, a⟩ := e
    have hrest : NoneMissed store table missed rest :=
      fun e he => h e (List.mem_cons_of_mem _ he)
    have hhd := h (addr, a) (List.mem_cons_self _ _)
    simp only [reportOf] at hhd
    rw [migrateOneActor_events store table addr a Tree.empty s.actorsOut] at hhd
    simp only [Async.concurrentPass, concurrentPass]
    cases hrep : taskReport (migrateOneActor store table addr a s.actorsOut).2 with
    | crash => rfl
    | nothing => exact ih _ hrest
    | err err =>
      cases hm : missed addr with
      | true =>
        rw [hrep] at hhd
        rcases hhd hm with h1 | h1 <;> cases h1
      | false => simp
    | transfer t =>
      cases hm : missed addr with
      | true =>
        rw [hrep] at hhd
        rcases hhd hm with h1 | h1 <;> cases h1
      | false =>
        simp only [Bool.false_eq_true, if_false]
        exact ih _ hrest


theorem NoneMissed.of_perm {store : Store} {table : Cid → Option ActorMigration}
    {missed : Address → Bool} {l1 l2 : List (Address × Actor)} (hp : l1.Perm l2)
    (h : NoneMissed store table missed l2) : NoneMissed store table missed l1 :=
  fun e he => h e (hp.mem_iff.mp he)

/-- When the context is not cancelled and no report is missed, the run up to the end of the pass
is the run in which every report is received. -/
theorem Async_runPass_eq (store : Store) (ms : Migrators) (actorsIn : Tree) (cfg : Config)
    (il : Interleaving) (hc : il.cancelled = none)
    (hm : NoneMissed store (migrations ms (some actorsIn) none) il.missed actorsIn.entries) :
    Async.runPass store ms (.tree actorsIn) cfg il =
      runPass store ms (.tree actorsIn) cfg il.sched := by
  unfold Async.runPass runPass
  unfold states0.LoadTree adt.MakeEmptyMapRoot states.LoadTree Tree.ForEach
  cases h1 : store.fault (.loadTree .input) with
  | some e => rfl
  | none =>
    cases h2 : store.fault .emptyMapRoot with
    | some e => rfl
    | none =>
      cases h3 : store.fault (.loadTree .output) with
      | some e => rfl
      | none =>
        cases h4 : store.fault .forEach with
        | some e => rfl
        | none =>
          simp only [hc]
          by_cases hb : cfg.MaxWorkers ≤ 0 ∧ actorsIn.entries ≠ []
          · rw [if_pos hb, if_pos hb]
          · rw [if_neg hb, if_neg hb]
            have hw : 0 < cfg.MaxWorkers ∨ actorsIn.entries = [] := by
              by_cases hw : 0 < cfg.MaxWorkers
              · exact Or.inl hw
              · right
                by_contra hne
                exact hb ⟨not_lt.mp hw, hne⟩
            rw [Async_concurrentPass_eq store _ il.missed _ _
              (NoneMissed.of_perm (completionOrder_perm_of_run cfg il.sched _ hw) hm)]

/-- When the context is not cancelled and no report is missed, the run is the run in which every
report is received. -/
theorem Async_MigrateStateTree_eq (store : Store) (ms : Migrators) (actorsIn : Tree)
    (cfg : Config) (il : Interleaving) (hc : il.cancelled = none)
    (hm : NoneMissed store (migrations ms (some actorsIn) none) il.missed actorsIn.entries) :
    Async.MigrateStateTree store ms (.tree actorsIn) cfg il =
        MigrateStateTree store ms (.tree actorsIn) cfg il.sched ∧
      Async.debitedFromBurnt store ms (.tree actorsIn) cfg il =
        debitedFromBurnt store ms (.tree actorsIn) cfg il.sched := by
  unfold Async.MigrateStateTree Async.debitedFromBurnt Async.runDeferred MigrateStateTree
    debitedFromBurnt runDeferred
  rw [Async_runPass_eq store ms actorsIn cfg il hc hm]
  exact ⟨rfl, rfl⟩

/-- A run in which the context is cancelled returns no root. -/
theorem Async_cancelled_noRoot (store : Store) (ms : Migrators) (stateRootIn : StateRoot)
    (cfg : Config) (il : Interleaving) (k : Nat) (hc : il.cancelled = some k) :
    (Async.MigrateStateTree store ms stateRootIn cfg il).outcome.NoRoot := by
  unfold Async.MigrateStateTree Async.runDeferred Async.runPass
  cases states0.LoadTree store stateRootIn with
  | error e => simp [Outcome.NoRoot]
  | ok actorsIn =>
    simp only []
    cases adt.MakeEmptyMapRoot store with
    | error e => simp [Outcome.NoRoot]
    | ok stateRootOut =>
      simp only []
      cases states.LoadTree store stateRootOut with
      | error e => simp [Outcome.NoRoot]
      | ok actorsOut =>
        simp only []
        cases actorsIn.ForEach store with
        | error e => simp [Outcome.NoRoot]
        | ok entries =>
          simp only [hc]
          by_cases hb : cfg.MaxWorkers ≤ 0 ∧ entries ≠ []
          · rw [if_pos hb]
            simp [Outcome.NoRoot]
          · rw [if_neg hb]
            cases Async.concurrentPass store (migrations ms (some actorsIn) none) il.missed
                (List.take k (completionOrder cfg.MaxWorkers.toNat il.sched entries))
                ⟨actorsOut, 0, []⟩ with
            | failed err trace => simp [Outcome.NoRoot]
            | panicked trace => simp [Outcome.NoRoot]
            | done s =>
              simp only []
              split_ifs <;> simp [Outcome.NoRoot]

/-- A run that returns a root and in which no report is missed is a run in which every report is
received. -/
theorem Async_root_delivered (store : Store) (ms : Migrators) (actorsIn : Tree) (cfg : Config)
    (il : Interleaving) (out : Tree) (err : Option Error)
    (hm : NoneMissed store (migrations ms (some actorsIn) none) il.missed actorsIn.entries)
    (hroot : (Async.MigrateStateTree store ms (.tree actorsIn) cfg il).outcome =
      .returned (.tree out) err) :
    Async.MigrateStateTree store ms (.tree actorsIn) cfg il =
        MigrateStateTree store ms (.tree actorsIn) cfg il.sched ∧
      Async.debitedFromBurnt store ms (.tree actorsIn) cfg il =
        debitedFromBurnt store ms (.tree actorsIn) cfg il.sched := by
  cases hc : il.cancelled with
  | none => exact Async_MigrateStateTree_eq store ms actorsIn cfg il hc hm
  | some k =>
    have h := Async_cancelled_noRoot store ms (.tree actorsIn) cfg il k hc
    rw [hroot] at h
    simp [Outcome.NoRoot] at h


/-- The interleaving in which every report is received and the context is not cancelled. -/
def Interleaving.delivered (sched : List Nat) : Interleaving := ⟨sched, fun _ => false, none⟩

/-- The interleaving in which the report of the task for `addr` is missed, every other report
is received, and the context is not cancelled. -/
def Interleaving.missing (addr : Address) (sched : List Nat) : Interleaving :=
  ⟨sched, fun a => decide (a = addr), none⟩

/-- What the run on `exampleTree` under `exampleMigrators` returns when the transfer of the
power task is missed: the power actor is credited, burnt funds are not debited. -/
def undebitedOut : Tree :=
  ⟨[(0, ⟨builtin.SystemActorCodeID, .block 1, 0, 10⟩),
    (4, ⟨builtin.StoragePowerActorCodeID, .block 2, 3, 25⟩),
    (6, ⟨builtin.VerifiedRegistryActorCodeID, .block 3, 0, 30⟩),
    (99, ⟨builtin.AccountActorCodeID, .block 4, 7, 40⟩)], by decide⟩

/-- What the run on `exampleTree` under `failingPowerMigrators` returns when the error of the
power task is missed: a tree without the power actor. -/
def failedPowerOut : Tree :=
  ⟨[(0, ⟨builtin.SystemActorCodeID, .block 1, 0, 10⟩),
    (6, ⟨builtin.VerifiedRegistryActorCodeID, .block 3, 0, 30⟩),
    (99, ⟨builtin.AccountActorCodeID, .block 4, 7, 40⟩)], by decide⟩

/-- Migrators under which only the deferred verified-registry migrator reports a balance
change, of 50, more than the burnt-funds balance of `exampleTree`. -/
def deferredOverdrawMigrators : Migrators :=
  ⟨keepMigrator, keepMigrator, keepMigrator, keepMigrator, keepMigrator, keepMigrator,
    fun _ => keepMigrator, keepMigrator, keepMigrator, fun _ head _ => .ok (head, 50),
    keepMigrator⟩

/-- What the run on `exampleTree` under `deferredOverdrawMigrators` returns. -/
def deferredOverdrawOut : Tree :=
  ⟨[(0, ⟨builtin.SystemActorCodeID, .block 1, 0, 10⟩),
    (4, ⟨builtin.StoragePowerActorCodeID, .block 2, 3, 20⟩),
    (6, ⟨builtin.VerifiedRegistryActorCodeID, .block 3, 0, 80⟩),
    (99, ⟨builtin.AccountActorCodeID, .block 4, 7, 40⟩)], by decide⟩

/-- What the run on `exampleTree` under `overdrawMigrators` returns when the transfer of the
power task is missed. -/
def missedOverdrawOut : Tree :=
  ⟨[(0, ⟨builtin.SystemActorCodeID, .block 1, 0, 10⟩),
    (4, ⟨builtin.StoragePowerActorCodeID, .block 2, 3, 70⟩),
    (6, ⟨builtin.VerifiedRegistryActorCodeID, .block 3, 0, 30⟩),
    (99, ⟨builtin.AccountActorCodeID, .block 4, 7, 40⟩)], by decide⟩

/-- Whether the event is a successful write of the output tree at the address. -/
def Event.writesAt (k : Address) : Event → Bool
  | .setActor addr _ none => decide (addr = k)
  | _ => false

/-- Whether the event is a migrator call of the concurrent pass that failed. -/
def Event.failedMigration : Event → Bool
  | .migrateState _ _ _ _ (.error _) => true
  | _ => false

/-- A cancelled context on `exampleTree`: with one worker and the context done after the first
task, the `sem.Acquire` of the iteration fails and the run returns the error of the context;
with sixteen workers every task has been handed off, the `sem.Acquire` of the barrier fails and
the run returns that error wrapped; with no worker at all the first `sem.Acquire` waits until
the context is done. -/
theorem cancelled_run_examples :
    (Async.MigrateStateTree Store.reliable exampleMigrators (.tree exampleTree) ⟨1⟩
        ⟨[], fun _ => false, some 1⟩).outcome = .returned .Undef (some ctxErr) ∧
    (Async.MigrateStateTree Store.reliable exampleMigrators (.tree exampleTree) ⟨16⟩
        ⟨[], fun _ => false, some 1⟩).outcome =
      .returned .Undef (some (.waitWorkers ctxErr)) ∧
    (Async.MigrateStateTree Store.reliable exampleMigrators (.tree exampleTree) ⟨0⟩
        ⟨[], fun _ => false, some 0⟩).outcome = .returned .Undef (some ctxErr) ∧
    (Async.MigrateStateTree Store.reliable exampleMigrators (.tree exampleTree) ⟨0⟩
        ⟨[], fun _ => false, none⟩).outcome = .blocked := by
  decide

/-! ## C1: conservation of balances -/

/-- C1, the claim as stated fails: on `exampleTree`, where the power migrator reports a
transfer of 5, the run in which every report is received succeeds and debits 5 from burnt
funds; the output balances sum to the input total 100, so output total plus debit is 105, not
the input total. -/
theorem conservation_counterexample :
    (Async.MigrateStateTree Store.reliable exampleMigrators (.tree exampleTree) DefaultConfig
        (Interleaving.delivered [])).outcome = .returned (.tree exampleTreeOut) none ∧
      Async.debitedFromBurnt Store.reliable exampleMigrators (.tree exampleTree) DefaultConfig
        (Interleaving.delivered []) = 5 ∧
      InputTreeBalance Store.reliable (.tree exampleTree) 0 = (100, none) ∧
      exampleTreeOut.totalBalance +
          Async.debitedFromBurnt Store.reliable exampleMigrators (.tree exampleTree)
            DefaultConfig (Interleaving.delivered []) ≠
        (InputTreeBalance Store.reliable (.tree exampleTree) 0).1 := by
  decide

/-- C1 (amended): on an input tree that holds the verified-registry code exactly at the
verified-registry address, for every run of `MigrateStateTree`, under any interleaving, that
returns a root, in which no report sent by a task is missed by the coordinator and in which the
deferred migrator reports no balance change, the sum of the output balances plus the amount
debited from burnt funds equals the sum of the input balances (as computed by
`InputTreeBalance`) plus the sum of the balance changes reported in the concurrent pass; when
none of these is negative, the debit is their sum and the sum of the output balances equals the
sum of the input balances. -/
theorem balance_conservation (store : Store) (ms : Migrators) (actorsIn : Tree) (cfg : Config)
    (il : Interleaving) (out : Tree) (visited : Nat) (hsingle : VerifregSingleton actorsIn)
    (hrecv : NoneMissed store (migrations ms (some actorsIn) none) il.missed actorsIn.entries)
    (hroot : (Async.MigrateStateTree store ms (.tree actorsIn) cfg il).outcome =
      .returned (.tree out) none)
    (hdef : ∀ ev ∈ (Async.MigrateStateTree store ms (.tree actorsIn) cfg il).trace,
      ev.deferredDelta = 0) :
    (InputTreeBalance store (.tree actorsIn) visited).2 = none ∧
    out.totalBalance + Async.debitedFromBurnt store ms (.tree actorsIn) cfg il =
      (InputTreeBalance store (.tree actorsIn) visited).1 +
        passDeltaSum (Async.MigrateStateTree store ms (.tree actorsIn) cfg il).trace ∧
    ((∀ ev ∈ (Async.MigrateStateTree store ms (.tree actorsIn) cfg il).trace,
        0 ≤ ev.passDelta) →
      Async.debitedFromBurnt store ms (.tree actorsIn) cfg il =
          passDeltaSum (Async.MigrateStateTree store ms (.tree actorsIn) cfg il).trace ∧
        out.totalBalance = (InputTreeBalance store (.tree actorsIn) visited).1) := by
  obtain ⟨hrun, hdeb⟩ := Async_root_delivered store ms actorsIn cfg il out none hrecv hroot
  rw [hrun] at hroot hdef ⊢
  rw [hdeb]
  exact conservation_delivered store ms actorsIn cfg il.sched out visited hsingle hroot hdef

/-- C1, witness: the amended statement at `exampleTree`, in the run in which every report is
received. -/
theorem balance_conservation_witness :
    VerifregSingleton exampleTree ∧
      exampleTreeOut.totalBalance = (InputTreeBalance Store.reliable (.tree exampleTree) 0).1 :=
  ⟨by unfold VerifregSingleton; decide,
    ((balance_conservation Store.reliable exampleMigrators exampleTree DefaultConfig
      (Interleaving.delivered []) exampleTreeOut 0 (by unfold VerifregSingleton; decide)
      (fun _ _ h => by cases h) (by decide) (by decide)).2.2 (by decide)).2⟩


/-! ## C3: the negative-balance guard -/

/-- C3, the code at the failing input: on `exampleTree`, when the deferred verified-registry
migrator reports a balance change of 50 against a burnt-funds balance of 40 (and no other
migrator reports any), the run returns a root: the verified registry is credited 50 and burnt
funds are left at 40, because the deferred change never reaches `transferFromBurnt`.  The same
happens when the power migrator reports 50 and the transfer of its task is missed; when that
transfer is received, the guard of `top.go:206` ends the run. -/
theorem negative_guard_misses_transfers :
    ((Async.MigrateStateTree Store.reliable deferredOverdrawMigrators (.tree exampleTree)
        DefaultConfig (Interleaving.delivered [])).outcome =
        .returned (.tree deferredOverdrawOut) none ∧
      deferredDeltaSum (Async.MigrateStateTree Store.reliable deferredOverdrawMigrators
        (.tree exampleTree) DefaultConfig (Interleaving.delivered [])).trace = 50 ∧
      Async.debitedFromBurnt Store.reliable deferredOverdrawMigrators (.tree exampleTree)
        DefaultConfig (Interleaving.delivered []) = 0 ∧
      balanceAt builtin.BurntFundsActorAddr exampleTree.entries = 40 ∧
      balanceAt builtin.BurntFundsActorAddr deferredOverdrawOut.entries = 40) ∧
    ((Async.MigrateStateTree Store.reliable overdrawMigrators (.tree exampleTree)
        DefaultConfig (Interleaving.missing 4 [])).outcome =
        .returned (.tree missedOverdrawOut) none ∧
      passDeltaSum (Async.MigrateStateTree Store.reliable overdrawMigrators
        (.tree exampleTree) DefaultConfig (Interleaving.missing 4 [])).trace = 50 ∧
      balanceAt builtin.BurntFundsActorAddr missedOverdrawOut.entries = 40) ∧
    (Async.MigrateStateTree Store.reliable overdrawMigrators (.tree exampleTree)
        DefaultConfig (Interleaving.delivered [])).outcome =
      .returned .Undef
        (some (.errorf "miner transfers send burnt funds actor balance below zero")) := by
  decide

/-! ## C4: coverage of the addresses -/

/-- C4, the code at the failing input: an actor with the verified-registry code at address 7
is skipped by its task ("This will be migrated at the end", `top.go:221`) and the deferred step
migrates the actor at the verified-registry address only, so address 7 is dropped from the
tree the run returns; an account actor at the verified-registry address comes out under the
verified-registry code, not the account code its table entry maps to; and when the error of
the failing power task is missed, the run returns a tree without address 4. -/
theorem address_coverage_fails :
    ((Async.MigrateStateTree Store.reliable keepMigrators (.tree strayVerifregTree)
        DefaultConfig (Interleaving.delivered [])).outcome =
        .returned (.tree strayVerifregOut) none ∧
      7 ∈ strayVerifregTree.addresses ∧ 7 ∉ strayVerifregOut.addresses) ∧
    ((Async.MigrateStateTree Store.reliable keepMigrators (.tree accountAtVerifregTree)
        DefaultConfig (Interleaving.delivered [])).outcome =
        .returned (.tree accountAtVerifregOut) none ∧
      (lookupEntry 6 accountAtVerifregTree.entries).map Actor.Code =
        some builtin0.AccountActorCodeID ∧
      (migrations keepMigrators (some accountAtVerifregTree) none
        builtin0.AccountActorCodeID).map ActorMigration.OutCodeCID =
          some builtin.AccountActorCodeID ∧
      (lookupEntry 6 accountAtVerifregOut.entries).map Actor.Code =
        some builtin.VerifiedRegistryActorCodeID) ∧
    ((Async.MigrateStateTree Store.reliable failingPowerMigrators (.tree exampleTree)
        DefaultConfig (Interleaving.missing 4 [])).outcome =
        .returned (.tree failedPowerOut) none ∧
      4 ∈ exampleTree.addresses ∧ 4 ∉ failedPowerOut.addresses) := by
  decide

/-! ## C5: a single failing migrator -/

/-- C5, the code at the failing input: on `exampleTree` with only the power migrator failing,
the run in which the error of the power task is missed returns a root and no error, the tree
without the power actor; the run in which the error is received returns the undefined root and
the error wrapped with address 4 and the name of the power actor, as the claim says.  When the
one failing migrator is the deferred verified-registry migrator, the run returns its error as
it is, not wrapped (`top.go:183-185`). -/
theorem single_failure_lost :
    (Async.MigrateStateTree Store.reliable failingPowerMigrators (.tree exampleTree)
        DefaultConfig (Interleaving.missing 4 [])).outcome =
      .returned (.tree failedPowerOut) none ∧
    (Async.MigrateStateTree Store.reliable failingPowerMigrators (.tree exampleTree)
        DefaultConfig (Interleaving.delivered [])).outcome =
      .returned .Undef
        (some (.stateMigration "fil/2/storagepower" 4 (.other "power migration failed"))) ∧
    ((Async.MigrateStateTree Store.reliable failingVerifregMigrators (.tree exampleTree)
        DefaultConfig (Interleaving.delivered [])).outcome =
        .returned .Undef (some (.other "verifreg migration failed")) ∧
      Error.other "verifreg migration failed" ≠
        .stateMigration (builtin.ActorNameByCode builtin.VerifiedRegistryActorCodeID)
          builtin0.VerifiedRegistryActorAddr (.other "verifreg migration failed")) := by
  decide

/-! ## C9: the deferred verified-registry migration -/

/-- C9, the code at the failing input: on `exampleTree` with only the power migrator failing,
in the run in which the error of the power task is missed the run returns a root; its trace
holds the failed migrator call of the pass and the one invocation of the verified-registry
migrator, and no write of the output tree at address 4: the deferred migration ran, and the run
succeeded, although the power actor was never migrated and written. -/
theorem deferred_runs_after_lost_failure :
    (Async.MigrateStateTree Store.reliable failingPowerMigrators (.tree exampleTree)
        DefaultConfig (Interleaving.missing 4 [])).outcome =
      .returned (.tree failedPowerOut) none ∧
    (Async.MigrateStateTree Store.reliable failingPowerMigrators (.tree exampleTree)
        DefaultConfig (Interleaving.missing 4 [])).trace.countP Event.invokesVerifreg = 1 ∧
    (Async.MigrateStateTree Store.reliable failingPowerMigrators (.tree exampleTree)
        DefaultConfig (Interleaving.missing 4 [])).trace.countP Event.failedMigration = 1 ∧
    (Async.MigrateStateTree Store.reliable failingPowerMigrators (.tree exampleTree)
        DefaultConfig (Interleaving.missing 4 [])).trace.any (Event.writesAt 4) = false ∧
    (Async.MigrateStateTree Store.reliable failingPowerMigrators (.tree exampleTree)
        DefaultConfig (Interleaving.missing 4 [])).trace.any (Event.writesAt 0) = true ∧
    lookupEntry 4 failedPowerOut.entries = none := by
  decide

/-! ## C10: the completion order and the worker bound -/

/-- C10, the code at the failing input: on `exampleTree` under `exampleMigrators`, with
`MaxWorkers = 1` and the tasks finishing in the same order, the run in which the transfer of
the power task is received returns the tree with burnt funds at 35 and the run in which it is
missed returns the tree with burnt funds at 40: the accumulated transfer total is 5 in one and
0 in the other, and the two roots differ.  The same holds between a run with `MaxWorkers = 1`
and a run with `MaxWorkers = 16`. -/
theorem root_depends_on_delivery :
    (Async.MigrateStateTree Store.reliable exampleMigrators (.tree exampleTree) ⟨1⟩
        (Interleaving.delivered [])).outcome = .returned (.tree exampleTreeOut) none ∧
    (Async.MigrateStateTree Store.reliable exampleMigrators (.tree exampleTree) ⟨1⟩
        (Interleaving.missing 4 [])).outcome = .returned (.tree undebitedOut) none ∧
    Async.debitedFromBurnt Store.reliable exampleMigrators (.tree exampleTree) ⟨1⟩
        (Interleaving.delivered []) = 5 ∧
    Async.debitedFromBurnt Store.reliable exampleMigrators (.tree exampleTree) ⟨1⟩
        (Interleaving.missing 4 []) = 0 ∧
    (Async.MigrateStateTree Store.reliable exampleMigrators (.tree exampleTree) ⟨16⟩
        (Interleaving.missing 4 [])).outcome = .returned (.tree undebitedOut) none ∧
    StateRoot.tree exampleTreeOut ≠ StateRoot.tree undebitedOut := by
  decide

/-! ## C13: the end-to-end scenario -/

/-- C13, the claim as stated fails: on the tree of exactly the three actors of the scenario
the run does not succeed, whether the transfer of the power task is received or missed; it
returns the undefined root and the error of `top.go:203`, because the output tree holds no
burnt-funds actor to debit. -/
theorem end_to_end_counterexample :
    (Async.MigrateStateTree Store.reliable exampleMigrators (.tree scenarioTree) DefaultConfig
        (Interleaving.delivered [])).outcome =
      .returned .Undef (some (.errorf "burnt funds actor not in tree")) ∧
    (Async.MigrateStateTree Store.reliable exampleMigrators (.tree scenarioTree) DefaultConfig
        (Interleaving.missing 4 [])).outcome =
      .returned .Undef (some (.errorf "burnt funds actor not in tree")) := by
  decide

/-- C13 (amended): on the tree of a system actor whose migrator reports no transfer, a power
actor whose migrator reports a transfer of 5, a verified-registry actor whose migrator reports
no transfer, and a burnt-funds account of balance at least 5 whose migrator reports no
transfer, with a store that does not fail and a positive `MaxWorkers`, every run of
`MigrateStateTree` in which the context is not cancelled and the coordinator receives the
transfer of the power task succeeds; in the returned tree the burnt-funds balance is lower by
exactly 5, the power actor's balance is higher by 5, and all four addresses appear under their
mapped code identifiers. -/
theorem end_to_end (store : Store) (ms : Migrators) (cfg : Config) (il : Interleaving)
    (sys pow vr bf : Actor) (hs hp hv hb : Cid)
    (hstore : ∀ op, store.fault op = none) (hw : 0 < cfg.MaxWorkers)
    (hctx : il.cancelled = none) (hrecv : il.missed 4 = false)
    (hsys : sys.Code = builtin0.SystemActorCodeID)
    (hpow : pow.Code = builtin0.StoragePowerActorCodeID)
    (hvr : vr.Code = builtin0.VerifiedRegistryActorCodeID)
    (hbf : bf.Code = builtin0.AccountActorCodeID)
    (hms : ms.systemMigrator sys.Head sys.Balance = .ok (hs, 0))
    (hmp : ∀ t, ms.powerMigrator (some t) pow.Head pow.Balance = .ok (hp, 5))
    (hmv : ∀ t, ms.verifregMigrator (some t) vr.Head vr.Balance = .ok (hv, 0))
    (hmb : ms.accountMigrator bf.Head bf.Balance = .ok (hb, 0))
    (hbal : 5 ≤ bf.Balance) :
    (Async.MigrateStateTree store ms (.tree (scenarioTreeWithBurnt sys pow vr bf)) cfg
        il).outcome =
      .returned (.tree (scenarioTreeOut sys pow vr bf hs hp hv hb)) none := by
  have c1 : sys.Code ≠ builtin0.VerifiedRegistryActorCodeID := by rw [hsys]; decide
  have c4 : bf.Code ≠ builtin0.VerifiedRegistryActorCodeID := by rw [hbf]; decide
  have hmiss : NoneMissed store (migrations ms (some (scenarioTreeWithBurnt sys pow vr bf)) none)
      il.missed (scenarioTreeWithBurnt sys pow vr bf).entries := by
    intro e he hm
    have hentries : (scenarioTreeWithBurnt sys pow vr bf).entries =
        [(0, sys), (4, pow), (6, vr), (99, bf)] := rfl
    rw [hentries] at he
    simp only [List.mem_cons, List.mem_singleton, List.not_mem_nil, or_false] at he
    left
    rcases he with rfl | rfl | rfl | rfl
    · simp only [reportOf, migrateOneActor, if_neg c1]
      rw [hsys, migrations_system]
      simp [hms, Tree.SetActor, hstore, taskReport]
    · rw [hrecv] at hm
      cases hm
    · simp [reportOf, migrateOneActor, hvr, taskReport]
    · simp only [reportOf, migrateOneActor, if_neg c4]
      rw [hbf, migrations_account]
      simp [hmb, Tree.SetActor, hstore, taskReport]
  rw [(Async_MigrateStateTree_eq store ms _ cfg il hctx hmiss).1]
  exact end_to_end_delivered store ms cfg il.sched sys pow vr bf hs hp hv hb hstore hw hsys hpow
    hvr hbf hms hmp hmv hmb hbal

/-- C13, witness: the amended scenario on `exampleTree`, in a run in which the send of the
system task, which has nothing to send, counts as missed. -/
theorem end_to_end_witness :
    (Async.MigrateStateTree Store.reliable exampleMigrators
        (.tree (scenarioTreeWithBurnt ⟨builtin0.SystemActorCodeID, .block 1, 0, 10⟩
          ⟨builtin0.StoragePowerActorCodeID, .block 2, 3, 20⟩
          ⟨builtin0.VerifiedRegistryActorCodeID, .block 3, 0, 30⟩
          ⟨builtin0.AccountActorCodeID, .block 4, 7, 40⟩)) DefaultConfig
        (Interleaving.missing 0 [1, 1])).outcome =
      .returned (.tree (scenarioTreeOut ⟨builtin0.SystemActorCodeID, .block 1, 0, 10⟩
          ⟨builtin0.StoragePowerActorCodeID, .block 2, 3, 20⟩
          ⟨builtin0.VerifiedRegistryActorCodeID, .block 3, 0, 30⟩
          ⟨builtin0.AccountActorCodeID, .block 4, 7, 40⟩
          (.block 1) (.block 2) (.block 3) (.block 4))) none :=
  end_to_end Store.reliable exampleMigrators DefaultConfig (Interleaving.missing 0 [1, 1])
    _ _ _ _ _ _ _ _ (fun _ => rfl) (by decide) rfl rfl rfl rfl rfl rfl rfl (fun _ => rfl)
    (fun _ => rfl) rfl (by decide)

end Migration

/-! Deal labels and deal proposals (`actors/builtin/market/deal.go`).

Go strings and byte slices are sequences of bytes (`List Nat`, each below 256); a pointer field
is an `Option`; an `io.Writer` is the sequence of bytes written so far and an `io.Reader` the
sequence of bytes still to read; `int64` values are integers wrapped into the 64-bit range where
the code computes with them. -/

namespace Market

/-! ## Data model -/

/-- A byte; a well-formed byte is below 256. -/
abbrev Byte := Nat

/-- A Go `string`: a sequence of bytes, valid UTF-8 or not. -/
abbrev GoString := List Byte

/-- The errors of the label functions, one constructor for each message of `deal.go`, and
`io` for an error of the reader. -/
inductive Error
  | stringTooLarge (len max : Nat)
  | invalidUtf8
  | bytesTooLarge (len max : Nat)
  | notString
  | bothSet
  | marshalBytesTooLong (len max : Nat)
  | nilReceiver
  | labelStringTooLong (len max : Nat)
  | labelStringNotUtf8
  | labelBytesTooLong (len max : Nat)
  | unexpectedMajor (maj : Nat)
  | io (msg : String)
  deriving DecidableEq, Repr

/-- The kinded union of string or byte slice (`DealLabel`): two pointer fields. -/
structure DealLabel where
  s : Option GoString
  bs : Option (List Byte)
  deriving DecidableEq, Repr

/-- `EmptyDealLabel`, the zero value. -/
def EmptyDealLabel : DealLabel := ⟨none, none⟩

/-- Modelled from the spec: the constant `DealMaxLabelSize` of the market policy is not among
the sources and the spec does not give it; it is 256 bytes. No theorem depends on the value. -/
def DealMaxLabelSize : Nat := 256

/-- Modelled from the spec: `cbg.ByteArrayMaxLen` of the library cbor-gen (not among the
sources), `2 << 20`. No theorem depends on the value. -/
def cbg.ByteArrayMaxLen : Nat := 2097152

/-- Modelled from the spec: `cbg.MaxLength` of the library cbor-gen (not among the sources),
8192. No theorem depends on the value. -/
def cbg.MaxLength : Nat := 8192

/-- The CBOR major type of byte strings (`cbg.MajByteString`). -/
def cbg.MajByteString : Nat := 2

/-- The CBOR major type of text strings (`cbg.MajTextString`). -/
def cbg.MajTextString : Nat := 3

/-- Whether a byte is a UTF-8 continuation byte. -/
def utf8.isCont (b : Byte) : Bool := decide (0x80 ≤ b ∧ b ≤ 0xBF)

/-- Modelled from the spec: `utf8.ValidString` of the Go standard library (not among the
sources): the bytes are a sequence of well-formed UTF-8 encodings, without overlong forms,
surrogates or code points above U+10FFFF. The theorems use it as a predicate only. -/
def utf8.ValidString : GoString → Bool
  | [] => true
  | b0 :: rest =>
    if b0 < 0x80 then utf8.ValidString rest
    else if 0xC2 ≤ b0 ∧ b0 ≤ 0xDF then
      match rest with
      | b1 :: rest1 => utf8.isCont b1 && utf8.ValidString rest1
      | _ => false
    else if 0xE0 ≤ b0 ∧ b0 ≤ 0xEF then
      match rest with
      | b1 :: b2 :: rest2 =>
        decide ((if b0 = 0xE0 then 0xA0 else 0x80) ≤ b1 ∧
          b1 ≤ (if b0 = 0xED then 0x9F else 0xBF)) &&
          utf8.isCont b2 && utf8.ValidString rest2
      | _ => false
    else if 0xF0 ≤ b0 ∧ b0 ≤ 0xF4 then
      match rest with
      | b1 :: b2 :: b3 :: rest3 =>
        decide ((if b0 = 0xF0 then 0x90 else 0x80) ≤ b1 ∧
          b1 ≤ (if b0 = 0xF4 then 0x8F else 0xBF)) &&
          utf8.isCont b2 && utf8.isCont b3 && utf8.ValidString rest3
      | _ => false
    else false

/-! ## Labels -/

/-- `NewLabelFromString`, returning `(label, err)`. -/
def NewLabelFromString (s : GoString) : DealLabel × Option Error :=
  if s.length > DealMaxLabelSize then
    (EmptyDealLabel, some (.stringTooLarge s.length DealMaxLabelSize))
  else if !utf8.ValidString s then
    (EmptyDealLabel, some .invalidUtf8)
  else
    (⟨some s, none⟩, none)

/-- `NewLabelFromBytes`, returning `(label, err)`. -/
def NewLabelFromBytes (b : List Byte) : DealLabel × Option Error :=
  if b.length > DealMaxLabelSize then
    (EmptyDealLabel, some (.bytesTooLarge b.length DealMaxLabelSize))
  else
    (⟨none, some b⟩, none)

/-- `DealLabel.IsEmpty`. -/
def DealLabel.IsEmpty (label : DealLabel) : Bool := label.s.isNone && label.bs.isNone

/-- `DealLabel.IsString`. -/
def DealLabel.IsString (label : DealLabel) : Bool := label.s.isSome

/-- `DealLabel.IsBytes`. -/
def DealLabel.IsBytes (label : DealLabel) : Bool := label.bs.isSome

/-- `DealLabel.ToString`, returning `(string, err)`. -/
def DealLabel.ToString (label : DealLabel) : GoString × Option Error :=
  match label.s with
  | none => ([], some .notString)
  | some s => (s, none)

/-- `DealLabel.ToBytes`. -/
def DealLabel.ToBytes (label : DealLabel) : List Byte :=
  match label.bs with
  | some bs => bs
  | none =>
    match label.s with
    | some s => s
    | none => []

/-- `DealLabel.Length`. -/
def DealLabel.Length (label : DealLabel) : Nat :=
  match label.s with
  | some s => s.length
  | none =>
    match label.bs with
    | some bs => bs.length
    | none => 0

/-! ## CBOR -/

/-- The big-endian bytes of a number, `n` of them. -/
def bigEndian : Nat → Nat → List Byte
  | 0, _ => []
  | n + 1, v => bigEndian n (v / 256) ++ [v % 256]

/-- Modelled from the spec: `cbg.WriteMajorTypeHeaderBuf` of the library cbor-gen (not among the
sources; the spec does not describe it): the bytes of the CBOR header of major type `t` and
argument `l`, the shortest of the five forms. -/
def cbg.WriteMajorTypeHeaderBuf (t : Nat) (l : Nat) : List Byte :=
  if l < 24 then [t * 32 + l]
  else if l < 2 ^ 8 then (t * 32 + 24) :: bigEndian 1 l
  else if l < 2 ^ 16 then (t * 32 + 25) :: bigEndian 2 l
  else if l < 2 ^ 32 then (t * 32 + 26) :: bigEndian 4 l
  else (t * 32 + 27) :: bigEndian 8 l

/-- The number a sequence of bytes encodes in big-endian order. -/
def fromBigEndian (bs : List Byte) : Nat := bs.foldl (fun acc b => acc * 256 + b) 0

/-- Modelled from the spec: `cbg.CborReadHeaderBuf` of the library cbor-gen (not among the
sources; the spec does not describe it): the major type and the argument of the CBOR header at
the front of the input, and the input after it; a truncated, non-minimal or reserved header is
an error. The theorems hold for whatever it returns. -/
def cbg.CborReadHeaderBuf (br : List Byte) : Except Error (Nat × Nat × List Byte) :=
  match br with
  | [] => .error (.io "EOF")
  | first :: rest =>
    let maj := first / 32 % 8
    let low := first % 32
    let wide (n : Nat) (least : Nat) : Except Error (Nat × Nat × List Byte) :=
      if rest.length < n then .error (.io "unexpected EOF")
      else if fromBigEndian (rest.take n) < least then
        .error (.io "cbor input was not canonical")
      else .ok (maj, fromBigEndian (rest.take n), rest.drop n)
    if low < 24 then .ok (maj, low, rest)
    else if low = 24 then wide 1 24
    else if low = 25 then wide 2 (2 ^ 8)
    else if low = 26 then wide 4 (2 ^ 16)
    else if low = 27 then wide 8 (2 ^ 32)
    else .error (.io "invalid header")

/-- `io.ReadAtLeast(br, buf, n)` and `io.ReadFull(br, buf)` on a buffer of `n` bytes: the
next `n` bytes and the input after them, or an error when fewer are left. -/
def io.ReadFull (br : List Byte) (n : Nat) : Except Error (List Byte × List Byte) :=
  if br.length < n then .error (.io "unexpected EOF") else .ok (br.take n, br.drop n)

/-- `(*DealLabel).MarshalCBOR` (`deal.go:117-154`) on a writer that does not fail: the bytes of
the writer after the call, and the error. `none` is the nil receiver. -/
def DealLabel.MarshalCBOR (label : Option DealLabel) (w : List Byte) : List Byte × Option Error :=
  match label with
  | none =>
    -- nil *DealLabel counts as EmptyLabel
    (w ++ cbg.WriteMajorTypeHeaderBuf cbg.MajTextString 0 ++ [], none)
  | some label =>
    if label.IsEmpty then
      (w ++ cbg.WriteMajorTypeHeaderBuf cbg.MajTextString 0 ++ [], none)
    else if label.IsString && label.IsBytes then
      (w, some .bothSet)
    else if label.IsBytes then
      match label.bs with
      | none => (w, none)
      | some bs =>
        if bs.length > cbg.ByteArrayMaxLen then
          (w, some (.marshalBytesTooLong bs.length cbg.ByteArrayMaxLen))
        else
          (w ++ cbg.WriteMajorTypeHeaderBuf cbg.MajByteString bs.length ++ bs, none)
    else
      -- label.IsString()
      match label.s with
      | none => (w, none)
      | some s => (w ++ cbg.WriteMajorTypeHeaderBuf cbg.MajTextString s.length ++ s, none)

/-- `(*DealLabel).UnmarshalCBOR` (`deal.go:156-205`): the receiver after the call (`none` is
the nil receiver), the input left in the reader, and the error. -/
def DealLabel.UnmarshalCBOR (label : Option DealLabel) (br : List Byte) :
    Option DealLabel × List Byte × Option Error :=
  match label with
  | none => (none, br, some .nilReceiver)
  | some _ =>
    -- reset fields
    match cbg.CborReadHeaderBuf br with
    | .error err => (some ⟨none, none⟩, br, some err)
    | .ok (maj, length, rest) =>
      if maj = cbg.MajTextString then
        if length > cbg.MaxLength then
          (some ⟨none, none⟩, rest, some (.labelStringTooLong length cbg.MaxLength))
        else
          match io.ReadFull rest length with
          | .error err => (some ⟨none, none⟩, [], some err)
          | .ok (buf, rest') =>
            if !utf8.ValidString buf then
              (some ⟨none, none⟩, rest', some .labelStringNotUtf8)
            else
              (some ⟨some buf, none⟩, rest', none)
      else if maj = cbg.MajByteString then
        if length > cbg.ByteArrayMaxLen then
          (some ⟨none, none⟩, rest, some (.labelBytesTooLong length cbg.ByteArrayMaxLen))
        else
          -- label.bs = &bs, before the bytes are read
          match io.ReadFull rest length with
          | .error err =>
            (some ⟨none, some (rest ++ List.replicate (length - rest.length) 0)⟩, [], some err)
          | .ok (bs, rest') => (some ⟨none, some bs⟩, rest', none)
      else
        (some ⟨none, none⟩, rest, some (.unexpectedMajor maj))

/-! ## Deal proposals -/

/-- The value of a 64-bit two's complement integer after an operation whose exact result is
`x`. -/
def wrapInt64 (x : Int) : Int := (x + 2 ^ 63) % 2 ^ 64 - 2 ^ 63

/-- A `DealProposal`; `StartEpoch` and `EndEpoch` are `int64` (`abi.ChainEpoch`), the token
amounts are big integers. -/
structure DealProposal where
  PieceCID : Nat
  PieceSize : Nat
  VerifiedDeal : Bool
  Client : Nat
  Provider : Nat
  Label : DealLabel
  StartEpoch : Int
  EndEpoch : Int
  StoragePricePerEpoch : Int
  ProviderCollateral : Int
  ClientCollateral : Int

/-- The fields of a proposal hold `int64` values. -/
def DealProposal.WellFormed (p : DealProposal) : Prop :=
  -2 ^ 63 ≤ p.StartEpoch ∧ p.StartEpoch < 2 ^ 63 ∧ -2 ^ 63 ≤ p.EndEpoch ∧ p.EndEpoch < 2 ^ 63

/-- `DealProposal.Duration`: the `int64` subtraction `p.EndEpoch - p.StartEpoch`. -/
def DealProposal.Duration (p : DealProposal) : Int := wrapInt64 (p.EndEpoch - p.StartEpoch)

/-- `DealProposal.TotalStorageFee`:
`big.Mul(p.StoragePricePerEpoch, big.NewInt(int64(p.Duration())))`. -/
def DealProposal.TotalStorageFee (p : DealProposal) : Int :=
  p.StoragePricePerEpoch * p.Duration

/-- `DealProposal.ClientBalanceRequirement`. -/
def DealProposal.ClientBalanceRequirement (p : DealProposal) : Int :=
  p.ClientCollateral + p.TotalStorageFee

/-- `DealProposal.ProviderBalanceRequirement`. -/
def DealProposal.ProviderBalanceRequirement (p : DealProposal) : Int := p.ProviderCollateral

/-! ## C14: the three forms of the empty label -/

/-- C14: for each of the three forms of the empty label, `DealLabel{nil, nil}`, a nil
`*DealLabel`, and a label holding a pointer to the empty string, `MarshalCBOR` writes the same
bytes: the single byte `0x60`, the CBOR text string (major type 3) of length zero. -/
theorem empty_label_marshal (w : List Byte) :
    DealLabel.MarshalCBOR (some ⟨none, none⟩) w = (w ++ [0x60], none) ∧
      DealLabel.MarshalCBOR none w = (w ++ [0x60], none) ∧
      DealLabel.MarshalCBOR (some ⟨some [], none⟩) w = (w ++ [0x60], none) ∧
      (0x60 : Nat) = cbg.MajTextString * 32 + 0 := by
  refine ⟨?_, ?_, ?_, rfl⟩ <;>
    simp [DealLabel.MarshalCBOR, DealLabel.IsEmpty, DealLabel.IsString, DealLabel.IsBytes,
      cbg.WriteMajorTypeHeaderBuf, cbg.MajTextString]

/-! ## C15: labels from strings -/

/-- C15: `NewLabelFromString s` returns an error exactly when `s` is longer than
`DealMaxLabelSize` or is not valid UTF-8, and then the label is `EmptyDealLabel`; otherwise the
label is a string label (`IsString` true, `IsBytes` and `IsEmpty` false) and `ToString` returns
`s` with no error. -/
theorem label_from_string (s : GoString) :
    ((NewLabelFromString s).2 ≠ none ↔
      s.length > DealMaxLabelSize ∨ utf8.ValidString s = false) ∧
    ((NewLabelFromString s).2 ≠ none → (NewLabelFromString s).1 = EmptyDealLabel) ∧
    ((NewLabelFromString s).2 = none →
      (NewLabelFromString s).1.IsString = true ∧ (NewLabelFromString s).1.IsBytes = false ∧
        (NewLabelFromString s).1.IsEmpty = false ∧
        (NewLabelFromString s).1.ToString = (s, none)) := by
  unfold NewLabelFromString
  by_cases h1 : s.length > DealMaxLabelSize
  · simp [h1]
  · cases h2 : utf8.ValidString s
    · simp [h1, h2]
    · simp [h1, h2, DealLabel.IsString, DealLabel.IsBytes, DealLabel.IsEmpty,
        DealLabel.ToString]

/-- C15, witness: the two bytes of "é" make a string label, a lone continuation byte an error
with the empty label. -/
theorem label_from_string_witness :
    ((NewLabelFromString [0xC3, 0xA9]).1.IsString = true ∧
      (NewLabelFromString [0xC3, 0xA9]).1.IsBytes = false ∧
      (NewLabelFromString [0xC3, 0xA9]).1.IsEmpty = false ∧
      (NewLabelFromString [0xC3, 0xA9]).1.ToString = ([0xC3, 0xA9], none)) ∧
    (NewLabelFromString [0xA9]).1 = EmptyDealLabel :=
  ⟨(label_from_string [0xC3, 0xA9]).2.2 (by decide),
    (label_from_string [0xA9]).2.1 (by decide)⟩

/-! ## C16: labels from bytes -/

/-- C16: `NewLabelFromBytes b` returns an error exactly when `b` is longer than
`DealMaxLabelSize`, and then the label is `EmptyDealLabel`; otherwise the label is a bytes
label (`IsBytes` true, `IsString` false), `ToBytes` returns `b`, `Length` returns `len(b)`, and
`ToString` returns an error. -/
theorem label_from_bytes (b : List Byte) :
    ((NewLabelFromBytes b).2 ≠ none ↔ b.length > DealMaxLabelSize) ∧
    ((NewLabelFromBytes b).2 ≠ none → (NewLabelFromBytes b).1 = EmptyDealLabel) ∧
    ((NewLabelFromBytes b).2 = none →
      (NewLabelFromBytes b).1.IsBytes = true ∧ (NewLabelFromBytes b).1.IsString = false ∧
        (NewLabelFromBytes b).1.ToBytes = b ∧ (NewLabelFromBytes b).1.Length = b.length ∧
        (NewLabelFromBytes b).1.ToString.2 ≠ none) := by
  unfold NewLabelFromBytes
  by_cases h1 : b.length > DealMaxLabelSize
  · simp [h1]
  · simp [h1, DealLabel.IsString, DealLabel.IsBytes, DealLabel.ToBytes, DealLabel.Length,
      DealLabel.ToString]

/-- C16, witness: three bytes that are not valid UTF-8 make a bytes label. -/
theorem label_from_bytes_witness :
    (NewLabelFromBytes [0xFF, 0x00, 0x80]).1.IsBytes = true ∧
      (NewLabelFromBytes [0xFF, 0x00, 0x80]).1.IsString = false ∧
      (NewLabelFromBytes [0xFF, 0x00, 0x80]).1.ToBytes = [0xFF, 0x00, 0x80] ∧
      (NewLabelFromBytes [0xFF, 0x00, 0x80]).1.Length = [0xFF, 0x00, 0x80].length ∧
      (NewLabelFromBytes [0xFF, 0x00, 0x80]).1.ToString.2 ≠ none :=
  (label_from_bytes [0xFF, 0x00, 0x80]).2.2 (by decide)

/-! ## C17: unmarshalling a label -/

/-- C17: on a non-nil receiver, whatever it held before, `UnmarshalCBOR` succeeds only when the
header is read and is a text string or a byte string. If it succeeds on a text string, the
declared length is at most `cbg.MaxLength`, the bytes are valid UTF-8 and the receiver holds
them as a string label and nothing else; if it succeeds on a byte string, the declared length
is at most `cbg.ByteArrayMaxLen` and the receiver holds the bytes as a bytes label and nothing
else. So a header of another major type, a text string that is not valid UTF-8, and a declared
length above the maximum are errors. -/
theorem unmarshal_label (label0 : DealLabel) (br : List Byte) :
    (∀ label1 rest, DealLabel.UnmarshalCBOR (some label0) br = (label1, rest, none) →
      ∃ maj length after, cbg.CborReadHeaderBuf br = .ok (maj, length, after) ∧
        length ≤ after.length ∧ rest = after.drop length ∧
        ((maj = cbg.MajTextString ∧ length ≤ cbg.MaxLength ∧
            utf8.ValidString (after.take length) = true ∧
            label1 = some ⟨some (after.take length), none⟩) ∨
          (maj = cbg.MajByteString ∧ length ≤ cbg.ByteArrayMaxLen ∧
            label1 = some ⟨none, some (after.take length)⟩))) ∧
    (∀ maj length after, cbg.CborReadHeaderBuf br = .ok (maj, length, after) →
      (maj ≠ cbg.MajTextString → maj ≠ cbg.MajByteString →
        (DealLabel.UnmarshalCBOR (some label0) br).2.2 = some (.unexpectedMajor maj)) ∧
      (maj = cbg.MajTextString → length > cbg.MaxLength →
        (DealLabel.UnmarshalCBOR (some label0) br).2.2 =
          some (.labelStringTooLong length cbg.MaxLength)) ∧
      (maj = cbg.MajByteString → length > cbg.ByteArrayMaxLen →
        (DealLabel.UnmarshalCBOR (some label0) br).2.2 =
          some (.labelBytesTooLong length cbg.ByteArrayMaxLen)) ∧
      (maj = cbg.MajTextString → length ≤ cbg.MaxLength → length ≤ after.length →
        utf8.ValidString (after.take length) = false →
        (DealLabel.UnmarshalCBOR (some label0) br).2.2 = some .labelStringNotUtf8)) := by
  have hne : cbg.MajByteString ≠ cbg.MajTextString := by decide
  constructor
  · intro label1 rest h
    unfold DealLabel.UnmarshalCBOR at h
    cases hh : cbg.CborReadHeaderBuf br with
    | error e => simp [hh] at h
    | ok r =>
      obtain ⟨maj, length, after⟩ := r
      refine ⟨maj, length, after, rfl, ?_⟩
      simp only [hh] at h
      by_cases ht : maj = cbg.MajTextString
      · simp only [ht, if_true] at h
        by_cases hl : length > cbg.MaxLength
        · simp [hl] at h
        · simp only [hl, if_false, io.ReadFull] at h
          by_cases hr : after.length < length
          · simp [hr] at h
          · simp only [hr, if_false] at h
            cases hv : utf8.ValidString (after.take length)
            · simp [hv] at h
            · simp only [hv, Bool.not_true, Bool.false_eq_true, if_false, Prod.mk.injEq,
                and_true] at h
              exact ⟨not_lt.mp hr, h.2.symm, Or.inl ⟨ht, not_lt.mp hl, rfl, h.1.symm⟩⟩
      · simp only [ht, if_false] at h
        by_cases hb : maj = cbg.MajByteString
        · simp only [hb, if_true] at h
          by_cases hl : length > cbg.ByteArrayMaxLen
          · simp [hl] at h
          · simp only [hl, if_false, io.ReadFull] at h
            by_cases hr : after.length < length
            · simp [hr] at h
            · simp only [hr, if_false, Prod.mk.injEq, and_true] at h
              exact ⟨not_lt.mp hr, h.2.symm, Or.inr ⟨hb, not_lt.mp hl, h.1.symm⟩⟩
        · simp [hb] at h
  · intro maj length after hh
    unfold DealLabel.UnmarshalCBOR
    simp only [hh]
    refine ⟨?_, ?_, ?_, ?_⟩
    · intro h1 h2
      simp [h1, h2]
    · intro h1 h2
      simp [h1, h2]
    · intro h1 h2
      simp [h1, h2, hne]
    · intro h1 h2 h3 h4
      simp [h1, not_lt.mpr h2, io.ReadFull, not_lt.mpr h3, h4]

/-- C17, witness: the bytes `0x62 0xC3 0xA9` (text string "é") unmarshal into a string label
over a receiver that held bytes, and the byte `0x01` (an unsigned integer) is rejected as an
unexpected major type. -/
theorem unmarshal_label_witness :
    (∃ maj length after, cbg.CborReadHeaderBuf [0x62, 0xC3, 0xA9] = .ok (maj, length, after) ∧
      length ≤ after.length ∧ [] = after.drop length ∧
      ((maj = cbg.MajTextString ∧ length ≤ cbg.MaxLength ∧
          utf8.ValidString (after.take length) = true ∧
          some (⟨some [0xC3, 0xA9], none⟩ : DealLabel) =
            some ⟨some (after.take length), none⟩) ∨
        (maj = cbg.MajByteString ∧ length ≤ cbg.ByteArrayMaxLen ∧
          some (⟨some [0xC3, 0xA9], none⟩ : DealLabel) =
            some ⟨none, some (after.take length)⟩))) ∧
    (DealLabel.UnmarshalCBOR (some ⟨none, none⟩) [0x01]).2.2 = some (.unexpectedMajor 0) :=
  ⟨(unmarshal_label ⟨none, some [7]⟩ [0x62, 0xC3, 0xA9]).1 (some ⟨some [0xC3, 0xA9], none⟩) []
      (by decide),
    ((unmarshal_label ⟨none, none⟩ [0x01]).2 0 1 [] rfl).1 (by decide) (by decide)⟩

/-! ## C18: duration and fees of a proposal -/

/-- A proposal from epoch -1 to the last `int64` epoch, at a price of 1 per epoch. -/
def overflowProposal : DealProposal :=
  ⟨0, 0, false, 0, 0, EmptyDealLabel, -1, 2 ^ 63 - 1, 1, 0, 0⟩

/-- A proposal over 1000 epochs at a price of 3 per epoch with a client collateral of 7. -/
def sampleProposal : DealProposal :=
  ⟨0, 0, false, 0, 0, EmptyDealLabel, 500, 1500, 3, 0, 7⟩

theorem wrapInt64_of_range (x : Int) (h1 : -2 ^ 63 ≤ x) (h2 : x < 2 ^ 63) : wrapInt64 x = x := by
  unfold wrapInt64
  have : (x + 2 ^ 63) % 2 ^ 64 = x + 2 ^ 63 :=
    Int.emod_eq_of_lt (by linarith) (by linarith)
  rw [this]
  ring

/-- C18, the claim as stated fails: `Duration` subtracts in `int64`, so for the well-formed
proposal from epoch -1 to epoch 2^63 - 1 it returns -2^63, not the difference 2^63, and at a
price of 1 the fee is -2^63, not the product of the price and the difference. -/
theorem proposal_fee_counterexample :
    overflowProposal.WellFormed ∧
      overflowProposal.Duration ≠ overflowProposal.EndEpoch - overflowProposal.StartEpoch ∧
      overflowProposal.Duration = -2 ^ 63 ∧
      overflowProposal.TotalStorageFee ≠
        overflowProposal.StoragePricePerEpoch *
          (overflowProposal.EndEpoch - overflowProposal.StartEpoch) ∧
      overflowProposal.ClientBalanceRequirement ≠
        overflowProposal.ClientCollateral +
          overflowProposal.StoragePricePerEpoch *
            (overflowProposal.EndEpoch - overflowProposal.StartEpoch) := by
  unfold DealProposal.WellFormed
  decide

/-- C18 (amended): `Duration` returns `EndEpoch - StartEpoch` computed in `int64`,
`TotalStorageFee` the exact product of `StoragePricePerEpoch` and that duration, and
`ClientBalanceRequirement` `ClientCollateral` plus that fee; whenever the difference of the
epochs lies in the `int64` range, these are the exact difference, the exact product with the
difference, and the collateral plus that product. -/
theorem proposal_fee (p : DealProposal) :
    p.Duration = wrapInt64 (p.EndEpoch - p.StartEpoch) ∧
    p.TotalStorageFee = p.StoragePricePerEpoch * p.Duration ∧
    p.ClientBalanceRequirement = p.ClientCollateral + p.TotalStorageFee ∧
    (-2 ^ 63 ≤ p.EndEpoch - p.StartEpoch → p.EndEpoch - p.StartEpoch < 2 ^ 63 →
      p.Duration = p.EndEpoch - p.StartEpoch ∧
        p.TotalStorageFee = p.StoragePricePerEpoch * (p.EndEpoch - p.StartEpoch) ∧
        p.ClientBalanceRequirement =
          p.ClientCollateral + p.StoragePricePerEpoch * (p.EndEpoch - p.StartEpoch)) := by
  refine ⟨rfl, rfl, rfl, fun h1 h2 => ?_⟩
  have hd : p.Duration = p.EndEpoch - p.StartEpoch := wrapInt64_of_range _ h1 h2
  refine ⟨hd, ?_, ?_⟩
  · rw [DealProposal.TotalStorageFee, hd]
  · rw [DealProposal.ClientBalanceRequirement, DealProposal.TotalStorageFee, hd]

/-- C18, witness: the proposal over epochs 500 to 1500 at price 3 with collateral 7 has
duration 1000, fee 3000 and client requirement 3007. -/
theorem proposal_fee_witness :
    sampleProposal.Duration = sampleProposal.EndEpoch - sampleProposal.StartEpoch ∧
      sampleProposal.TotalStorageFee =
        sampleProposal.StoragePricePerEpoch *
          (sampleProposal.EndEpoch - sampleProposal.StartEpoch) ∧
      sampleProposal.ClientBalanceRequirement =
        sampleProposal.ClientCollateral +
          sampleProposal.StoragePricePerEpoch *
            (sampleProposal.EndEpoch - sampleProposal.StartEpoch) :=
  (proposal_fee sampleProposal).2.2.2 (by decide) (by decide)

end Market

/-! The power actor (`actors/builtin/power/power_actor.go`): `EnrollCronEvent`.

The runtime is the caller of the message, the state of the actor and the store; a call ends
with an exit code and the state it leaves. An abort leaves the state as it was before the call.
-/

namespace Power

/-! ## Data model -/

/-- A chain epoch (`abi.ChainEpoch`, an `int64`). -/
abbrev ChainEpoch := Int

/-- An actor address. -/
abbrev Address := Nat

/-- A cron event (`CronEvent`). -/
structure CronEvent where
  MinerAddr : Address
  CallbackPayload : List Nat
  deriving DecidableEq, Repr

/-- The parameters of `EnrollCronEvent`. -/
structure EnrollCronEventParams where
  EventEpoch : ChainEpoch
  Payload : List Nat

/-- The fields of the power actor's `State` that `EnrollCronEvent` reads or writes. The cron
event queue, a multimap from epochs to events kept in the store under `CronEventQueue`, is
modelled by its content. -/
structure State where
  CronEventQueue : ChainEpoch → List CronEvent
  FirstCronEpoch : ChainEpoch

/-- The exit codes a call of `EnrollCronEvent` can end with. -/
inductive ExitCode
  | Ok
  | SysErrForbidden
  | ErrIllegalArgument
  | ErrIllegalState
  | ErrNotFound
  deriving DecidableEq, Repr

/-- The store operations of the transaction; each can fail. -/
inductive StoreOp
  | loadCronEvents
  | addCronEvent
  | flushCronEvents
  deriving DecidableEq, Repr

/-- How a store operation fails: the store of the runtime aborts the call itself with its own
exit code (`ErrNotFound` for a block that is missing), or the operation returns an error to the
actor. -/
inductive StoreFailure
  | aborts (code : ExitCode)
  | returns (err : String)
  deriving DecidableEq, Repr

/-- Modelled from the spec: the runtime (`vmr.Runtime`, not among the sources; the spec treats
the virtual machine as an external collaborator): the address and the code of the immediate
caller, the state of the actor, and the failures of the store. -/
structure Runtime where
  caller : Address
  callerCode : Migration.Cid
  state : State
  fault : StoreOp → Option StoreFailure

/-- Modelled from the spec: `State.appendCronEvent` (`power_state.go`, not among the sources;
the spec does not describe it): the event is added to the multimap under the key of the epoch,
and `FirstCronEpoch` is lowered to the epoch when the event lies before it. -/
def State.appendCronEvent (st : State) (fault : StoreOp → Option StoreFailure)
    (epoch : ChainEpoch) (event : CronEvent) : Except StoreFailure State :=
  match fault .addCronEvent with
  | some err => .error err
  | none =>
    .ok ⟨fun e => if e = epoch then st.CronEventQueue e ++ [event] else st.CronEventQueue e,
      if epoch < st.FirstCronEpoch then epoch else st.FirstCronEpoch⟩

/-- `Actor.EnrollCronEvent` (`power_actor.go:168-193`): the exit code of the call and the state
after it. `rt.ValidateImmediateCallerType` aborts the call of a caller of another code,
`rt.Abortf` and `builtin.RequireNoErr` abort with the given code; a store operation that aborts
the call itself ends it with the code of the store. -/
def Actor.EnrollCronEvent (rt : Runtime) (params : EnrollCronEventParams) : ExitCode × State :=
  -- rt.ValidateImmediateCallerType(builtin.StorageMinerActorCodeID)
  if rt.callerCode ≠ Migration.builtin0.StorageMinerActorCodeID then
    (.SysErrForbidden, rt.state)
  else
    let minerAddr := rt.caller
    let minerEvent : CronEvent := ⟨minerAddr, params.Payload⟩
    -- Ensure it is not possible to enter a large negative number
    if params.EventEpoch < 0 then
      (.ErrIllegalArgument, rt.state)
    else
      -- rt.State().Transaction(&st, ...)
      match rt.fault .loadCronEvents with
      | some (.aborts code) => (code, rt.state)
      | some (.returns _) => (.ErrIllegalState, rt.state)
      | none =>
        match rt.state.appendCronEvent rt.fault params.EventEpoch minerEvent with
        | .error (.aborts code) => (code, rt.state)
        | .error (.returns _) => (.ErrIllegalState, rt.state)
        | .ok st =>
          match rt.fault .flushCronEvents with
          | some (.aborts code) => (code, rt.state)
          | some (.returns _) => (.ErrIllegalState, rt.state)
          | none => (.Ok, st)

/-! ## C19: enrolling a cron event -/

/-- A state with an empty queue. -/
def emptyState : State := ⟨fun _ => [], 0⟩

/-- A call from an account actor at address 100. -/
def accountCall : Runtime :=
  ⟨100, Migration.builtin0.AccountActorCodeID, emptyState, fun _ => none⟩

/-- A call from a miner actor at address 1000. -/
def minerCall : Runtime :=
  ⟨1000, Migration.builtin0.StorageMinerActorCodeID, emptyState, fun _ => none⟩

/-- A call from a miner actor at address 1000 while the load of the queue returns an error. -/
def minerCallStoreDown : Runtime :=
  ⟨1000, Migration.builtin0.StorageMinerActorCodeID, emptyState,
    fun op => if op = .loadCronEvents then some (.returns "malformed queue root") else none⟩

/-- C19, the claim as stated fails: a call from a caller that is not a storage-miner actor is
aborted by the caller validation; with a negative epoch the exit code is not
`ErrIllegalArgument`, and with epoch 5 no event is appended to the queue at epoch 5.  A call
from a miner with epoch 5 while the load of the queue returns an error aborts with
`ErrIllegalState` (`builtin.RequireNoErr`, `power_actor.go:183`) and appends nothing either. -/
theorem enroll_cron_event_counterexample :
    (Actor.EnrollCronEvent accountCall ⟨-1, [1, 2]⟩).1 = .SysErrForbidden ∧
      (Actor.EnrollCronEvent accountCall ⟨-1, [1, 2]⟩).1 ≠ .ErrIllegalArgument ∧
      (Actor.EnrollCronEvent accountCall ⟨5, [1, 2]⟩).1 = .SysErrForbidden ∧
      (Actor.EnrollCronEvent accountCall ⟨5, [1, 2]⟩).2.CronEventQueue 5 = [] ∧
      (Actor.EnrollCronEvent minerCallStoreDown ⟨5, [1, 2]⟩).1 = .ErrIllegalState ∧
      (Actor.EnrollCronEvent minerCallStoreDown ⟨5, [1, 2]⟩).2.CronEventQueue 5 = [] := by
  decide

/-- C19 (amended): for every call of `EnrollCronEvent` by a storage-miner actor, with
`EventEpoch < 0` the call aborts with `ErrIllegalArgument` and leaves the state, and with it the
cron event queue, unchanged; with `EventEpoch >= 0`, when the store does not fail, the call
succeeds and the event carrying the caller's address and the given payload is appended to the
queue at that epoch, the queue at every other epoch being unchanged. -/
theorem enroll_cron_event (rt : Runtime) (params : EnrollCronEventParams)
    (hcaller : rt.callerCode = Migration.builtin0.StorageMinerActorCodeID) :
    (params.EventEpoch < 0 →
      (Actor.EnrollCronEvent rt params).1 = .ErrIllegalArgument ∧
        (Actor.EnrollCronEvent rt params).2.CronEventQueue = rt.state.CronEventQueue ∧
        (Actor.EnrollCronEvent rt params).2.FirstCronEpoch = rt.state.FirstCronEpoch) ∧
    (0 ≤ params.EventEpoch → (∀ op, rt.fault op = none) →
      (Actor.EnrollCronEvent rt params).1 = .Ok ∧
        (Actor.EnrollCronEvent rt params).2.CronEventQueue params.EventEpoch =
          rt.state.CronEventQueue params.EventEpoch ++ [⟨rt.caller, params.Payload⟩] ∧
        ∀ e, e ≠ params.EventEpoch →
          (Actor.EnrollCronEvent rt params).2.CronEventQueue e = rt.state.CronEventQueue e) := by
  constructor
  · intro hneg
    simp [Actor.EnrollCronEvent, hcaller, hneg]
  · intro hpos hstore
    have hn : ¬ params.EventEpoch < 0 := not_lt.mpr hpos
    simp only [Actor.EnrollCronEvent, hcaller, ne_eq, not_true_eq_false, if_false, hn,
      hstore, State.appendCronEvent]
    refine ⟨trivial, by simp, fun e he => by simp [he]⟩

/-- C19, witness: a miner's call with epoch -1 aborts with `ErrIllegalArgument`, and its call
with epoch 5 appends its event to the queue at epoch 5. -/
theorem enroll_cron_event_witness :
    (Actor.EnrollCronEvent minerCall ⟨-1, [1, 2]⟩).1 = .ErrIllegalArgument ∧
      (Actor.EnrollCronEvent minerCall ⟨5, [1, 2]⟩).2.CronEventQueue 5 =
        minerCall.state.CronEventQueue 5 ++ [⟨minerCall.caller, [1, 2]⟩] :=
  ⟨((enroll_cron_event minerCall ⟨-1, [1, 2]⟩ rfl).1 (by decide)).1,
    ((enroll_cron_event minerCall ⟨5, [1, 2]⟩ rfl).2 (by decide) (fun _ => rfl)).2.1⟩

end Power
